import Mathlib

/-!
# lvn::shared_ptr — reference-counted shared ownership

A shallow embedding of `smart_pointers/shared_ptr/shared_ptr_base.hpp` and
`smart_pointers/shared_ptr/shared_ptr.hpp`.

* Addresses are natural numbers, `0` is `nullptr`.
* The free store of counter objects is a map from addresses to counter records; the counter
  allocated by the `k`-th successful `new sp_counter_ptr<Ptr>(ptr)` lives at address `k`, and the
  address of a destroyed counter is not handed out again.
* `std::atomic<int>` is an `Int` kept in the 32-bit two's-complement range: `atomic_fetch_add`
  stores the wrapped sum and returns the previous value.
* `dispose()` and `destroy()` are observed through ghost fields of the counter record and through
  the log of evaluated `delete` expressions on managed pointers.
-/

namespace lvn

/-- An address; `0` is `nullptr`. -/
abbrev Addr := Nat

/-- Largest value of `int`. -/
def INT_MAX : Int := 2147483647

/-- Smallest value of `int`. -/
def INT_MIN : Int := -2147483648

/-- Reduction of an integer to the range of `int` (two's complement, 32 bits). -/
def wrap_int (x : Int) : Int := (x + 2147483648) % 4294967296 - 2147483648

/-- Source: `std::atomic_fetch_add(&v, d)`: the value returned (the old one) and the value stored. -/
def atomic_fetch_add (v d : Int) : Int × Int := (v, wrap_int (v + d))

/-- An exception object in flight. -/
inductive Exn where
  | bad_alloc
  | other (code : Nat)
deriving DecidableEq, Repr

/-- How an operation can fail: an exception leaves it, or an `assert` aborts the program. -/
inductive Fault where
  | thrown (e : Exn)
  | assert_failed
deriving DecidableEq, Repr

/-- The counter object `sp_counter_ptr<Ptr>` (with the two counts of `sp_counter_base`).
`disposed` and `destroyed` are ghost fields counting the calls of `dispose()` and `destroy()`. -/
structure sp_counter_ptr where
  m_use_count : Int
  m_weak_count : Int
  m_ptr : Addr
  disposed : Nat
  destroyed : Nat
deriving DecidableEq, Repr

/-- The free store: the counter objects by address, how many counters were allocated so far
(they live at addresses `1 .. allocated`), and the operands of the `delete` expressions
evaluated on managed pointers, oldest first (a null operand is logged too, although deleting
it frees nothing). -/
structure Heap where
  cnt : Nat → sp_counter_ptr
  allocated : Nat
  deleted : List Addr

/-- The empty free store. -/
def Heap.empty : Heap := ⟨fun _ => ⟨0, 0, 0, 0, 0⟩, 0, []⟩

/-- Overwrite the counter object at address `c`. -/
def Heap.store (h : Heap) (c : Nat) (k : sp_counter_ptr) : Heap :=
  { h with cnt := Function.update h.cnt c k }

/-- Source: `sp_counter_base()` followed by `sp_counter_ptr(ptr)`: both counts start at 1. -/
def sp_counter_ptr.ctor (ptr : Addr) : sp_counter_ptr := ⟨1, 1, ptr, 0, 0⟩

/-- Source: `sp_counter_ptr::dispose()`: `delete m_ptr`. -/
def dispose (h : Heap) (c : Nat) : Heap :=
  let k := h.cnt c
  { (h.store c { k with disposed := k.disposed + 1 }) with deleted := h.deleted ++ [k.m_ptr] }

/-- Source: `sp_counter_ptr::destroy()`: `delete this`. -/
def destroy (h : Heap) (c : Nat) : Heap :=
  let k := h.cnt c
  h.store c { k with destroyed := k.destroyed + 1 }

/-- Source: `sp_counter_base::add_ref_copy()`. -/
def add_ref_copy (h : Heap) (c : Nat) : Heap :=
  let k := h.cnt c
  h.store c { k with m_use_count := (atomic_fetch_add k.m_use_count 1).2 }

/-- Source: `sp_counter_base::release()`. -/
def release (h : Heap) (c : Nat) : Heap :=
  let k := h.cnt c
  let r := atomic_fetch_add k.m_use_count (-1)
  let h1 := h.store c { k with m_use_count := r.2 }
  if r.1 = 1 then
    let h2 := dispose h1 c
    let k2 := h2.cnt c
    let w := atomic_fetch_add k2.m_weak_count (-1)
    let h3 := h2.store c { k2 with m_weak_count := w.2 }
    if w.1 = 1 then destroy h3 c else h3
  else h1

/-- Source: `sp_counter_base::weak_add_ref()`. -/
def weak_add_ref (h : Heap) (c : Nat) : Heap :=
  let k := h.cnt c
  h.store c { k with m_weak_count := (atomic_fetch_add k.m_weak_count 1).2 }

/-- Source: `sp_counter_base::weak_release()`. -/
def weak_release (h : Heap) (c : Nat) : Heap :=
  let k := h.cnt c
  let w := atomic_fetch_add k.m_weak_count (-1)
  let h1 := h.store c { k with m_weak_count := w.2 }
  if w.1 = 1 then destroy h1 c else h1

/-- Source: `sp_counter_base::get_use_count()`. -/
def sp_counter_ptr.get_use_count (k : sp_counter_ptr) : Int := k.m_use_count

/-- The count handle `shared_count`: a pointer to a counter object, or null. -/
structure shared_count where
  m_ptr : Nat
deriving DecidableEq, Repr

namespace shared_count

/-- Source: `shared_count()`. -/
def ctor_default : shared_count := ⟨0⟩

/-- Source: `shared_count(Ptr ptr)`. `alloc_throws` is the outcome of `new sp_counter_ptr<Ptr>(ptr)`:
`none` when the allocation succeeds, `some e` when it throws `e`. -/
def ctor_ptr (h : Heap) (alloc_throws : Option Exn) (ptr : Addr) :
    Heap × Except Fault shared_count :=
  match alloc_throws with
  | none =>
    let a := h.allocated + 1
    ({ (h.store a (sp_counter_ptr.ctor ptr)) with allocated := a }, .ok ⟨a⟩)
  | some e =>
    ({ h with deleted := h.deleted ++ [ptr] }, .error (.thrown e))

/-- Source: `~shared_count()`. -/
def dtor (h : Heap) (self : shared_count) : Heap :=
  if self.m_ptr ≠ 0 then release h self.m_ptr else h

/-- Source: `shared_count(const shared_count& r)`. -/
def ctor_copy (h : Heap) (r : shared_count) : Heap × shared_count :=
  (if r.m_ptr ≠ 0 then add_ref_copy h r.m_ptr else h, ⟨r.m_ptr⟩)

/-- Source: `shared_count::operator=(const shared_count& r)`; returns the new value of `*this`. -/
def assign (h : Heap) (self r : shared_count) : Heap × shared_count :=
  let tmp := r.m_ptr
  if tmp ≠ self.m_ptr then
    let h1 := if tmp ≠ 0 then add_ref_copy h tmp else h
    let h2 := if self.m_ptr ≠ 0 then release h1 self.m_ptr else h1
    (h2, ⟨tmp⟩)
  else (h, self)

/-- Source: `shared_count::swap(shared_count& r)`; returns the new `*this` and the new `r`. -/
def swap (self r : shared_count) : shared_count × shared_count :=
  let tmp := r.m_ptr
  (⟨tmp⟩, ⟨self.m_ptr⟩)

/-- Source: `shared_count::get_use_count()`. -/
def get_use_count (h : Heap) (self : shared_count) : Int :=
  if self.m_ptr ≠ 0 then (h.cnt self.m_ptr).get_use_count else 0

/-- Source: `shared_count::unique()`. -/
def unique (h : Heap) (self : shared_count) : Bool :=
  decide (get_use_count h self = 1)

end shared_count

/-- The handle `shared_ptr_base<T>` (and `shared_ptr<T>`, which adds no state). -/
structure shared_ptr_base where
  m_ptr : Addr
  m_ref_count : shared_count
deriving DecidableEq, Repr

namespace shared_ptr_base

/-- Source: `shared_ptr_base()`. -/
def ctor_default : shared_ptr_base := ⟨0, shared_count.ctor_default⟩

/-- Source: `shared_ptr_base(std::nullptr_t)`. -/
def ctor_nullptr : shared_ptr_base := ⟨0, shared_count.ctor_default⟩

/-- Source: `shared_ptr_base(Y* ptr)`. -/
def ctor_ptr (h : Heap) (alloc_throws : Option Exn) (ptr : Addr) :
    Heap × Except Fault shared_ptr_base :=
  match shared_count.ctor_ptr h alloc_throws ptr with
  | (h1, .ok c) => (h1, .ok ⟨ptr, c⟩)
  | (h1, .error f) => (h1, .error f)

/-- The aliasing constructor `shared_ptr_base(const shared_ptr_base<Y>& r, T* ptr)`. -/
def ctor_alias (h : Heap) (r : shared_ptr_base) (ptr : Addr) : Heap × shared_ptr_base :=
  let c := shared_count.ctor_copy h r.m_ref_count
  (c.1, ⟨ptr, c.2⟩)

/-- The copy constructor `shared_ptr_base(const shared_ptr_base<Y>& r)`; the implicitly-declared
copy constructor, chosen for an argument of the same type, copies the two members in the same
way. -/
def ctor_copy (h : Heap) (r : shared_ptr_base) : Heap × shared_ptr_base :=
  let c := shared_count.ctor_copy h r.m_ref_count
  (c.1, ⟨r.m_ptr, c.2⟩)

/-- The body of the constructor template declared with the parameter `shared_ptr_base&& r`
(lines 189-197); returns the constructed handle and the new value of `r`. -/
def ctor_move (r : shared_ptr_base) : shared_ptr_base × shared_ptr_base :=
  let s := shared_count.swap shared_count.ctor_default r.m_ref_count
  (⟨r.m_ptr, s.1⟩, ⟨0, s.2⟩)

/-- Source: `~shared_ptr_base()` (implicit): destroys the member `m_ref_count`. -/
def dtor (h : Heap) (self : shared_ptr_base) : Heap :=
  shared_count.dtor h self.m_ref_count

/-- Source: `shared_ptr_base::swap(shared_ptr_base<T>& other)`; returns the new `*this` and `other`. -/
def swap (self other : shared_ptr_base) : shared_ptr_base × shared_ptr_base :=
  let s := shared_count.swap self.m_ref_count other.m_ref_count
  (⟨other.m_ptr, s.1⟩, ⟨self.m_ptr, s.2⟩)

/-- Source: `shared_ptr_base::operator=(const shared_ptr_base<Y>& r)`; returns the new `*this`. -/
def assign_copy (h : Heap) (self r : shared_ptr_base) : Heap × shared_ptr_base :=
  let c := shared_count.assign h self.m_ref_count r.m_ref_count
  (c.1, ⟨r.m_ptr, c.2⟩)

/-- Source: `shared_ptr_base::operator=(shared_ptr_base<Y>&& r)` for distinct objects `*this` and `r`,
with the temporary built by `ctor_move`; returns the new `*this` and the new `r`. -/
def assign_move (h : Heap) (self r : shared_ptr_base) : Heap × shared_ptr_base × shared_ptr_base :=
  let m := ctor_move r
  let s := swap m.1 self
  (dtor h s.1, s.2, m.2)

/-- The move construction a program gets. In the template of lines 189-197 the parameter `Y`
occurs in no function parameter and has no default, so it cannot be deduced and the template
never takes part in overload resolution; the class declares no other copy or move constructor,
so for an rvalue of the same type the implicitly-declared move constructor is chosen. It
initialises member by member: `m_ptr` is copied, and `m_ref_count` is copy-constructed, because
`shared_count` declares a copy constructor and so has no move constructor. `r` keeps its value.
Returns the constructed handle and `r`. -/
def ctor_move_implicit (h : Heap) (r : shared_ptr_base) :
    Heap × shared_ptr_base × shared_ptr_base :=
  let c := shared_count.ctor_copy h r.m_ref_count
  (c.1, ⟨r.m_ptr, c.2⟩, r)

/-- The move assignment a program gets. For an rvalue of the same type the implicitly-declared
move assignment operator is a better match than the template of lines 212-217; it assigns member
by member, `m_ref_count` through `shared_count::operator=(const shared_count&)`, the only
assignment `shared_count` has. (The template, were it called, would build its temporary with the
implicit move constructor and end in the same state.) `r` keeps its value.
Returns the new `*this` and `r`. -/
def assign_move_implicit (h : Heap) (self r : shared_ptr_base) :
    Heap × shared_ptr_base × shared_ptr_base :=
  let c := shared_count.assign h self.m_ref_count r.m_ref_count
  (c.1, ⟨r.m_ptr, c.2⟩, r)

/-- Source: `shared_ptr_base::reset()`; returns the new `*this`. -/
def reset (h : Heap) (self : shared_ptr_base) : Heap × shared_ptr_base :=
  let s := swap ctor_default self
  (dtor h s.1, s.2)

/-- The condition of the `assert` in `reset(Y* ptr)`. -/
def reset_assertion (self : shared_ptr_base) (ptr : Addr) : Bool :=
  decide (ptr = 0) || decide (ptr ≠ self.m_ptr)

/-- Source: `shared_ptr_base::reset(Y* ptr)`; returns the new `*this` (when an exception leaves the
function `*this` keeps its value). -/
def reset_ptr (h : Heap) (alloc_throws : Option Exn) (self : shared_ptr_base) (ptr : Addr) :
    Heap × Except Fault shared_ptr_base :=
  if reset_assertion self ptr then
    match ctor_ptr h alloc_throws ptr with
    | (h1, .ok t) =>
      let s := swap t self
      (dtor h1 s.1, .ok s.2)
    | (h1, .error f) => (h1, .error f)
  else (h, .error .assert_failed)

/-- The condition of the `assert` in `operator*` and in `operator->`. -/
def deref_assertion (self : shared_ptr_base) : Bool :=
  decide (self.m_ptr ≠ 0)

/-- Source: `shared_ptr_base::operator*()`; the result is the object at the address returned. -/
def operator_star (self : shared_ptr_base) : Except Fault Addr :=
  if deref_assertion self then .ok self.m_ptr else .error .assert_failed

/-- Source: `shared_ptr_base::operator->()`. -/
def operator_arrow (self : shared_ptr_base) : Except Fault Addr :=
  if deref_assertion self then .ok self.m_ptr else .error .assert_failed

/-- Source: `shared_ptr_base::get()`. -/
def get (self : shared_ptr_base) : Addr := self.m_ptr

/-- Source: `shared_ptr_base::operator bool()`. -/
def to_bool (self : shared_ptr_base) : Bool :=
  if self.m_ptr = 0 then false else true

/-- Source: `shared_ptr_base::unique()`. -/
def unique (h : Heap) (self : shared_ptr_base) : Bool :=
  self.m_ref_count.unique h

/-- Source: `shared_ptr_base::use_count()`. -/
def use_count (h : Heap) (self : shared_ptr_base) : Int :=
  self.m_ref_count.get_use_count h

end shared_ptr_base

/-- A program state: the free store and the live handles (the handle variables in scope). -/
structure State where
  heap : Heap
  handles : List shared_ptr_base

/-- The state of a program that has created no handle yet. -/
def State.init : State := ⟨Heap.empty, []⟩

/-- The handle operations. Handles are named by their position in `State.handles`; a newly
constructed handle is appended, a destroyed one is erased. `ctor_move` and `assign_move` run the
move constructor and the move assignment as their bodies are written; the implicitly-declared
move operations act on the state as `ctor_copy` and `assign_copy` do. -/
inductive Op where
  | ctor_default
  | ctor_nullptr
  | ctor_ptr (ptr : Addr) (alloc_throws : Option Exn)
  | ctor_copy (i : Nat)
  | ctor_alias (i : Nat) (ptr : Addr)
  | ctor_move (i : Nat)
  | assign_copy (i j : Nat)
  | assign_move (i j : Nat)
  | swap (i j : Nat)
  | reset (i : Nat)
  | reset_ptr (i : Nat) (ptr : Addr) (alloc_throws : Option Exn)
  | dtor (i : Nat)
deriving DecidableEq, Repr

/-- One handle operation. The result is `none` when the operation names a handle that does not
exist or when an `assert` aborts the program. An exception thrown by a constructor or by
`reset(ptr)` is caught by the caller: the program goes on without the new handle.
In `assign_copy i j`, `assign_move i j` and `swap i j` handle `i` is `*this` and handle `j` is the
argument; with `i = j` the move assignment empties `*this` into the temporary and swaps it back,
which changes nothing. -/
def step (s : State) : Op → Option State
  | .ctor_default => some ⟨s.heap, s.handles ++ [shared_ptr_base.ctor_default]⟩
  | .ctor_nullptr => some ⟨s.heap, s.handles ++ [shared_ptr_base.ctor_nullptr]⟩
  | .ctor_ptr ptr a =>
    match shared_ptr_base.ctor_ptr s.heap a ptr with
    | (h, .ok x) => some ⟨h, s.handles ++ [x]⟩
    | (h, .error _) => some ⟨h, s.handles⟩
  | .ctor_copy i =>
    match s.handles[i]? with
    | some r => let c := shared_ptr_base.ctor_copy s.heap r
                some ⟨c.1, s.handles ++ [c.2]⟩
    | none => none
  | .ctor_alias i ptr =>
    match s.handles[i]? with
    | some r => let c := shared_ptr_base.ctor_alias s.heap r ptr
                some ⟨c.1, s.handles ++ [c.2]⟩
    | none => none
  | .ctor_move i =>
    match s.handles[i]? with
    | some r => let m := shared_ptr_base.ctor_move r
                some ⟨s.heap, s.handles.set i m.2 ++ [m.1]⟩
    | none => none
  | .assign_copy i j =>
    match s.handles[i]?, s.handles[j]? with
    | some a, some b => let c := shared_ptr_base.assign_copy s.heap a b
                        some ⟨c.1, s.handles.set i c.2⟩
    | _, _ => none
  | .assign_move i j =>
    match s.handles[i]?, s.handles[j]? with
    | some a, some b =>
      if i = j then some s
      else let c := shared_ptr_base.assign_move s.heap a b
           some ⟨c.1, (s.handles.set i c.2.1).set j c.2.2⟩
    | _, _ => none
  | .swap i j =>
    match s.handles[i]?, s.handles[j]? with
    | some a, some b => let c := shared_ptr_base.swap a b
                        some ⟨s.heap, (s.handles.set i c.1).set j c.2⟩
    | _, _ => none
  | .reset i =>
    match s.handles[i]? with
    | some a => let c := shared_ptr_base.reset s.heap a
                some ⟨c.1, s.handles.set i c.2⟩
    | none => none
  | .reset_ptr i ptr al =>
    match s.handles[i]? with
    | some a =>
      match shared_ptr_base.reset_ptr s.heap al a ptr with
      | (h, .ok x) => some ⟨h, s.handles.set i x⟩
      | (h, .error (.thrown _)) => some ⟨h, s.handles⟩
      | (_, .error .assert_failed) => none
    | none => none
  | .dtor i =>
    match s.handles[i]? with
    | some a => some ⟨shared_ptr_base.dtor s.heap a, s.handles.eraseIdx i⟩
    | none => none

/-- A finite sequence of handle operations, run in order. -/
def run (s : State) : List Op → Option State
  | [] => some s
  | op :: ops => (step s op).bind fun t => run t ops

/-- The states reachable from no handles by handle operations, every transition (state before,
operation, state after) being allowed by `ok`. -/
inductive Reach (ok : State → Op → State → Prop) : State → Prop where
  | init : Reach ok State.init
  | step {s t : State} (op : Op) : Reach ok s → step s op = some t → ok s op t → Reach ok t

/-- The states reachable from no handles by any finite sequence of handle operations. -/
def Reachable (s : State) : Prop := Reach (fun _ _ _ => True) s

/-- The number of live handles that reference the counter at address `c`. -/
def State.refs (s : State) (c : Nat) : Nat :=
  s.handles.countP fun x => decide (x.m_ref_count.m_ptr = c)

/-- A raw pointer as `new` returns it: not null, managed by no counter, never deleted. -/
def fresh (h : Heap) (p : Addr) : Prop :=
  p ≠ 0 ∧ p ∉ h.deleted ∧ ∀ c, 1 ≤ c → c ≤ h.allocated → (h.cnt c).m_ptr ≠ p

/-- The raw pointer an operation hands over, if it takes one, satisfies `okp` in the free store
the operation starts from. -/
def op_ptr_ok (okp : Heap → Addr → Prop) (s : State) : Op → Prop
  | .ctor_ptr ptr _ => okp s.heap ptr
  | .reset_ptr _ ptr _ => okp s.heap ptr
  | _ => True

/-- The raw pointer an operation hands over, if it takes one, is fresh. -/
def op_fresh (s : State) (op : Op) : Prop := op_ptr_ok fresh s op

/-- The states reachable by handle operations whose raw pointers are all fresh. -/
def ReachableFresh (s : State) : Prop := Reach (fun s op _ => op_fresh s op) s

/-- The states reachable by handle operations whose raw pointers are all fresh, through states
that never hold more than `INT_MAX` handles. -/
def ReachableBounded (s : State) : Prop :=
  Reach (fun s op t => op_fresh s op ∧ (t.handles.length : Int) ≤ INT_MAX) s

/-- The reference counts seen from the handles: how many live handles reference each counter
(nothing is counted at the null address). -/
def State.absrefs (s : State) (c : Nat) : Nat := if c = 0 then 0 else s.refs c

/-- What one handle operation does to the free store, together with the change in the number of
handles that reference each counter: a handle more on a counter that already has one
(`add_ref_copy`), a handle less (`release`), a new counter with its first handle, or a failed
allocation. `okp` constrains the raw pointers, `okn` the number of handles a counter gets. -/
inductive Micro (okp : Heap → Addr → Prop) (okn : Nat → Prop) :
    Heap × (Nat → Nat) → Heap × (Nat → Nat) → Prop where
  | acquire {h : Heap} {r r2 : Nat → Nat} (c : Nat) (hc : c ≠ 0) (h1 : 1 ≤ r c)
      (hr : r2 c = r c + 1) (hother : ∀ d, d ≠ c → r2 d = r d) (hn : okn (r2 c)) :
      Micro okp okn (h, r) (add_ref_copy h c, r2)
  | drop {h : Heap} {r r2 : Nat → Nat} (c : Nat) (hc : c ≠ 0)
      (hr : r2 c + 1 = r c) (hother : ∀ d, d ≠ c → r2 d = r d) :
      Micro okp okn (h, r) (release h c, r2)
  | alloc {h : Heap} {r r2 : Nat → Nat} (ptr : Addr) (hp : okp h ptr)
      (hr : r2 (h.allocated + 1) = r (h.allocated + 1) + 1)
      (hother : ∀ d, d ≠ h.allocated + 1 → r2 d = r d) :
      Micro okp okn (h, r) ((shared_ptr_base.ctor_ptr h none ptr).1, r2)
  | fail {h : Heap} {r : Nat → Nat} (ptr : Addr) (e : Exn) (hp : okp h ptr) :
      Micro okp okn (h, r) ((shared_ptr_base.ctor_ptr h (some e) ptr).1, r)

/-- The bookkeeping of counters as long as no counter ever has more than `INT_MAX` handles, on
a free store `a.1` and handle counts `a.2`: only allocated counters have handles; the strong
count of an allocated counter is exactly the number of its handles; a counter with a handle is
neither disposed nor destroyed and has weak count 1; a counter without handles has been disposed
once and destroyed once. -/
def CountInv (a : Heap × (Nat → Nat)) : Prop :=
  (∀ c, 1 ≤ a.2 c → 1 ≤ c ∧ c ≤ a.1.allocated) ∧
  ∀ c, 1 ≤ c → c ≤ a.1.allocated →
    (a.1.cnt c).m_use_count = a.2 c ∧ (a.2 c : Int) ≤ INT_MAX ∧
    (1 ≤ a.2 c → (a.1.cnt c).disposed = 0 ∧ (a.1.cnt c).destroyed = 0 ∧
      (a.1.cnt c).m_weak_count = 1) ∧
    (a.2 c = 0 → (a.1.cnt c).disposed = 1 ∧ (a.1.cnt c).destroyed = 1 ∧
      (a.1.cnt c).m_weak_count = 0)

/-- The bookkeeping of managed objects when every raw pointer handed over is fresh: only
allocated counters have handles; the object of an allocated counter has been deleted exactly when
the counter has run `dispose()`; distinct counters manage distinct objects. -/
def PtrInv (a : Heap × (Nat → Nat)) : Prop :=
  (∀ c, 1 ≤ a.2 c → 1 ≤ c ∧ c ≤ a.1.allocated) ∧
  ∀ c, 1 ≤ c → c ≤ a.1.allocated →
    ((a.1.cnt c).m_ptr ∈ a.1.deleted ↔ 1 ≤ (a.1.cnt c).disposed) ∧
    ∀ d, 1 ≤ d → d ≤ a.1.allocated → d ≠ c → (a.1.cnt d).m_ptr ≠ (a.1.cnt c).m_ptr

/-- The state after `shared_ptr<A> sp(new A)` (the object at address `p`) and `k` copies of `sp`:
`k + 1` handles share the counter at address 1. -/
def fan (p : Addr) (k : Nat) : State :=
  ⟨{ (Heap.empty.store 1 ⟨wrap_int (k + 1), 1, p, 0, 0⟩) with allocated := 1 },
   List.replicate (k + 1) ⟨p, ⟨1⟩⟩⟩

/-- Handles given up one by one: each is either reset (`true`) or destroyed (`false`). -/
def release_all (h : Heap) : List (shared_ptr_base × Bool) → Heap
  | [] => h
  | (x, b) :: rest =>
    release_all (if b then (shared_ptr_base.reset h x).1 else shared_ptr_base.dtor h x) rest

/-- The operations of the counter object. -/
inductive CounterOp where
  | add_ref_copy
  | release
  | weak_add_ref
  | weak_release
deriving DecidableEq, Repr

/-- One operation on the counter at address `c`. -/
def counter_step (c : Nat) (h : Heap) : CounterOp → Heap
  | .add_ref_copy => add_ref_copy h c
  | .release => release h c
  | .weak_add_ref => weak_add_ref h c
  | .weak_release => weak_release h c

/-- A sequence of operations on the counter at address `c`, run in order. -/
def counter_run (c : Nat) (h : Heap) (ops : List CounterOp) : Heap :=
  ops.foldl (counter_step c) h

/-- The outstanding strong and weak references after a sequence of counter operations that
starts with `sw.1` strong and `sw.2` weak references outstanding, when every `release` matches an
outstanding strong reference and every `weak_release` an outstanding weak reference; `none`
otherwise. `add_ref_copy` and `weak_add_ref` are always allowed. -/
def matched (sw : Nat × Nat) : List CounterOp → Option (Nat × Nat)
  | [] => some sw
  | .add_ref_copy :: ops => matched (sw.1 + 1, sw.2) ops
  | .release :: ops => if 1 ≤ sw.1 then matched (sw.1 - 1, sw.2) ops else none
  | .weak_add_ref :: ops => matched (sw.1, sw.2 + 1) ops
  | .weak_release :: ops => if 1 ≤ sw.2 then matched (sw.1, sw.2 - 1) ops else none

/-- As `matched`, for sequences that moreover follow the ownership protocol within the range of
`int`: `add_ref_copy` is called through an outstanding strong reference, `weak_add_ref` through
an outstanding strong or weak reference, and neither count is taken beyond `INT_MAX`. -/
def protocol (sw : Nat × Nat) : List CounterOp → Option (Nat × Nat)
  | [] => some sw
  | .add_ref_copy :: ops =>
    if 1 ≤ sw.1 ∧ sw.1 < 2147483647 then protocol (sw.1 + 1, sw.2) ops else none
  | .release :: ops => if 1 ≤ sw.1 then protocol (sw.1 - 1, sw.2) ops else none
  | .weak_add_ref :: ops =>
    if (1 ≤ sw.1 ∨ 1 ≤ sw.2) ∧ sw.2 + 1 < 2147483647 then protocol (sw.1, sw.2 + 1) ops
    else none
  | .weak_release :: ops => if 1 ≤ sw.2 then protocol (sw.1, sw.2 - 1) ops else none

/-- The counter object managing `p` when `sw.1` strong and `sw.2` weak references are
outstanding: the strong count is `sw.1`; the weak count is `sw.2`, plus one while a strong
reference is outstanding; `dispose()` has run once exactly when no strong reference is left, and
`destroy()` has run once exactly when no reference at all is left. -/
def counter_at (p : Addr) (sw : Nat × Nat) : sp_counter_ptr :=
  { m_use_count := sw.1
    m_weak_count := sw.2 + (if 1 ≤ sw.1 then 1 else 0)
    m_ptr := p
    disposed := if sw.1 = 0 then 1 else 0
    destroyed := if sw.1 = 0 ∧ sw.2 = 0 then 1 else 0 }

/-- The states reachable by handle operations through states that never hold more than
`INT_MAX` handles. -/
def ReachableWithinInt (s : State) : Prop :=
  Reach (fun _ _ t => (t.handles.length : Int) ≤ INT_MAX) s

/-- The state after `shared_ptr<A> sp(new A)` (the object at address `p`), `k` copies of `sp`,
and the destruction of `j` of these `k + 1` handles: the counter at address 1 has been released
`j` times. -/
def drain (p : Addr) (k j : Nat) : State :=
  ⟨Nat.iterate (fun g => release g 1) j (fan p k).heap, List.replicate (k + 1 - j) ⟨p, ⟨1⟩⟩⟩

/-! ## The counter operations, field by field -/

theorem wrap_int_of_range {x : Int} (h1 : INT_MIN ≤ x) (h2 : x ≤ INT_MAX) : wrap_int x = x := by
  unfold INT_MIN at h1
  unfold INT_MAX at h2
  unfold wrap_int
  omega

theorem wrap_int_succ (x : Int) : wrap_int (wrap_int x + 1) = wrap_int (x + 1) := by
  unfold wrap_int
  omega

theorem wrap_int_pred (x : Int) : wrap_int (wrap_int x - 1) = wrap_int (x - 1) := by
  unfold wrap_int
  omega

@[simp] theorem store_cnt_self (h : Heap) (c : Nat) (k : sp_counter_ptr) :
    (h.store c k).cnt c = k := by
  simp [Heap.store]

@[simp] theorem store_cnt_ne (h : Heap) {c d : Nat} (k : sp_counter_ptr) (hne : d ≠ c) :
    (h.store c k).cnt d = h.cnt d := by
  simp [Heap.store, Function.update_noteq hne]

@[simp] theorem store_allocated (h : Heap) (c : Nat) (k : sp_counter_ptr) :
    (h.store c k).allocated = h.allocated := rfl

@[simp] theorem store_deleted (h : Heap) (c : Nat) (k : sp_counter_ptr) :
    (h.store c k).deleted = h.deleted := rfl

theorem add_ref_copy_cnt_self (h : Heap) (c : Nat) :
    (add_ref_copy h c).cnt c =
      { h.cnt c with m_use_count := wrap_int ((h.cnt c).m_use_count + 1) } := by
  simp [add_ref_copy, atomic_fetch_add]

theorem add_ref_copy_cnt_ne (h : Heap) {c d : Nat} (hne : d ≠ c) :
    (add_ref_copy h c).cnt d = h.cnt d := by
  simp [add_ref_copy, hne]

@[simp] theorem add_ref_copy_allocated (h : Heap) (c : Nat) :
    (add_ref_copy h c).allocated = h.allocated := rfl

@[simp] theorem add_ref_copy_deleted (h : Heap) (c : Nat) :
    (add_ref_copy h c).deleted = h.deleted := rfl

theorem release_cnt_ne (h : Heap) {c d : Nat} (hne : d ≠ c) :
    (release h c).cnt d = h.cnt d := by
  simp only [release, atomic_fetch_add, dispose, destroy]
  split_ifs <;> simp [hne]

@[simp] theorem release_allocated (h : Heap) (c : Nat) :
    (release h c).allocated = h.allocated := by
  simp only [release, atomic_fetch_add, dispose, destroy]
  split_ifs <;> rfl

/-- The counter after `release()`, when the count it found was not 1: only the decrement. -/
theorem release_cnt_self_of_ne_one (h : Heap) (c : Nat) (h1 : (h.cnt c).m_use_count ≠ 1) :
    (release h c).cnt c =
      { h.cnt c with m_use_count := wrap_int ((h.cnt c).m_use_count - 1) } := by
  simp [release, atomic_fetch_add, h1, Int.sub_eq_add_neg]

theorem release_deleted_of_ne_one (h : Heap) (c : Nat) (h1 : (h.cnt c).m_use_count ≠ 1) :
    (release h c).deleted = h.deleted := by
  simp [release, atomic_fetch_add, h1]

/-- The counter after `release()`, when the count it found was 1: decrement, `dispose()`,
decrement of the weak count and, when that was 1 too, `destroy()`. -/
theorem release_cnt_self_of_one (h : Heap) (c : Nat) (h1 : (h.cnt c).m_use_count = 1) :
    (release h c).cnt c =
      { m_use_count := 0
        m_weak_count := wrap_int ((h.cnt c).m_weak_count - 1)
        m_ptr := (h.cnt c).m_ptr
        disposed := (h.cnt c).disposed + 1
        destroyed := (h.cnt c).destroyed + if (h.cnt c).m_weak_count = 1 then 1 else 0 } := by
  simp only [release, atomic_fetch_add, dispose, destroy, h1]
  split_ifs <;> simp_all [wrap_int, Int.sub_eq_add_neg]

theorem release_deleted_of_one (h : Heap) (c : Nat) (h1 : (h.cnt c).m_use_count = 1) :
    (release h c).deleted = h.deleted ++ [(h.cnt c).m_ptr] := by
  simp only [release, atomic_fetch_add, dispose, destroy, h1]
  split_ifs <;> simp_all

theorem release_use_count (h : Heap) (c : Nat) :
    ((release h c).cnt c).m_use_count = wrap_int ((h.cnt c).m_use_count - 1) := by
  by_cases h1 : (h.cnt c).m_use_count = 1
  · rw [release_cnt_self_of_one h c h1, h1]; rfl
  · rw [release_cnt_self_of_ne_one h c h1]

theorem release_m_ptr (h : Heap) (c d : Nat) :
    ((release h c).cnt d).m_ptr = (h.cnt d).m_ptr := by
  by_cases hd : d = c
  · subst hd
    by_cases h1 : (h.cnt d).m_use_count = 1
    · rw [release_cnt_self_of_one h d h1]
    · rw [release_cnt_self_of_ne_one h d h1]
  · rw [release_cnt_ne h hd]

theorem release_destroyed_le (h : Heap) (c d : Nat) :
    (h.cnt d).destroyed ≤ ((release h c).cnt d).destroyed := by
  by_cases hd : d = c
  · subst hd
    by_cases h1 : (h.cnt d).m_use_count = 1
    · rw [release_cnt_self_of_one h d h1]; simp
    · rw [release_cnt_self_of_ne_one h d h1]
  · rw [release_cnt_ne h hd]

/-! ## Counting the handles that reference a counter -/

theorem countP_set_of_getElem? {α : Type} (q : α → Bool) (l : List α) (i : Nat) (a b : α)
    (h : l[i]? = some a) :
    (l.set i b).countP q + (if q a then 1 else 0) = l.countP q + (if q b then 1 else 0) := by
  induction l generalizing i with
  | nil => simp at h
  | cons x l ih =>
    cases i with
    | zero =>
      simp at h
      subst h
      simp [List.countP_cons]
      omega
    | succ i =>
      simp at h
      have := ih i h
      simp [List.countP_cons]
      omega

theorem countP_eraseIdx_of_getElem? {α : Type} (q : α → Bool) (l : List α) (i : Nat) (a : α)
    (h : l[i]? = some a) :
    (l.eraseIdx i).countP q + (if q a then 1 else 0) = l.countP q := by
  induction l generalizing i with
  | nil => simp at h
  | cons x l ih =>
    cases i with
    | zero =>
      simp at h
      subst h
      simp [List.countP_cons]
    | succ i =>
      simp at h
      have := ih i h
      simp [List.countP_cons]
      omega

theorem use_count_eq (h : Heap) (x : shared_ptr_base) (hx : x.m_ref_count.m_ptr ≠ 0) :
    x.use_count h = (h.cnt x.m_ref_count.m_ptr).m_use_count := by
  simp [shared_ptr_base.use_count, shared_count.get_use_count, sp_counter_ptr.get_use_count, hx]

theorem use_count_eq_zero (h : Heap) (x : shared_ptr_base) (hx : x.m_ref_count.m_ptr = 0) :
    x.use_count h = 0 := by
  simp [shared_ptr_base.use_count, shared_count.get_use_count, hx]

theorem use_count_of_ref (h : Heap) (x : shared_ptr_base) (c : Nat)
    (hx : x.m_ref_count.m_ptr = c) (hc : c ≠ 0) :
    x.use_count h = (h.cnt c).m_use_count := by
  subst hx
  exact use_count_eq h x hc

/-- A handle that reports a count other than 0 references a counter. -/
theorem ref_ne_zero_of_use_count (h : Heap) (x : shared_ptr_base) (hx : x.use_count h ≠ 0) :
    x.m_ref_count.m_ptr ≠ 0 := by
  intro h0
  exact hx (use_count_eq_zero h x h0)

theorem refs_fan (p : Addr) (k : Nat) : (fan p k).refs 1 = k + 1 := by
  simp [fan, State.refs, List.countP_replicate]

theorem fan_use_count (p : Addr) (k : Nat) :
    ((fan p k).heap.cnt 1).m_use_count = wrap_int (k + 1) := by
  simp [fan]

theorem step_fan (p : Addr) (k : Nat) : step (fan p k) (.ctor_copy 0) = some (fan p (k + 1)) := by
  have h0 : (fan p k).handles[0]? = some ⟨p, ⟨1⟩⟩ := by simp [fan]
  simp only [step, h0]
  simp only [fan, shared_ptr_base.ctor_copy, shared_count.ctor_copy, add_ref_copy,
    atomic_fetch_add, Heap.store, Heap.empty]
  simp [wrap_int_succ, List.replicate_succ', Function.update_idem]

theorem fan_getElem?_zero (p : Addr) (k : Nat) : (fan p k).handles[0]? = some ⟨p, ⟨1⟩⟩ := by
  simp [fan]

theorem fan_handle_use_count (p : Addr) (k : Nat) :
    shared_ptr_base.use_count (fan p k).heap ⟨p, ⟨1⟩⟩ = wrap_int (k + 1) := by
  rw [use_count_eq _ _ (show (1 : Nat) ≠ 0 by decide)]
  exact fan_use_count p k

theorem fan_copy_heap (p : Addr) (k : Nat) :
    (shared_ptr_base.ctor_copy (fan p k).heap ⟨p, ⟨1⟩⟩).1 = (fan p (k + 1)).heap := by
  have h := step_fan p k
  simp only [step, fan_getElem?_zero] at h
  exact congrArg State.heap (Option.some.inj h)

theorem Reach.mono {ok ok2 : State → Op → State → Prop} (himp : ∀ s op t, ok s op t → ok2 s op t)
    {s : State} (h : Reach ok s) : Reach ok2 s := by
  induction h with
  | init => exact Reach.init
  | step op _ hs hok ih => exact Reach.step op ih hs (himp _ _ _ hok)

theorem fan_reachableFresh (p : Addr) (hp : p ≠ 0) (k : Nat) : ReachableFresh (fan p k) := by
  induction k with
  | zero =>
    refine Reach.step (Op.ctor_ptr p none) Reach.init ?_ ?_
    · simp [step, shared_ptr_base.ctor_ptr, shared_count.ctor_ptr, fan, State.init,
        sp_counter_ptr.ctor, Heap.empty, Heap.store, wrap_int]
    · simp only [op_fresh, op_ptr_ok, fresh, State.init, Heap.empty]
      refine ⟨hp, by simp, ?_⟩
      intro c h1 h2
      omega
  | succ k ih => exact Reach.step (Op.ctor_copy 0) ih (step_fan p k) trivial

theorem fan_reachable (p : Addr) (hp : p ≠ 0) (k : Nat) : Reachable (fan p k) :=
  Reach.mono (fun _ _ _ _ => trivial) (fan_reachableFresh p hp k)

/-! ## Single operations -/

/-- C4 (as amended). Copy-constructing `h2` from a handle `r` with `use_count() == n`,
`1 ≤ n < INT_MAX`, appends a handle with `h2.get() == r.get()` on the same counter; afterwards
`r`, `h2` and every handle sharing that counter report `n + 1`; no other counter changes, no
counter's weak count, `dispose()` or `destroy()` tally changes, and nothing is deleted. -/
theorem C4_copy_increments (s : State) (i : Nat) (r : shared_ptr_base) (n : Int)
    (hi : s.handles[i]? = some r) (hn : 1 ≤ n) (hmax : n < INT_MAX)
    (hc : r.use_count s.heap = n) :
    ∃ t h2, step s (.ctor_copy i) = some t ∧ t.handles = s.handles ++ [h2] ∧
      h2.get = r.get ∧ h2.m_ref_count = r.m_ref_count ∧
      r.use_count t.heap = n + 1 ∧ h2.use_count t.heap = n + 1 ∧
      (∀ x ∈ t.handles, x.m_ref_count = r.m_ref_count → x.use_count t.heap = n + 1) ∧
      (∀ c, c ≠ r.m_ref_count.m_ptr → t.heap.cnt c = s.heap.cnt c) ∧
      (∀ c, (t.heap.cnt c).m_weak_count = (s.heap.cnt c).m_weak_count ∧
        (t.heap.cnt c).disposed = (s.heap.cnt c).disposed ∧
        (t.heap.cnt c).destroyed = (s.heap.cnt c).destroyed) ∧
      t.heap.deleted = s.heap.deleted ∧ t.heap.allocated = s.heap.allocated := by
  have hr : r.m_ref_count.m_ptr ≠ 0 := ref_ne_zero_of_use_count s.heap r (by omega)
  rw [use_count_eq _ _ hr] at hc
  have hmin : INT_MIN ≤ n + 1 := by unfold INT_MIN; omega
  have hw : wrap_int (n + 1) = n + 1 := wrap_int_of_range hmin (by omega)
  have key : ∀ x : shared_ptr_base, x.m_ref_count = r.m_ref_count →
      x.use_count (add_ref_copy s.heap r.m_ref_count.m_ptr) = n + 1 := by
    intro x hx
    rw [use_count_eq _ _ (by rw [hx]; exact hr), hx, add_ref_copy_cnt_self, hc, hw]
  refine ⟨⟨add_ref_copy s.heap r.m_ref_count.m_ptr, s.handles ++ [⟨r.m_ptr, ⟨r.m_ref_count.m_ptr⟩⟩]⟩,
    ⟨r.m_ptr, ⟨r.m_ref_count.m_ptr⟩⟩, ?_, rfl, rfl, rfl, key r rfl, key _ rfl, ?_, ?_, ?_, rfl, rfl⟩
  · simp [step, hi, shared_ptr_base.ctor_copy, shared_count.ctor_copy, hr]
  · intro x _ hx
    exact key x hx
  · intro c hne
    exact add_ref_copy_cnt_ne _ hne
  · intro c
    by_cases hcc : c = r.m_ref_count.m_ptr
    · subst hcc
      simp [add_ref_copy_cnt_self]
    · simp [add_ref_copy_cnt_ne _ hcc]

/-- Witness for C4: the test's `sp2 = sp1` with `n = 1`. -/
theorem C4_copy_increments_witness :
    ∃ t h2, step (fan 10 0) (.ctor_copy 0) = some t ∧ t.handles = (fan 10 0).handles ++ [h2] ∧
      h2.get = shared_ptr_base.get ⟨10, ⟨1⟩⟩ ∧ h2.m_ref_count = ⟨1⟩ ∧
      shared_ptr_base.use_count t.heap ⟨10, ⟨1⟩⟩ = 1 + 1 ∧ h2.use_count t.heap = 1 + 1 ∧
      (∀ x ∈ t.handles, x.m_ref_count = ⟨1⟩ → x.use_count t.heap = 1 + 1) ∧
      (∀ c, c ≠ 1 → t.heap.cnt c = (fan 10 0).heap.cnt c) ∧
      (∀ c, (t.heap.cnt c).m_weak_count = ((fan 10 0).heap.cnt c).m_weak_count ∧
        (t.heap.cnt c).disposed = ((fan 10 0).heap.cnt c).disposed ∧
        (t.heap.cnt c).destroyed = ((fan 10 0).heap.cnt c).destroyed) ∧
      t.heap.deleted = (fan 10 0).heap.deleted ∧ t.heap.allocated = (fan 10 0).heap.allocated :=
  C4_copy_increments (fan 10 0) 0 ⟨10, ⟨1⟩⟩ 1 (by decide) (by decide) (by decide) (by decide)

/-- C4 as stated fails at `n = INT_MAX`: in the state reached by `shared_ptr<A> sp(new A)` and
2147483646 copies, `sp.use_count()` is 2147483647, and one more copy makes it -2147483648. -/
theorem C4_fails_at_int_max :
    Reachable (fan 10 2147483646) ∧
    (fan 10 2147483646).handles[0]? = some ⟨10, ⟨1⟩⟩ ∧
    shared_ptr_base.use_count (fan 10 2147483646).heap ⟨10, ⟨1⟩⟩ = 2147483647 ∧
    shared_ptr_base.use_count (shared_ptr_base.ctor_copy (fan 10 2147483646).heap ⟨10, ⟨1⟩⟩).1
      ⟨10, ⟨1⟩⟩ = -2147483648 ∧
    shared_ptr_base.use_count (shared_ptr_base.ctor_copy (fan 10 2147483646).heap ⟨10, ⟨1⟩⟩).1
      (shared_ptr_base.ctor_copy (fan 10 2147483646).heap ⟨10, ⟨1⟩⟩).2 ≠ 2147483647 + 1 := by
  refine ⟨fan_reachable 10 (by decide) _, fan_getElem?_zero 10 _, ?_, ?_, ?_⟩
  · rw [fan_handle_use_count]; decide
  · rw [fan_copy_heap, fan_handle_use_count]; decide
  · rw [fan_copy_heap]
    show shared_ptr_base.use_count (fan 10 (2147483646 + 1)).heap ⟨10, ⟨1⟩⟩ ≠ 2147483647 + 1
    rw [fan_handle_use_count]; decide

/-- The handle that `reset()` leaves behind and the free store after it. -/
theorem reset_eq (h : Heap) (r : shared_ptr_base) :
    shared_ptr_base.reset h r = (shared_count.dtor h r.m_ref_count, ⟨0, ⟨0⟩⟩) := rfl

theorem dtor_eq_release (h : Heap) (r : shared_ptr_base) (hr : r.m_ref_count.m_ptr ≠ 0) :
    shared_ptr_base.dtor h r = release h r.m_ref_count.m_ptr := by
  simp [shared_ptr_base.dtor, shared_count.dtor, hr]

/-- C5. For a handle `r` sharing a counter with `use_count() == n`, `n ≥ 2` (`n` a value of
`int`), `reset()` leaves `r` empty (`use_count() == 0`, `get() == nullptr`, boolean conversion
false); every handle sharing the counter then reports `n - 1`; the managed object is not
disposed: nothing is deleted and no counter's `dispose()` or `destroy()` tally moves.
Destroying `r` instead leaves the same free store. -/
theorem C5_reset_decrements (s : State) (i : Nat) (r : shared_ptr_base) (n : Int)
    (hi : s.handles[i]? = some r) (hn : 2 ≤ n) (hmax : n ≤ INT_MAX)
    (hc : r.use_count s.heap = n) :
    ∃ t e, step s (.reset i) = some t ∧ t.handles = s.handles.set i e ∧
      e.use_count t.heap = 0 ∧ e.get = 0 ∧ e.to_bool = false ∧
      (∀ x : shared_ptr_base, x.m_ref_count = r.m_ref_count → x.use_count t.heap = n - 1) ∧
      (∀ c, c ≠ r.m_ref_count.m_ptr → t.heap.cnt c = s.heap.cnt c) ∧
      (∀ c, (t.heap.cnt c).disposed = (s.heap.cnt c).disposed ∧
        (t.heap.cnt c).destroyed = (s.heap.cnt c).destroyed) ∧
      t.heap.deleted = s.heap.deleted ∧
      ∃ u, step s (.dtor i) = some u ∧ u.handles = s.handles.eraseIdx i ∧ u.heap = t.heap := by
  have hr : r.m_ref_count.m_ptr ≠ 0 := ref_ne_zero_of_use_count s.heap r (by omega)
  rw [use_count_eq _ _ hr] at hc
  have h1 : (s.heap.cnt r.m_ref_count.m_ptr).m_use_count ≠ 1 := by omega
  have hw : wrap_int (n - 1) = n - 1 :=
    wrap_int_of_range (by unfold INT_MIN; omega) (by omega)
  refine ⟨⟨release s.heap r.m_ref_count.m_ptr, s.handles.set i ⟨0, ⟨0⟩⟩⟩, ⟨0, ⟨0⟩⟩,
    ?_, rfl, rfl, rfl, rfl, ?_, ?_, ?_, ?_, ?_⟩
  · simp [step, hi, reset_eq, shared_count.dtor, hr]
  · intro x hx
    rw [use_count_eq _ _ (by rw [hx]; exact hr), hx, release_cnt_self_of_ne_one _ _ h1, hc, hw]
  · intro c hne
    exact release_cnt_ne _ hne
  · intro c
    by_cases hcc : c = r.m_ref_count.m_ptr
    · subst hcc
      simp [release_cnt_self_of_ne_one _ _ h1]
    · simp [release_cnt_ne _ hcc]
  · exact release_deleted_of_ne_one _ _ h1
  · refine ⟨⟨release s.heap r.m_ref_count.m_ptr, s.handles.eraseIdx i⟩, ?_, rfl, rfl⟩
    simp [step, hi, dtor_eq_release _ _ hr]

/-- Witness for C5: the test's `sp2.reset()` with `n = 2`. -/
theorem C5_reset_decrements_witness :
    ∃ t e, step (fan 10 1) (.reset 1) = some t ∧ t.handles = (fan 10 1).handles.set 1 e ∧
      e.use_count t.heap = 0 ∧ e.get = 0 ∧ e.to_bool = false ∧
      (∀ x : shared_ptr_base, x.m_ref_count = ⟨1⟩ → x.use_count t.heap = 2 - 1) ∧
      (∀ c, c ≠ 1 → t.heap.cnt c = (fan 10 1).heap.cnt c) ∧
      (∀ c, (t.heap.cnt c).disposed = ((fan 10 1).heap.cnt c).disposed ∧
        (t.heap.cnt c).destroyed = ((fan 10 1).heap.cnt c).destroyed) ∧
      t.heap.deleted = (fan 10 1).heap.deleted ∧
      ∃ u, step (fan 10 1) (.dtor 1) = some u ∧ u.handles = (fan 10 1).handles.eraseIdx 1 ∧
        u.heap = t.heap :=
  C5_reset_decrements (fan 10 1) 1 ⟨10, ⟨1⟩⟩ 2 (by decide) (by decide) (by decide) (by decide)

/-- C7 (as amended). For a handle `r` with `use_count() == n`, `1 ≤ n < INT_MAX`, and any
pointer `q`, the aliasing constructor appends a handle `a` with `a.get() == q` on the counter of
`r`, and both report `n + 1`. Destroying or resetting `r` alone afterwards deletes nothing, leaves
the counter undisposed and undestroyed, and `a` reports `n`. A `release()` of the counter runs
`dispose()` only when it finds the count at 1, that is when the last sharer lets go. -/
theorem C7_aliasing (s : State) (i : Nat) (r : shared_ptr_base) (q : Addr) (n : Int)
    (hi : s.handles[i]? = some r) (hn : 1 ≤ n) (hmax : n < INT_MAX)
    (hc : r.use_count s.heap = n) :
    ∃ t a, step s (.ctor_alias i q) = some t ∧ t.handles = s.handles ++ [a] ∧
      a.get = q ∧ a.m_ref_count = r.m_ref_count ∧
      a.use_count t.heap = n + 1 ∧ r.use_count t.heap = n + 1 ∧
      t.heap.deleted = s.heap.deleted ∧
      (∃ u, step t (.dtor i) = some u ∧ u.handles = t.handles.eraseIdx i ∧
        u.heap.deleted = s.heap.deleted ∧
        (u.heap.cnt r.m_ref_count.m_ptr).disposed = (s.heap.cnt r.m_ref_count.m_ptr).disposed ∧
        (u.heap.cnt r.m_ref_count.m_ptr).destroyed = (s.heap.cnt r.m_ref_count.m_ptr).destroyed ∧
        a.use_count u.heap = n) ∧
      (∃ u, step t (.reset i) = some u ∧ u.handles = t.handles.set i ⟨0, ⟨0⟩⟩ ∧
        u.heap.deleted = s.heap.deleted ∧
        (u.heap.cnt r.m_ref_count.m_ptr).disposed = (s.heap.cnt r.m_ref_count.m_ptr).disposed ∧
        (u.heap.cnt r.m_ref_count.m_ptr).destroyed = (s.heap.cnt r.m_ref_count.m_ptr).destroyed ∧
        a.use_count u.heap = n) ∧
      (∀ g : Heap, (g.cnt r.m_ref_count.m_ptr).m_use_count ≠ 1 →
        (release g r.m_ref_count.m_ptr).deleted = g.deleted ∧
        ((release g r.m_ref_count.m_ptr).cnt r.m_ref_count.m_ptr).disposed =
          (g.cnt r.m_ref_count.m_ptr).disposed) := by
  have hr : r.m_ref_count.m_ptr ≠ 0 := ref_ne_zero_of_use_count s.heap r (by omega)
  rw [use_count_eq _ _ hr] at hc
  have hw : wrap_int (n + 1) = n + 1 :=
    wrap_int_of_range (by unfold INT_MIN; omega) (by omega)
  have hw2 : wrap_int (n + 1 - 1) = n :=
    (wrap_int_of_range (by unfold INT_MIN; omega) (by omega)).trans (by omega)
  have hcnt : ((add_ref_copy s.heap r.m_ref_count.m_ptr).cnt r.m_ref_count.m_ptr).m_use_count
      = n + 1 := by
    rw [add_ref_copy_cnt_self, hc, hw]
  have h1 : ((add_ref_copy s.heap r.m_ref_count.m_ptr).cnt r.m_ref_count.m_ptr).m_use_count
      ≠ 1 := by
    rw [hcnt]; omega
  have hua : ∀ g : Heap, shared_ptr_base.use_count g ⟨q, ⟨r.m_ref_count.m_ptr⟩⟩
      = (g.cnt r.m_ref_count.m_ptr).m_use_count := fun g => use_count_of_ref g _ _ rfl hr
  have hi2 : (s.handles ++ [(⟨q, ⟨r.m_ref_count.m_ptr⟩⟩ : shared_ptr_base)])[i]? = some r := by
    have hlt : i < s.handles.length := by
      rcases Nat.lt_or_ge i s.handles.length with h | h
      · exact h
      · rw [List.getElem?_eq_none h] at hi
        cases hi
    rw [List.getElem?_append_left hlt]
    exact hi
  have hafter : (release (add_ref_copy s.heap r.m_ref_count.m_ptr) r.m_ref_count.m_ptr).deleted
        = s.heap.deleted ∧
      ((release (add_ref_copy s.heap r.m_ref_count.m_ptr) r.m_ref_count.m_ptr).cnt
        r.m_ref_count.m_ptr).disposed = (s.heap.cnt r.m_ref_count.m_ptr).disposed ∧
      ((release (add_ref_copy s.heap r.m_ref_count.m_ptr) r.m_ref_count.m_ptr).cnt
        r.m_ref_count.m_ptr).destroyed = (s.heap.cnt r.m_ref_count.m_ptr).destroyed ∧
      shared_ptr_base.use_count
        (release (add_ref_copy s.heap r.m_ref_count.m_ptr) r.m_ref_count.m_ptr)
        ⟨q, ⟨r.m_ref_count.m_ptr⟩⟩ = n := by
    refine ⟨?_, ?_, ?_, ?_⟩
    · rw [release_deleted_of_ne_one _ _ h1]; rfl
    · rw [release_cnt_self_of_ne_one _ _ h1, add_ref_copy_cnt_self]
    · rw [release_cnt_self_of_ne_one _ _ h1, add_ref_copy_cnt_self]
    · rw [hua, release_cnt_self_of_ne_one _ _ h1]
      show wrap_int (_ - 1) = n
      rw [hcnt, hw2]
  refine ⟨⟨add_ref_copy s.heap r.m_ref_count.m_ptr, s.handles ++ [⟨q, ⟨r.m_ref_count.m_ptr⟩⟩]⟩,
    ⟨q, ⟨r.m_ref_count.m_ptr⟩⟩, ?_, rfl, rfl, rfl, ?_, ?_, rfl, ?_, ?_, ?_⟩
  · simp [step, hi, shared_ptr_base.ctor_alias, shared_count.ctor_copy, hr]
  · rw [hua]; exact hcnt
  · rw [use_count_eq _ r hr]; exact hcnt
  · refine ⟨⟨release (add_ref_copy s.heap r.m_ref_count.m_ptr) r.m_ref_count.m_ptr,
      (s.handles ++ [(⟨q, ⟨r.m_ref_count.m_ptr⟩⟩ : shared_ptr_base)]).eraseIdx i⟩, ?_, rfl, hafter⟩
    simp only [step, hi2, dtor_eq_release _ _ hr]
  · refine ⟨⟨release (add_ref_copy s.heap r.m_ref_count.m_ptr) r.m_ref_count.m_ptr,
      (s.handles ++ [(⟨q, ⟨r.m_ref_count.m_ptr⟩⟩ : shared_ptr_base)]).set i ⟨0, ⟨0⟩⟩⟩, ?_, rfl, hafter⟩
    simp only [step, hi2, reset_eq, shared_count.dtor]
    simp [hr]
  · intro g hg
    exact ⟨release_deleted_of_ne_one _ _ hg, by rw [release_cnt_self_of_ne_one _ _ hg]⟩

/-- Witness for C7: an alias of the only handle of a counter (`n = 1`), exposing address 11. -/
theorem C7_aliasing_witness :
    ∃ t a, step (fan 10 0) (.ctor_alias 0 11) = some t ∧ t.handles = (fan 10 0).handles ++ [a] ∧
      a.get = 11 ∧ a.m_ref_count = ⟨1⟩ ∧
      a.use_count t.heap = 1 + 1 ∧ shared_ptr_base.use_count t.heap ⟨10, ⟨1⟩⟩ = 1 + 1 ∧
      t.heap.deleted = (fan 10 0).heap.deleted ∧
      (∃ u, step t (.dtor 0) = some u ∧ u.handles = t.handles.eraseIdx 0 ∧
        u.heap.deleted = (fan 10 0).heap.deleted ∧
        (u.heap.cnt 1).disposed = ((fan 10 0).heap.cnt 1).disposed ∧
        (u.heap.cnt 1).destroyed = ((fan 10 0).heap.cnt 1).destroyed ∧
        a.use_count u.heap = 1) ∧
      (∃ u, step t (.reset 0) = some u ∧ u.handles = t.handles.set 0 ⟨0, ⟨0⟩⟩ ∧
        u.heap.deleted = (fan 10 0).heap.deleted ∧
        (u.heap.cnt 1).disposed = ((fan 10 0).heap.cnt 1).disposed ∧
        (u.heap.cnt 1).destroyed = ((fan 10 0).heap.cnt 1).destroyed ∧
        a.use_count u.heap = 1) ∧
      (∀ g : Heap, (g.cnt 1).m_use_count ≠ 1 →
        (release g 1).deleted = g.deleted ∧
        ((release g 1).cnt 1).disposed = (g.cnt 1).disposed) :=
  C7_aliasing (fan 10 0) 0 ⟨10, ⟨1⟩⟩ 11 1 (by decide) (by decide) (by decide) (by decide)

/-- C7 as stated fails at `n = INT_MAX`: in the state reached by `shared_ptr<A> sp(new A)` and
2147483646 copies, `sp.use_count()` is 2147483647; the aliasing constructor applied to `sp` and
the address 11 yields a handle on the same counter, and both then report -2147483648. -/
theorem C7_fails_at_int_max :
    ReachableFresh (fan 10 2147483646) ∧
    (fan 10 2147483646).handles[0]? = some ⟨10, ⟨1⟩⟩ ∧
    shared_ptr_base.use_count (fan 10 2147483646).heap ⟨10, ⟨1⟩⟩ = 2147483647 ∧
    (shared_ptr_base.ctor_alias (fan 10 2147483646).heap ⟨10, ⟨1⟩⟩ 11).2 = ⟨11, ⟨1⟩⟩ ∧
    shared_ptr_base.use_count (shared_ptr_base.ctor_alias (fan 10 2147483646).heap ⟨10, ⟨1⟩⟩ 11).1
      ⟨11, ⟨1⟩⟩ = -2147483648 ∧
    shared_ptr_base.use_count (shared_ptr_base.ctor_alias (fan 10 2147483646).heap ⟨10, ⟨1⟩⟩ 11).1
      ⟨10, ⟨1⟩⟩ = -2147483648 := by
  have hh : (shared_ptr_base.ctor_alias (fan 10 2147483646).heap ⟨10, ⟨1⟩⟩ 11).1
      = (fan 10 (2147483646 + 1)).heap := fan_copy_heap 10 2147483646
  refine ⟨fan_reachableFresh 10 (by decide) _, fan_getElem?_zero 10 _, ?_, rfl, ?_, ?_⟩
  · rw [fan_handle_use_count]; decide
  · rw [hh, use_count_eq _ _ (show (1 : Nat) ≠ 0 by decide), fan_use_count]; decide
  · rw [hh, fan_handle_use_count]; decide

/-- C9. When `new sp_counter_ptr<Ptr>(ptr)` throws `e` while a count handle is constructed from
`ptr`, `delete ptr` is evaluated exactly once (the log of deletions grows by `ptr` and nothing
else), `e` itself leaves the constructor, no counter object is created or changed, and no handle
results, neither from `shared_count(ptr)` nor from `shared_ptr_base(ptr)` nor in the program
state. When the allocation succeeds the constructor deletes nothing. -/
theorem C9_construction_failure (s : State) (ptr : Addr) (e : Exn) :
    (shared_count.ctor_ptr s.heap (some e) ptr).2 = .error (.thrown e) ∧
    (shared_ptr_base.ctor_ptr s.heap (some e) ptr).2 = .error (.thrown e) ∧
    (shared_count.ctor_ptr s.heap (some e) ptr).1.deleted = s.heap.deleted ++ [ptr] ∧
    (shared_count.ctor_ptr s.heap (some e) ptr).1.deleted.count ptr
      = s.heap.deleted.count ptr + 1 ∧
    (shared_count.ctor_ptr s.heap (some e) ptr).1.cnt = s.heap.cnt ∧
    (shared_count.ctor_ptr s.heap (some e) ptr).1.allocated = s.heap.allocated ∧
    (shared_ptr_base.ctor_ptr s.heap (some e) ptr).1
      = (shared_count.ctor_ptr s.heap (some e) ptr).1 ∧
    step s (.ctor_ptr ptr (some e))
      = some ⟨(shared_count.ctor_ptr s.heap (some e) ptr).1, s.handles⟩ ∧
    (shared_count.ctor_ptr s.heap none ptr).1.deleted = s.heap.deleted ∧
    (shared_ptr_base.ctor_ptr s.heap none ptr).1.deleted = s.heap.deleted := by
  refine ⟨rfl, rfl, rfl, ?_, rfl, rfl, rfl, rfl, rfl, rfl⟩
  simp [shared_count.ctor_ptr]

/-- Allocating a counter and releasing another one commute. -/
theorem release_alloc_comm (h : Heap) (c : Nat) (k : sp_counter_ptr)
    (hc : c ≠ h.allocated + 1) :
    release { (h.store (h.allocated + 1) k) with allocated := h.allocated + 1 } c
      = { ((release h c).store (h.allocated + 1) k) with allocated := h.allocated + 1 } := by
  have hcnt : Function.update h.cnt (h.allocated + 1) k c = h.cnt c :=
    Function.update_noteq hc _ _
  simp only [release, dispose, destroy, atomic_fetch_add, Heap.store, hcnt,
    Function.update_same]
  split_ifs <;> simp [Function.update_comm hc]

/-- A successful `shared_ptr_base(ptr)`: a counter with both counts 1 at the next address. -/
theorem ctor_ptr_ok (h : Heap) (ptr : Addr) :
    shared_ptr_base.ctor_ptr h none ptr
      = ({ (h.store (h.allocated + 1) (sp_counter_ptr.ctor ptr)) with
            allocated := h.allocated + 1 }, .ok ⟨ptr, ⟨h.allocated + 1⟩⟩) := rfl

theorem dtor_allocated (h : Heap) (c : shared_count) :
    (shared_count.dtor h c).allocated = h.allocated := by
  unfold shared_count.dtor
  split_ifs <;> simp

/-- C10. In `r.reset(ptr)`, for a handle `r` that references no counter or an allocated one: the
assertion fails exactly when `ptr` is non-null and equals `r.get()`, and then the program is
aborted with the free store untouched. When it passes and the allocation succeeds, `r` becomes a
handle with `get() == ptr` and `use_count() == 1` on a counter created by this call (counts 1
and 1), the counter `r` held before has been released exactly once (by the destructor of the
temporary), and the outcome is the one of destroying `r` first and constructing a handle from
`ptr` afterwards. -/
theorem C10_reset_ptr (s : State) (i : Nat) (r : shared_ptr_base) (ptr : Addr)
    (hi : s.handles[i]? = some r) (hv : r.m_ref_count.m_ptr ≤ s.heap.allocated) :
    (shared_ptr_base.reset_assertion r ptr = false ↔ (ptr ≠ 0 ∧ ptr = r.get)) ∧
    (shared_ptr_base.reset_assertion r ptr = false → ∀ al,
      shared_ptr_base.reset_ptr s.heap al r ptr = (s.heap, .error .assert_failed) ∧
      step s (.reset_ptr i ptr al) = none) ∧
    (shared_ptr_base.reset_assertion r ptr = true →
      ∃ t x, step s (.reset_ptr i ptr none) = some t ∧ t.handles = s.handles.set i x ∧
        shared_ptr_base.reset_ptr s.heap none r ptr = (t.heap, .ok x) ∧
        x.get = ptr ∧ x.use_count t.heap = 1 ∧
        x.m_ref_count.m_ptr = s.heap.allocated + 1 ∧
        t.heap.allocated = s.heap.allocated + 1 ∧
        t.heap.cnt (s.heap.allocated + 1) = ⟨1, 1, ptr, 0, 0⟩ ∧
        t.heap = shared_count.dtor (shared_ptr_base.ctor_ptr s.heap none ptr).1 r.m_ref_count ∧
        (t.heap, Except.ok x)
          = shared_ptr_base.ctor_ptr (shared_ptr_base.dtor s.heap r) none ptr) := by
  refine ⟨?_, ?_, ?_⟩
  · simp only [shared_ptr_base.reset_assertion, shared_ptr_base.get]
    by_cases h0 : ptr = 0 <;> by_cases h1 : ptr = r.m_ptr <;> simp [h0, h1]
  · intro ha al
    simp [step, hi, shared_ptr_base.reset_ptr, ha]
  · intro ha
    have hne : r.m_ref_count.m_ptr ≠ s.heap.allocated + 1 := by omega
    have hheap : shared_count.dtor (shared_ptr_base.ctor_ptr s.heap none ptr).1 r.m_ref_count
        = (shared_ptr_base.ctor_ptr (shared_ptr_base.dtor s.heap r) none ptr).1 := by
      rw [ctor_ptr_ok, ctor_ptr_ok]
      simp only [shared_ptr_base.dtor, dtor_allocated]
      by_cases hr : r.m_ref_count.m_ptr = 0
      · simp [shared_count.dtor, hr]
      · simp only [shared_count.dtor, hr, ne_eq, not_false_eq_true, if_true]
        exact release_alloc_comm s.heap _ _ hne
    have hreset : shared_ptr_base.reset_ptr s.heap none r ptr
        = (shared_count.dtor (shared_ptr_base.ctor_ptr s.heap none ptr).1 r.m_ref_count,
           .ok ⟨ptr, ⟨s.heap.allocated + 1⟩⟩) := by
      simp only [shared_ptr_base.reset_ptr, ha, if_true, ctor_ptr_ok,
        shared_ptr_base.swap, shared_count.swap, shared_ptr_base.dtor]
    refine ⟨⟨shared_count.dtor (shared_ptr_base.ctor_ptr s.heap none ptr).1 r.m_ref_count,
        s.handles.set i ⟨ptr, ⟨s.heap.allocated + 1⟩⟩⟩, ⟨ptr, ⟨s.heap.allocated + 1⟩⟩,
      ?_, rfl, hreset, rfl, ?_, rfl, ?_, ?_, rfl, ?_⟩
    · simp only [step, hi, hreset]
    · rw [use_count_of_ref _ _ (s.heap.allocated + 1) rfl (by omega)]
      show ((shared_count.dtor _ r.m_ref_count).cnt _).m_use_count = 1
      rw [hheap, ctor_ptr_ok]
      simp [sp_counter_ptr.ctor, shared_ptr_base.dtor, dtor_allocated]
    · show (shared_count.dtor _ r.m_ref_count).allocated = _
      rw [dtor_allocated, ctor_ptr_ok]
    · show (shared_count.dtor _ r.m_ref_count).cnt _ = _
      rw [hheap, ctor_ptr_ok]
      simp [sp_counter_ptr.ctor, shared_ptr_base.dtor, dtor_allocated]
    · show (shared_count.dtor _ r.m_ref_count, _) = _
      rw [hheap, ctor_ptr_ok]
      simp only [shared_ptr_base.dtor, dtor_allocated]

/-- Witness for C10: the test's `sp.reset(new A)` on the handle emptied by `sp.reset()`. -/
theorem C10_reset_ptr_witness :
    (shared_ptr_base.reset_assertion ⟨0, ⟨0⟩⟩ 11 = false ↔
      (11 ≠ 0 ∧ 11 = shared_ptr_base.get ⟨0, ⟨0⟩⟩)) ∧
    (shared_ptr_base.reset_assertion ⟨0, ⟨0⟩⟩ 11 = false → ∀ al,
      shared_ptr_base.reset_ptr (State.mk Heap.empty [⟨0, ⟨0⟩⟩]).heap al ⟨0, ⟨0⟩⟩ 11
        = ((State.mk Heap.empty [⟨0, ⟨0⟩⟩]).heap, .error .assert_failed) ∧
      step (State.mk Heap.empty [⟨0, ⟨0⟩⟩]) (.reset_ptr 0 11 al) = none) ∧
    (shared_ptr_base.reset_assertion ⟨0, ⟨0⟩⟩ 11 = true →
      ∃ t x, step (State.mk Heap.empty [⟨0, ⟨0⟩⟩]) (.reset_ptr 0 11 none) = some t ∧
        t.handles = (State.mk Heap.empty [⟨0, ⟨0⟩⟩]).handles.set 0 x ∧
        shared_ptr_base.reset_ptr (State.mk Heap.empty [⟨0, ⟨0⟩⟩]).heap none ⟨0, ⟨0⟩⟩ 11
          = (t.heap, .ok x) ∧
        x.get = 11 ∧ x.use_count t.heap = 1 ∧
        x.m_ref_count.m_ptr = (State.mk Heap.empty [⟨0, ⟨0⟩⟩]).heap.allocated + 1 ∧
        t.heap.allocated = (State.mk Heap.empty [⟨0, ⟨0⟩⟩]).heap.allocated + 1 ∧
        t.heap.cnt ((State.mk Heap.empty [⟨0, ⟨0⟩⟩]).heap.allocated + 1) = ⟨1, 1, 11, 0, 0⟩ ∧
        t.heap = shared_count.dtor
          (shared_ptr_base.ctor_ptr (State.mk Heap.empty [⟨0, ⟨0⟩⟩]).heap none 11).1 ⟨0⟩ ∧
        (t.heap, Except.ok x)
          = shared_ptr_base.ctor_ptr
              (shared_ptr_base.dtor (State.mk Heap.empty [⟨0, ⟨0⟩⟩]).heap ⟨0, ⟨0⟩⟩) none 11) :=
  C10_reset_ptr (State.mk Heap.empty [⟨0, ⟨0⟩⟩]) 0 ⟨0, ⟨0⟩⟩ 11 (by decide) (by decide)

/-! ## Handle operations as counter transitions -/

theorem absrefs_zero (s : State) : s.absrefs 0 = 0 := by
  simp [State.absrefs]

theorem absrefs_append (h h2 : Heap) (l : List shared_ptr_base) (x : shared_ptr_base) (c : Nat) :
    (State.mk h2 (l ++ [x])).absrefs c
      = (State.mk h l).absrefs c + if x.m_ref_count.m_ptr = c ∧ c ≠ 0 then 1 else 0 := by
  by_cases hc : c = 0
  · simp [State.absrefs, hc]
  · by_cases hx : x.m_ref_count.m_ptr = c <;>
      simp [State.absrefs, State.refs, hc, hx, List.countP_append, List.countP_cons]

theorem absrefs_set (h h2 : Heap) (l : List shared_ptr_base) (i : Nat) (a b : shared_ptr_base)
    (c : Nat) (hi : l[i]? = some a) :
    (State.mk h2 (l.set i b)).absrefs c + (if a.m_ref_count.m_ptr = c ∧ c ≠ 0 then 1 else 0)
      = (State.mk h l).absrefs c + if b.m_ref_count.m_ptr = c ∧ c ≠ 0 then 1 else 0 := by
  by_cases hc : c = 0
  · simp [State.absrefs, hc]
  · have := countP_set_of_getElem? (fun x : shared_ptr_base => decide (x.m_ref_count.m_ptr = c))
      l i a b hi
    simpa [State.absrefs, State.refs, hc] using this

theorem absrefs_eraseIdx (h h2 : Heap) (l : List shared_ptr_base) (i : Nat) (a : shared_ptr_base)
    (c : Nat) (hi : l[i]? = some a) :
    (State.mk h2 (l.eraseIdx i)).absrefs c + (if a.m_ref_count.m_ptr = c ∧ c ≠ 0 then 1 else 0)
      = (State.mk h l).absrefs c := by
  by_cases hc : c = 0
  · simp [State.absrefs, hc]
  · have := countP_eraseIdx_of_getElem? (fun x : shared_ptr_base => decide (x.m_ref_count.m_ptr = c))
      l i a hi
    simpa [State.absrefs, State.refs, hc] using this

theorem absrefs_pos (s : State) (i : Nat) (a : shared_ptr_base) (hi : s.handles[i]? = some a)
    (ha : a.m_ref_count.m_ptr ≠ 0) : 1 ≤ s.absrefs a.m_ref_count.m_ptr := by
  have hmem : a ∈ s.handles := List.getElem?_mem hi
  have : 0 < s.handles.countP (fun x => decide (x.m_ref_count.m_ptr = a.m_ref_count.m_ptr)) :=
    List.countP_pos_iff.mpr ⟨a, hmem, by simp⟩
  simp only [State.absrefs, State.refs, ha, if_false]
  omega

theorem absrefs_le_length (s : State) (c : Nat) : s.absrefs c ≤ s.handles.length := by
  unfold State.absrefs State.refs
  split_ifs
  · omega
  · exact List.countP_le_length _

theorem absrefs_handles (h h2 : Heap) (l : List shared_ptr_base) :
    (State.mk h2 l).absrefs = (State.mk h l).absrefs := rfl

/-- After `l.set i x`, position `j` holds a handle on the counter it held before, provided `x`
references the counter of the handle at `j` whenever `i = j`. -/
theorem getElem?_set_ref (l : List shared_ptr_base) (i j : Nat) (a b x : shared_ptr_base)
    (hi : l[i]? = some a) (hj : l[j]? = some b)
    (hx : i = j → x.m_ref_count.m_ptr = b.m_ref_count.m_ptr) :
    ∃ z, (l.set i x)[j]? = some z ∧ z.m_ref_count.m_ptr = b.m_ref_count.m_ptr := by
  by_cases hij : i = j
  · subst hij
    have hlt : i < l.length := by
      rcases Nat.lt_or_ge i l.length with h | h
      · exact h
      · rw [List.getElem?_eq_none h] at hi
        cases hi
    exact ⟨x, by simp [hlt], hx rfl⟩
  · exact ⟨b, by rw [List.getElem?_set_ne hij]; exact hj, rfl⟩

theorem micro_refl_of_eq (okp : Heap → Addr → Prop) (okn : Nat → Prop) (h : Heap)
    (r r2 : Nat → Nat) (hr : ∀ c, r2 c = r c) :
    Relation.ReflTransGen (Micro okp okn) (h, r) (h, r2) := by
  have : r2 = r := funext hr
  rw [this]

theorem micro_acquire_of (okp : Heap → Addr → Prop) (okn : Nat → Prop) (h : Heap)
    (r r2 : Nat → Nat) (c : Nat) (hc : c ≠ 0) (h1 : 1 ≤ r c)
    (hr : ∀ d, r2 d = r d + if c = d ∧ d ≠ 0 then 1 else 0) (hn : okn (r2 c)) :
    Relation.ReflTransGen (Micro okp okn) (h, r) (add_ref_copy h c, r2) := by
  refine Relation.ReflTransGen.single (Micro.acquire c hc h1 ?_ ?_ hn)
  · rw [hr c]; simp [hc]
  · intro d hd
    rw [hr d]
    have : ¬ (c = d ∧ d ≠ 0) := fun h => hd h.1.symm
    simp [this]

theorem micro_drop_of (okp : Heap → Addr → Prop) (okn : Nat → Prop) (h : Heap)
    (r r2 : Nat → Nat) (c : Nat) (hc : c ≠ 0)
    (hr : ∀ d, r2 d + (if c = d ∧ d ≠ 0 then 1 else 0) = r d) :
    Micro okp okn (h, r) (release h c, r2) := by
  refine Micro.drop c hc ?_ ?_
  · have := hr c
    simpa [hc] using this
  · intro d hd
    have := hr d
    have hne : ¬ (c = d ∧ d ≠ 0) := fun h => hd h.1.symm
    simpa [hne] using this

/-- The free store after `~shared_count()` on a count handle that references `c`, as a
transition: one handle less on `c`, or nothing when `c` is null. -/
theorem micro_dtor_of (okp : Heap → Addr → Prop) (okn : Nat → Prop) (h : Heap)
    (r r2 : Nat → Nat) (c : shared_count)
    (hr : ∀ d, r2 d + (if c.m_ptr = d ∧ d ≠ 0 then 1 else 0) = r d) :
    Relation.ReflTransGen (Micro okp okn) (h, r) (shared_count.dtor h c, r2) := by
  by_cases hc : c.m_ptr = 0
  · have hh : shared_count.dtor h c = h := by simp [shared_count.dtor, hc]
    rw [hh]
    refine micro_refl_of_eq okp okn h r r2 ?_
    intro d
    have := hr d
    have hne : ¬ (c.m_ptr = d ∧ d ≠ 0) := fun h => h.2 (by rw [← h.1]; exact hc)
    simpa [hne] using this
  · have hh : shared_count.dtor h c = release h c.m_ptr := by simp [shared_count.dtor, hc]
    rw [hh]
    exact Relation.ReflTransGen.single (micro_drop_of okp okn h r r2 c.m_ptr hc hr)

/-- The free store after `shared_count(const shared_count&)` on a count handle held by a live
handle, as a transition: one handle more on its counter, or nothing when it is null. -/
theorem micro_copy_of (okp : Heap → Addr → Prop) (okn : Nat → Prop) (h : Heap)
    (r r2 : Nat → Nat) (c : shared_count) (h1 : c.m_ptr ≠ 0 → 1 ≤ r c.m_ptr)
    (hr : ∀ d, r2 d = r d + if c.m_ptr = d ∧ d ≠ 0 then 1 else 0)
    (hn : c.m_ptr ≠ 0 → okn (r2 c.m_ptr)) :
    Relation.ReflTransGen (Micro okp okn) (h, r) ((shared_count.ctor_copy h c).1, r2) := by
  by_cases hc : c.m_ptr = 0
  · have hh : (shared_count.ctor_copy h c).1 = h := by simp [shared_count.ctor_copy, hc]
    rw [hh]
    refine micro_refl_of_eq okp okn h r r2 ?_
    intro d
    have hne : ¬ (c.m_ptr = d ∧ d ≠ 0) := fun h => h.2 (by rw [← h.1]; exact hc)
    rw [hr d]
    simp [hne]
  · have hh : (shared_count.ctor_copy h c).1 = add_ref_copy h c.m_ptr := by
      simp [shared_count.ctor_copy, hc]
    rw [hh]
    exact micro_acquire_of okp okn h r r2 c.m_ptr hc (h1 hc) hr (hn hc)

/-- Every handle operation is a short chain of counter transitions that matches the change in
the number of handles on each counter. -/
theorem step_micro (okp : Heap → Addr → Prop) (okn : Nat → Prop) (s t : State) (op : Op)
    (hstep : step s op = some t) (hp : op_ptr_ok okp s op) (hn : ∀ c, okn (t.absrefs c)) :
    Relation.ReflTransGen (Micro okp okn) (s.heap, s.absrefs) (t.heap, t.absrefs) := by
  obtain ⟨h, l⟩ := s
  cases op with
  | ctor_default =>
    simp only [step, Option.some.injEq] at hstep
    subst hstep
    refine micro_refl_of_eq okp okn h _ _ ?_
    intro c
    rw [absrefs_append h h]
    simp [shared_ptr_base.ctor_default, shared_count.ctor_default]
    omega
  | ctor_nullptr =>
    simp only [step, Option.some.injEq] at hstep
    subst hstep
    refine micro_refl_of_eq okp okn h _ _ ?_
    intro c
    rw [absrefs_append h h]
    simp [shared_ptr_base.ctor_nullptr, shared_count.ctor_default]
    omega
  | ctor_ptr ptr al =>
    cases al with
    | none =>
      simp only [step, ctor_ptr_ok, Option.some.injEq] at hstep
      subst hstep
      refine Relation.ReflTransGen.single ?_
      have hm : Micro okp okn (h, State.absrefs ⟨h, l⟩)
          ((shared_ptr_base.ctor_ptr h none ptr).1,
            State.absrefs ⟨h, l ++ [⟨ptr, ⟨h.allocated + 1⟩⟩]⟩) := by
        refine Micro.alloc ptr hp ?_ ?_
        · rw [absrefs_append h]
          simp
        · intro d hd
          rw [absrefs_append h]
          have : ¬ (h.allocated + 1 = d ∧ d ≠ 0) := fun hh => hd hh.1.symm
          simp [this]
      exact hm
    | some e =>
      simp only [step, shared_ptr_base.ctor_ptr, shared_count.ctor_ptr,
        Option.some.injEq] at hstep
      subst hstep
      exact Relation.ReflTransGen.single (Micro.fail ptr e hp)
  | ctor_copy i =>
    simp only [step] at hstep
    cases hi : l[i]? with
    | none => simp [hi] at hstep
    | some a =>
      simp only [hi, Option.some.injEq] at hstep
      subst hstep
      refine micro_copy_of okp okn h _ _ a.m_ref_count
        (fun ha => absrefs_pos ⟨h, l⟩ i a hi ha) ?_ (fun _ => hn _)
      intro d
      rw [absrefs_append h]
      rfl
  | ctor_alias i q =>
    simp only [step] at hstep
    cases hi : l[i]? with
    | none => simp [hi] at hstep
    | some a =>
      simp only [hi, Option.some.injEq] at hstep
      subst hstep
      refine micro_copy_of okp okn h _ _ a.m_ref_count
        (fun ha => absrefs_pos ⟨h, l⟩ i a hi ha) ?_ (fun _ => hn _)
      intro d
      rw [absrefs_append h]
      rfl
  | ctor_move i =>
    simp only [step] at hstep
    cases hi : l[i]? with
    | none => simp [hi] at hstep
    | some a =>
      simp only [hi, Option.some.injEq] at hstep
      subst hstep
      refine micro_refl_of_eq okp okn h _ _ ?_
      intro c
      have e1 := absrefs_append h h (l.set i (shared_ptr_base.ctor_move a).2)
        (shared_ptr_base.ctor_move a).1 c
      have e2 := absrefs_set h h l i a (shared_ptr_base.ctor_move a).2 c hi
      simp only [shared_ptr_base.ctor_move, shared_count.swap, shared_count.ctor_default]
        at e1 e2 ⊢
      split_ifs at e1 e2 <;> omega
  | assign_copy i j =>
    simp only [step] at hstep
    cases hi : l[i]? with
    | none => simp [hi] at hstep
    | some a =>
      cases hj : l[j]? with
      | none => simp [hi, hj] at hstep
      | some b =>
        simp only [hi, hj, Option.some.injEq] at hstep
        subst hstep
        by_cases hab : b.m_ref_count.m_ptr = a.m_ref_count.m_ptr
        · have he : shared_ptr_base.assign_copy h a b = (h, ⟨b.m_ptr, a.m_ref_count⟩) := by
            simp [shared_ptr_base.assign_copy, shared_count.assign, hab]
          rw [he]
          refine micro_refl_of_eq okp okn h _ _ ?_
          intro c
          have e1 := absrefs_set h h l i a ⟨b.m_ptr, a.m_ref_count⟩ c hi
          simp only at e1 ⊢
          omega
        · have he : shared_ptr_base.assign_copy h a b
              = (shared_count.dtor (shared_count.ctor_copy h b.m_ref_count).1 a.m_ref_count,
                  ⟨b.m_ptr, ⟨b.m_ref_count.m_ptr⟩⟩) := by
            simp only [shared_ptr_base.assign_copy, shared_count.assign, ne_eq, hab,
              not_false_eq_true, if_true, shared_count.dtor, shared_count.ctor_copy]
          rw [he] at hn ⊢
          have e1 := fun c => absrefs_set h
            (shared_count.dtor (shared_count.ctor_copy h b.m_ref_count).1 a.m_ref_count)
            l i a ⟨b.m_ptr, ⟨b.m_ref_count.m_ptr⟩⟩ c hi
          simp only at e1 hn ⊢
          refine Relation.ReflTransGen.trans
            (micro_copy_of okp okn h _
              (fun d => State.absrefs ⟨h, l⟩ d
                + if b.m_ref_count.m_ptr = d ∧ d ≠ 0 then 1 else 0)
              b.m_ref_count (fun hb => absrefs_pos ⟨h, l⟩ j b hj hb) (fun d => rfl) ?_)
            (micro_dtor_of okp okn _ _ _ a.m_ref_count ?_)
          · intro hb
            have := e1 b.m_ref_count.m_ptr
            have h2 := hn b.m_ref_count.m_ptr
            have hne : ¬ (a.m_ref_count.m_ptr = b.m_ref_count.m_ptr ∧ b.m_ref_count.m_ptr ≠ 0) :=
              fun hh => hab hh.1.symm
            simp only [hne, if_false, Nat.add_zero] at this
            simp only
            rw [← this]
            exact h2
          · intro d
            exact e1 d
  | assign_move i j =>
    simp only [step] at hstep
    cases hi : l[i]? with
    | none => simp [hi] at hstep
    | some a =>
      cases hj : l[j]? with
      | none => simp [hi, hj] at hstep
      | some b =>
        simp only [hi, hj] at hstep
        by_cases hij : i = j
        · simp only [hij, if_true, Option.some.injEq] at hstep
          subst hstep
          exact Relation.ReflTransGen.refl
        · simp only [hij, if_false, Option.some.injEq] at hstep
          subst hstep
          have he : shared_ptr_base.assign_move h a b
              = (shared_count.dtor h a.m_ref_count, ⟨b.m_ptr, ⟨b.m_ref_count.m_ptr⟩⟩,
                  ⟨0, ⟨0⟩⟩) := rfl
          rw [he]
          refine micro_dtor_of okp okn h _ _ a.m_ref_count ?_
          intro d
          have hj2 : (l.set i ⟨b.m_ptr, ⟨b.m_ref_count.m_ptr⟩⟩)[j]? = some b := by
            rw [List.getElem?_set_ne hij]; exact hj
          have e1 := absrefs_set h h l i a ⟨b.m_ptr, ⟨b.m_ref_count.m_ptr⟩⟩ d hi
          have e2 := absrefs_set h (shared_count.dtor h a.m_ref_count)
            (l.set i ⟨b.m_ptr, ⟨b.m_ref_count.m_ptr⟩⟩) j b ⟨0, ⟨0⟩⟩ d hj2
          simp only at e1 e2 ⊢
          split_ifs at e1 e2 ⊢ <;> omega
  | swap i j =>
    simp only [step] at hstep
    cases hi : l[i]? with
    | none => simp [hi] at hstep
    | some a =>
      cases hj : l[j]? with
      | none => simp [hi, hj] at hstep
      | some b =>
        simp only [hi, hj, Option.some.injEq] at hstep
        subst hstep
        have he : shared_ptr_base.swap a b
            = (⟨b.m_ptr, ⟨b.m_ref_count.m_ptr⟩⟩, ⟨a.m_ptr, ⟨a.m_ref_count.m_ptr⟩⟩) := rfl
        rw [he]
        refine micro_refl_of_eq okp okn h _ _ ?_
        intro d
        obtain ⟨z, hz, hzc⟩ := getElem?_set_ref l i j a b ⟨b.m_ptr, ⟨b.m_ref_count.m_ptr⟩⟩
          hi hj (fun _ => rfl)
        have e1 := absrefs_set h h l i a ⟨b.m_ptr, ⟨b.m_ref_count.m_ptr⟩⟩ d hi
        have e2 := absrefs_set h h (l.set i ⟨b.m_ptr, ⟨b.m_ref_count.m_ptr⟩⟩) j z
          ⟨a.m_ptr, ⟨a.m_ref_count.m_ptr⟩⟩ d hz
        rw [hzc] at e2
        simp only at e1 e2 ⊢
        split_ifs at e1 e2 ⊢ <;> omega
  | reset i =>
    simp only [step] at hstep
    cases hi : l[i]? with
    | none => simp [hi] at hstep
    | some a =>
      simp only [hi, Option.some.injEq, reset_eq] at hstep
      subst hstep
      refine micro_dtor_of okp okn h _ _ a.m_ref_count ?_
      intro d
      have e1 := absrefs_set h (shared_count.dtor h a.m_ref_count) l i a ⟨0, ⟨0⟩⟩ d hi
      simp only at e1 ⊢
      split_ifs at e1 ⊢ <;> omega
  | reset_ptr i ptr al =>
    simp only [step] at hstep
    cases hi : l[i]? with
    | none => simp [hi] at hstep
    | some a =>
      simp only [hi] at hstep
      by_cases ha : shared_ptr_base.reset_assertion a ptr = true
      · cases al with
        | none =>
          have he : shared_ptr_base.reset_ptr h none a ptr
              = (shared_count.dtor (shared_ptr_base.ctor_ptr h none ptr).1 a.m_ref_count,
                  .ok ⟨ptr, ⟨h.allocated + 1⟩⟩) := by
            simp only [shared_ptr_base.reset_ptr, ha, if_true, ctor_ptr_ok,
              shared_ptr_base.swap, shared_count.swap, shared_ptr_base.dtor]
          simp only [he, Option.some.injEq] at hstep
          subst hstep
          have e1 := fun d => absrefs_set h
            (shared_count.dtor (shared_ptr_base.ctor_ptr h none ptr).1 a.m_ref_count)
            l i a ⟨ptr, ⟨h.allocated + 1⟩⟩ d hi
          simp only at e1 ⊢
          refine Relation.ReflTransGen.trans
            (Relation.ReflTransGen.single
              (@Micro.alloc okp okn h (State.absrefs ⟨h, l⟩)
                (fun d => State.absrefs ⟨h, l⟩ d
                  + if h.allocated + 1 = d ∧ d ≠ 0 then 1 else 0) ptr hp ?_ ?_))
            (micro_dtor_of okp okn _ _ _ a.m_ref_count ?_)
          · simp
          · intro d hd
            have : ¬ (h.allocated + 1 = d ∧ d ≠ 0) := fun hh => hd hh.1.symm
            simp [this]
          · intro d
            exact e1 d
        | some e =>
          have he : shared_ptr_base.reset_ptr h (some e) a ptr
              = ((shared_ptr_base.ctor_ptr h (some e) ptr).1, .error (.thrown e)) := by
            simp only [shared_ptr_base.reset_ptr, ha, if_true, shared_ptr_base.ctor_ptr,
              shared_count.ctor_ptr]
          simp only [he, Option.some.injEq] at hstep
          subst hstep
          exact Relation.ReflTransGen.single (Micro.fail ptr e hp)
      · simp [shared_ptr_base.reset_ptr, ha] at hstep
  | dtor i =>
    simp only [step] at hstep
    cases hi : l[i]? with
    | none => simp [hi] at hstep
    | some a =>
      simp only [hi, Option.some.injEq] at hstep
      subst hstep
      refine micro_dtor_of okp okn h _ _ a.m_ref_count ?_
      intro d
      exact absrefs_eraseIdx h _ l i a d hi

/-! ## The count invariant -/

/-- The invariant behind C1, on a free store `a.1` and handle counts `a.2`: only allocated
counters have handles, and the strong count of a counter that was not destroyed is the number of
its handles reduced to the range of `int`. -/
theorem micro_count_inv (okp : Heap → Addr → Prop) (okn : Nat → Prop)
    (a b : Heap × (Nat → Nat)) (hm : Micro okp okn a b)
    (hv : ∀ c, 1 ≤ a.2 c → 1 ≤ c ∧ c ≤ a.1.allocated)
    (hc : ∀ c, c ≠ 0 → (a.1.cnt c).destroyed = 0 → (a.1.cnt c).m_use_count = wrap_int (a.2 c)) :
    (∀ c, 1 ≤ b.2 c → 1 ≤ c ∧ c ≤ b.1.allocated) ∧
    (∀ c, c ≠ 0 → (b.1.cnt c).destroyed = 0 → (b.1.cnt c).m_use_count = wrap_int (b.2 c)) := by
  cases hm with
  | @acquire h r r2 c hc0 h1 hr hother hn =>
    simp only at hv hc ⊢
    refine ⟨?_, ?_⟩
    · intro d hd
      by_cases hdc : d = c
      · subst hdc; exact hv d h1
      · rw [hother d hdc] at hd; exact hv d hd
    · intro d hd0 hdd
      by_cases hdc : d = c
      · subst hdc
        rw [add_ref_copy_cnt_self] at hdd ⊢
        simp only at hdd ⊢
        rw [hc d hd0 hdd, hr, wrap_int_succ]
        push_cast
        rfl
      · rw [add_ref_copy_cnt_ne _ hdc] at hdd ⊢
        rw [hother d hdc]
        exact hc d hd0 hdd
  | @drop h r r2 c hc0 hr hother =>
    simp only at hv hc ⊢
    refine ⟨?_, ?_⟩
    · intro d hd
      rw [release_allocated]
      by_cases hdc : d = c
      · subst hdc; exact hv d (by omega)
      · rw [hother d hdc] at hd; exact hv d hd
    · intro d hd0 hdd
      by_cases hdc : d = c
      · subst hdc
        have h0 : (h.cnt d).destroyed = 0 := by
          have := release_destroyed_le h d d
          omega
        rw [release_use_count, hc d hd0 h0, wrap_int_pred, ← hr]
        push_cast
        congr 1
        omega
      · rw [release_cnt_ne _ hdc] at hdd ⊢
        rw [hother d hdc]
        exact hc d hd0 hdd
  | @alloc h r r2 ptr hp hr hother =>
    simp only [ctor_ptr_ok] at hv hc ⊢
    have hr0 : r (h.allocated + 1) = 0 := by
      rcases Nat.eq_zero_or_pos (r (h.allocated + 1)) with h0 | h0
      · exact h0
      · have := (hv _ h0).2
        omega
    refine ⟨?_, ?_⟩
    · intro d hd
      by_cases hda : d = h.allocated + 1
      · omega
      · rw [hother d hda] at hd
        have := hv d hd
        omega
    · intro d hd0 hdd
      by_cases hda : d = h.allocated + 1
      · subst hda
        rw [hr, hr0]
        simp [sp_counter_ptr.ctor, wrap_int]
      · rw [hother d hda]
        simp only [store_cnt_ne _ _ hda] at hdd ⊢
        exact hc d hd0 hdd
  | @fail h r ptr e hp =>
    exact ⟨hv, hc⟩

theorem op_ptr_ok_trivial (s : State) (op : Op) : op_ptr_ok (fun _ _ => True) s op := by
  cases op <;> simp [op_ptr_ok]

theorem reachable_count_inv (s : State) (hs : Reachable s) :
    (∀ c, 1 ≤ s.absrefs c → 1 ≤ c ∧ c ≤ s.heap.allocated) ∧
    (∀ c, c ≠ 0 → (s.heap.cnt c).destroyed = 0 →
      (s.heap.cnt c).m_use_count = wrap_int (s.absrefs c)) := by
  induction hs with
  | init =>
    refine ⟨?_, ?_⟩
    · intro c hc
      simp [State.absrefs, State.refs, State.init] at hc
    · intro c _ _
      simp [State.absrefs, State.refs, State.init, Heap.empty, wrap_int]
  | @step s t op _ hstep _ ih =>
    have hch := step_micro (fun _ _ => True) (fun _ => True) s t op hstep
      (op_ptr_ok_trivial s op) (fun _ => trivial)
    generalize hA : (s.heap, s.absrefs) = A at hch
    generalize hB : (t.heap, t.absrefs) = B at hch
    have key : ∀ A B : Heap × (Nat → Nat),
        Relation.ReflTransGen (Micro (fun _ _ => True) (fun _ => True)) A B →
        ((∀ c, 1 ≤ A.2 c → 1 ≤ c ∧ c ≤ A.1.allocated) ∧
          (∀ c, c ≠ 0 → (A.1.cnt c).destroyed = 0 →
            (A.1.cnt c).m_use_count = wrap_int (A.2 c))) →
        ((∀ c, 1 ≤ B.2 c → 1 ≤ c ∧ c ≤ B.1.allocated) ∧
          (∀ c, c ≠ 0 → (B.1.cnt c).destroyed = 0 →
            (B.1.cnt c).m_use_count = wrap_int (B.2 c))) := by
      intro A B hAB hinv
      induction hAB with
      | refl => exact hinv
      | tail _ hm ih2 => exact micro_count_inv _ _ _ _ hm ih2.1 ih2.2
    have := key A B hch (by rw [← hA]; exact ih)
    rw [← hB] at this
    exact this

/-- Handles reference allocated counters only. -/
theorem reachable_valid (s : State) (hs : Reachable s) (x : shared_ptr_base)
    (hx : x ∈ s.handles) : x.m_ref_count.m_ptr ≤ s.heap.allocated := by
  by_cases h0 : x.m_ref_count.m_ptr = 0
  · omega
  · obtain ⟨i, hi⟩ := List.mem_iff_getElem?.mp hx
    exact ((reachable_count_inv s hs).1 _ (absrefs_pos s i x hi h0)).2

/-- C1 (as amended). In every state reachable from no handles by handle operations, for every
counter that has not been destroyed, the strong count, which is what `use_count()` returns on
every handle referencing the counter, is the number of live handles referencing it reduced to
the range of `int`; it is exactly that number whenever the number is at most `INT_MAX`. -/
theorem C1_count_invariant (s : State) (c : Nat) (hs : Reachable s) (hc : c ≠ 0)
    (hd : (s.heap.cnt c).destroyed = 0) :
    (s.heap.cnt c).m_use_count = wrap_int (s.refs c) ∧
    (∀ x ∈ s.handles, x.m_ref_count.m_ptr = c → x.use_count s.heap = wrap_int (s.refs c)) ∧
    ((s.refs c : Int) ≤ INT_MAX →
      (s.heap.cnt c).m_use_count = s.refs c ∧
      ∀ x ∈ s.handles, x.m_ref_count.m_ptr = c → x.use_count s.heap = s.refs c) := by
  have h1 : (s.heap.cnt c).m_use_count = wrap_int (s.refs c) := by
    have := (reachable_count_inv s hs).2 c hc hd
    simpa [State.absrefs, hc] using this
  have h2 : ∀ x ∈ s.handles, x.m_ref_count.m_ptr = c →
      x.use_count s.heap = (s.heap.cnt c).m_use_count :=
    fun x _ hx => use_count_of_ref s.heap x c hx hc
  have h3 : (s.refs c : Int) ≤ INT_MAX → wrap_int (s.refs c) = s.refs c :=
    fun hle => wrap_int_of_range (by unfold INT_MIN; omega) hle
  refine ⟨h1, fun x hx hxc => (h2 x hx hxc).trans h1, fun hle => ⟨h1.trans (h3 hle), ?_⟩⟩
  intro x hx hxc
  exact ((h2 x hx hxc).trans h1).trans (h3 hle)

theorem fan_cnt (p : Addr) (k : Nat) :
    (fan p k).heap.cnt 1 = ⟨wrap_int (k + 1), 1, p, 0, 0⟩ := by
  simp [fan]

/-- Witness for C1: the test's state after `sp2 = sp1`, two handles on the counter at 1. -/
theorem C1_count_invariant_witness :
    ((fan 10 1).heap.cnt 1).m_use_count = wrap_int ((fan 10 1).refs 1) ∧
    (∀ x ∈ (fan 10 1).handles, x.m_ref_count.m_ptr = 1 →
      x.use_count (fan 10 1).heap = wrap_int ((fan 10 1).refs 1)) ∧
    (((fan 10 1).refs 1 : Int) ≤ INT_MAX →
      ((fan 10 1).heap.cnt 1).m_use_count = (fan 10 1).refs 1 ∧
      ∀ x ∈ (fan 10 1).handles, x.m_ref_count.m_ptr = 1 →
        x.use_count (fan 10 1).heap = (fan 10 1).refs 1) :=
  C1_count_invariant (fan 10 1) 1 (fan_reachable 10 (by decide) 1) (by decide) (by decide)

/-- C1 as stated fails with 2147483648 live handles on one counter: in the state reached by
`shared_ptr<A> sp(new A)` and 2147483647 copies, the counter at address 1 is not destroyed and
2147483648 handles reference it, but its strong count, and `sp.use_count()`, is -2147483648. -/
theorem C1_fails_at_two_pow_31_handles :
    Reachable (fan 10 2147483647) ∧
    ((fan 10 2147483647).heap.cnt 1).destroyed = 0 ∧
    (fan 10 2147483647).refs 1 = 2147483648 ∧
    ((fan 10 2147483647).heap.cnt 1).m_use_count = -2147483648 ∧
    (fan 10 2147483647).handles[0]? = some ⟨10, ⟨1⟩⟩ ∧
    shared_ptr_base.use_count (fan 10 2147483647).heap ⟨10, ⟨1⟩⟩ = -2147483648 := by
  refine ⟨fan_reachable 10 (by decide) _, ?_, refs_fan 10 _, ?_, fan_getElem?_zero 10 _, ?_⟩
  · rw [fan_cnt]
  · rw [fan_cnt]; decide
  · rw [fan_handle_use_count]; decide

/-! ## No premature disposal -/

/-- An invariant of the counter transitions that holds before any handle exists holds in every
reachable state, when the allowed operations meet the side conditions of the transitions. -/
theorem reach_inv (ok : State → Op → State → Prop) (okp : Heap → Addr → Prop)
    (okn : Nat → Prop) (P : Heap × (Nat → Nat) → Prop)
    (hinit : P (State.init.heap, State.init.absrefs))
    (hmicro : ∀ a b, Micro okp okn a b → P a → P b)
    (hok : ∀ s op t, ok s op t → op_ptr_ok okp s op ∧ ∀ c, okn (t.absrefs c))
    (s : State) (hs : Reach ok s) : P (s.heap, s.absrefs) := by
  induction hs with
  | init => exact hinit
  | @step s t op _ hstep hk ih =>
    have hch := step_micro okp okn s t op hstep (hok s op t hk).1 (hok s op t hk).2
    generalize (s.heap, s.absrefs) = A at hch ih
    generalize (t.heap, t.absrefs) = B at hch
    induction hch with
    | refl => exact ih
    | tail _ hm ih2 => exact hmicro _ _ hm ih2

theorem micro_valid (okp : Heap → Addr → Prop) (okn : Nat → Prop)
    (a b : Heap × (Nat → Nat)) (hm : Micro okp okn a b)
    (hv : ∀ c, 1 ≤ a.2 c → 1 ≤ c ∧ c ≤ a.1.allocated) :
    ∀ c, 1 ≤ b.2 c → 1 ≤ c ∧ c ≤ b.1.allocated := by
  cases hm with
  | @acquire h r r2 c hc0 h1 hr hother hn =>
    intro d hd
    by_cases hdc : d = c
    · subst hdc; exact hv d h1
    · simp only at hd
      rw [hother d hdc] at hd; exact hv d hd
  | @drop h r r2 c hc0 hr hother =>
    intro d hd
    simp only [release_allocated] at hd ⊢
    by_cases hdc : d = c
    · subst hdc; exact hv d (by simp only; omega)
    · rw [hother d hdc] at hd; exact hv d hd
  | @alloc h r r2 ptr hp hr hother =>
    intro d hd
    simp only [ctor_ptr_ok] at hd ⊢
    by_cases hda : d = h.allocated + 1
    · omega
    · rw [hother d hda] at hd
      have := hv d hd
      simp only at this
      omega
  | @fail h r ptr e hp =>
    exact hv

theorem micro_countInv (okp : Heap → Addr → Prop) (a b : Heap × (Nat → Nat))
    (hm : Micro okp (fun n => (n : Int) ≤ INT_MAX) a b) (ha : CountInv a) : CountInv b := by
  refine ⟨micro_valid _ _ a b hm ha.1, ?_⟩
  obtain ⟨hv, hc⟩ := ha
  cases hm with
  | @acquire h r r2 c hc0 h1 hr hother hn =>
    simp only at hv hc hn ⊢
    intro d hd1 hd2
    by_cases hdc : d = c
    · subst hdc
      obtain ⟨e1, _, e3, _⟩ := hc d hd1 hd2
      obtain ⟨f1, f2, f3⟩ := e3 h1
      rw [add_ref_copy_cnt_self]
      simp only
      have hw : wrap_int ((h.cnt d).m_use_count + 1) = r2 d := by
        rw [e1, hr]
        push_cast
        apply wrap_int_of_range
        · unfold INT_MIN; omega
        · rw [hr] at hn; push_cast at hn; exact hn
      exact ⟨hw, hn, fun _ => ⟨f1, f2, f3⟩, fun h0 => by omega⟩
    · rw [add_ref_copy_cnt_ne _ hdc, hother d hdc]
      exact hc d hd1 hd2
  | @drop h r r2 c hc0 hr hother =>
    simp only [release_allocated] at hv hc ⊢
    intro d hd1 hd2
    by_cases hdc : d = c
    · subst hdc
      obtain ⟨e1, e2, e3, _⟩ := hc d hd1 hd2
      obtain ⟨f1, f2, f3⟩ := e3 (by omega)
      by_cases h1 : (h.cnt d).m_use_count = 1
      · have hr2 : r2 d = 0 := by rw [e1] at h1; omega
        rw [release_cnt_self_of_one _ _ h1, hr2]
        refine ⟨by simp, by unfold INT_MAX; decide, fun h => by omega, fun _ => ?_⟩
        simp [f1, f2, f3, wrap_int]
      · rw [release_cnt_self_of_ne_one _ _ h1]
        simp only
        have hpos : 1 ≤ r2 d := by rw [e1] at h1; omega
        have hw : wrap_int ((h.cnt d).m_use_count - 1) = r2 d := by
          rw [e1, ← hr]
          push_cast
          rw [← hr] at e2
          push_cast at e2
          have : ((r2 d : Int) + 1 - 1) = r2 d := by omega
          rw [this]
          apply wrap_int_of_range
          · unfold INT_MIN; omega
          · omega
        refine ⟨hw, ?_, fun _ => ⟨f1, f2, f3⟩, fun h0 => by omega⟩
        rw [← hr] at e2
        push_cast at e2
        omega
    · rw [release_cnt_ne _ hdc, hother d hdc]
      exact hc d hd1 hd2
  | @alloc h r r2 ptr hp hr hother =>
    simp only [ctor_ptr_ok] at hv hc ⊢
    have hr0 : r (h.allocated + 1) = 0 := by
      rcases Nat.eq_zero_or_pos (r (h.allocated + 1)) with h0 | h0
      · exact h0
      · have := (hv _ h0).2
        omega
    intro d hd1 hd2
    by_cases hda : d = h.allocated + 1
    · subst hda
      rw [hr, hr0]
      simp only [store_cnt_self, sp_counter_ptr.ctor]
      refine ⟨by simp, by unfold INT_MAX; decide, fun _ => by simp, fun h0 => by omega⟩
    · rw [hother d hda]
      simp only [store_cnt_ne _ _ hda]
      exact hc d hd1 (by omega)
  | @fail h r ptr e hp =>
    exact hc

theorem micro_ptrInv (okn : Nat → Prop) (a b : Heap × (Nat → Nat))
    (hm : Micro fresh okn a b) (ha : PtrInv a) : PtrInv b := by
  refine ⟨micro_valid _ _ a b hm ha.1, ?_⟩
  obtain ⟨hv, hc⟩ := ha
  cases hm with
  | @acquire h r r2 c hc0 h1 hr hother hn =>
    simp only at hv hc ⊢
    have hcnt : ∀ d, ((add_ref_copy h c).cnt d).m_ptr = (h.cnt d).m_ptr ∧
        ((add_ref_copy h c).cnt d).disposed = (h.cnt d).disposed := by
      intro d
      by_cases hdc : d = c
      · subst hdc; rw [add_ref_copy_cnt_self]; exact ⟨rfl, rfl⟩
      · rw [add_ref_copy_cnt_ne _ hdc]; exact ⟨rfl, rfl⟩
    intro d hd1 hd2
    simp only [hcnt, add_ref_copy_deleted, add_ref_copy_allocated] at hd2 ⊢
    exact hc d hd1 hd2
  | @drop h r r2 c hc0 hr hother =>
    simp only [release_allocated] at hv hc ⊢
    have hcv := hv c (by omega)
    by_cases h1 : (h.cnt c).m_use_count = 1
    · intro d hd1 hd2
      simp only [release_m_ptr, release_deleted_of_one _ _ h1, List.mem_append,
        List.mem_singleton]
      refine ⟨?_, (hc d hd1 hd2).2⟩
      by_cases hdc : d = c
      · subst hdc
        rw [release_cnt_self_of_one _ _ h1]
        simp
      · rw [release_cnt_ne _ hdc]
        have hne := (hc c hcv.1 hcv.2).2 d hd1 hd2 hdc
        rw [← (hc d hd1 hd2).1]
        constructor
        · rintro (h | h)
          · exact h
          · exact absurd h hne
        · exact fun h => Or.inl h
    · have hcnt : ∀ d, ((release h c).cnt d).disposed = (h.cnt d).disposed := by
        intro d
        by_cases hdc : d = c
        · subst hdc; rw [release_cnt_self_of_ne_one _ _ h1]
        · rw [release_cnt_ne _ hdc]
      intro d hd1 hd2
      simp only [release_m_ptr, release_deleted_of_ne_one _ _ h1, hcnt]
      exact hc d hd1 hd2
  | @alloc h r r2 ptr hp hr hother =>
    simp only [ctor_ptr_ok] at hv hc ⊢
    obtain ⟨hp0, hpd, hpc⟩ := hp
    intro d hd1 hd2
    by_cases hda : d = h.allocated + 1
    · subst hda
      simp only [store_cnt_self, sp_counter_ptr.ctor, store_deleted]
      refine ⟨⟨fun h => absurd h hpd, fun h => by omega⟩, ?_⟩
      intro d2 hd3 hd4 hne
      rw [store_cnt_ne _ _ hne]
      exact hpc d2 hd3 (by omega)
    · simp only [store_cnt_ne _ _ hda, store_deleted]
      have hd5 : d ≤ h.allocated := by omega
      refine ⟨(hc d hd1 hd5).1, ?_⟩
      intro d2 hd3 hd4 hne
      by_cases hd2a : d2 = h.allocated + 1
      · subst hd2a
        simp only [store_cnt_self, sp_counter_ptr.ctor]
        exact fun h => hpc d hd1 hd5 h.symm
      · rw [store_cnt_ne _ _ hd2a]
        exact (hc d hd1 hd5).2 d2 hd3 (by omega) hne
  | @fail h r ptr e hp =>
    simp only [shared_ptr_base.ctor_ptr, shared_count.ctor_ptr] at hv hc ⊢
    obtain ⟨hp0, hpd, hpc⟩ := hp
    intro d hd1 hd2
    refine ⟨?_, (hc d hd1 hd2).2⟩
    rw [← (hc d hd1 hd2).1]
    simp only [List.mem_append, List.mem_singleton]
    constructor
    · rintro (h | h)
      · exact h
      · exact absurd h (hpc d hd1 hd2)
    · exact fun h => Or.inl h

theorem countInv_init : CountInv (State.init.heap, State.init.absrefs) := by
  refine ⟨?_, ?_⟩
  · intro c hc
    simp [State.absrefs, State.refs, State.init] at hc
  · intro c h1 h2
    simp only [State.init, Heap.empty] at h2
    omega

theorem ptrInv_init : PtrInv (State.init.heap, State.init.absrefs) := by
  refine ⟨?_, ?_⟩
  · intro c hc
    simp [State.absrefs, State.refs, State.init] at hc
  · intro c h1 h2
    simp only [State.init, Heap.empty] at h2
    omega

theorem bounded_ok (s : State) (op : Op) (t : State)
    (h : op_fresh s op ∧ (t.handles.length : Int) ≤ INT_MAX) :
    op_ptr_ok fresh s op ∧ ∀ c, ((t.absrefs c : Nat) : Int) ≤ INT_MAX := by
  refine ⟨h.1, fun c => ?_⟩
  have := absrefs_le_length t c
  omega

theorem reachableBounded_countInv (s : State) (hs : ReachableBounded s) :
    CountInv (s.heap, s.absrefs) :=
  reach_inv _ fresh (fun n => (n : Int) ≤ INT_MAX) CountInv countInv_init
    (fun a b hm ha => micro_countInv fresh a b hm ha) bounded_ok s hs

theorem reachableBounded_ptrInv (s : State) (hs : ReachableBounded s) :
    PtrInv (s.heap, s.absrefs) :=
  reach_inv _ fresh (fun n => (n : Int) ≤ INT_MAX) PtrInv ptrInv_init
    (fun a b hm ha => micro_ptrInv _ a b hm ha) bounded_ok s hs

/-- C3 (as amended). In every state reachable through handle operations whose raw pointers are
all fresh and that never held more than `INT_MAX` handles at once: a counter referenced by a live
handle has not been destroyed, its `dispose()` has not run, its object has not been deleted and
the handle reports a count of at least 1; and for every counter ever allocated the managed
object is alive (not deleted; equivalently `dispose()` and `destroy()` have not run) exactly when
the strong count is at least 1. -/
theorem C3_no_premature_disposal (s : State) (hs : ReachableBounded s) :
    (∀ x ∈ s.handles, x.m_ref_count.m_ptr ≠ 0 →
      (s.heap.cnt x.m_ref_count.m_ptr).destroyed = 0 ∧
      (s.heap.cnt x.m_ref_count.m_ptr).disposed = 0 ∧
      (s.heap.cnt x.m_ref_count.m_ptr).m_ptr ∉ s.heap.deleted ∧
      1 ≤ x.use_count s.heap) ∧
    (∀ c, 1 ≤ c → c ≤ s.heap.allocated →
      ((s.heap.cnt c).m_ptr ∉ s.heap.deleted ↔ 1 ≤ (s.heap.cnt c).m_use_count) ∧
      ((s.heap.cnt c).disposed = 0 ↔ 1 ≤ (s.heap.cnt c).m_use_count) ∧
      ((s.heap.cnt c).destroyed = 0 ↔ 1 ≤ (s.heap.cnt c).m_use_count)) := by
  obtain ⟨hv, hc⟩ := reachableBounded_countInv s hs
  obtain ⟨_, hp⟩ := reachableBounded_ptrInv s hs
  simp only at hv hc hp
  have key : ∀ c, 1 ≤ c → c ≤ s.heap.allocated →
      ((s.heap.cnt c).m_ptr ∉ s.heap.deleted ↔ 1 ≤ (s.heap.cnt c).m_use_count) ∧
      ((s.heap.cnt c).disposed = 0 ↔ 1 ≤ (s.heap.cnt c).m_use_count) ∧
      ((s.heap.cnt c).destroyed = 0 ↔ 1 ≤ (s.heap.cnt c).m_use_count) := by
    intro c h1 h2
    obtain ⟨e1, _, e3, e4⟩ := hc c h1 h2
    have e5 := (hp c h1 h2).1
    rw [e1, e5]
    rcases Nat.eq_zero_or_pos (s.absrefs c) with h0 | h0
    · obtain ⟨f1, f2, _⟩ := e4 h0
      rw [h0, f1, f2]
      simp
    · obtain ⟨f1, f2, _⟩ := e3 h0
      rw [f1, f2]
      have : (1 : Int) ≤ (s.absrefs c : Int) := by omega
      simp [this]
  refine ⟨?_, key⟩
  intro x hx hx0
  obtain ⟨i, hi⟩ := List.mem_iff_getElem?.mp hx
  have hpos := absrefs_pos s i x hi hx0
  have hval := hv _ hpos
  obtain ⟨e1, _, e3, _⟩ := hc _ hval.1 hval.2
  obtain ⟨f1, f2, _⟩ := e3 hpos
  have hk := key _ hval.1 hval.2
  have hu : 1 ≤ (s.heap.cnt x.m_ref_count.m_ptr).m_use_count := by rw [e1]; omega
  refine ⟨f2, f1, hk.1.mpr hu, ?_⟩
  rw [use_count_eq _ _ hx0]
  exact hu

theorem fan_reachableBounded (p : Addr) (hp : p ≠ 0) (k : Nat)
    (hk : ((k + 1 : Nat) : Int) ≤ INT_MAX) : ReachableBounded (fan p k) := by
  induction k with
  | zero =>
    refine Reach.step (Op.ctor_ptr p none) Reach.init ?_ ⟨?_, ?_⟩
    · simp [step, shared_ptr_base.ctor_ptr, shared_count.ctor_ptr, fan, State.init,
        sp_counter_ptr.ctor, Heap.empty, Heap.store, wrap_int]
    · simp only [op_fresh, op_ptr_ok, fresh, State.init, Heap.empty]
      refine ⟨hp, by simp, ?_⟩
      intro c h1 h2
      omega
    · simpa [fan] using hk
  | succ k ih =>
    refine Reach.step (Op.ctor_copy 0) (ih ?_) (step_fan p k) ⟨trivial, ?_⟩
    · push_cast at hk ⊢
      omega
    · simpa [fan] using hk

/-- Witness for C3: the test's state after `sp2 = sp1`. -/
theorem C3_no_premature_disposal_witness :
    (∀ x ∈ (fan 10 1).handles, x.m_ref_count.m_ptr ≠ 0 →
      ((fan 10 1).heap.cnt x.m_ref_count.m_ptr).destroyed = 0 ∧
      ((fan 10 1).heap.cnt x.m_ref_count.m_ptr).disposed = 0 ∧
      ((fan 10 1).heap.cnt x.m_ref_count.m_ptr).m_ptr ∉ (fan 10 1).heap.deleted ∧
      1 ≤ x.use_count (fan 10 1).heap) ∧
    (∀ c, 1 ≤ c → c ≤ (fan 10 1).heap.allocated →
      (((fan 10 1).heap.cnt c).m_ptr ∉ (fan 10 1).heap.deleted ↔
        1 ≤ ((fan 10 1).heap.cnt c).m_use_count) ∧
      (((fan 10 1).heap.cnt c).disposed = 0 ↔ 1 ≤ ((fan 10 1).heap.cnt c).m_use_count) ∧
      (((fan 10 1).heap.cnt c).destroyed = 0 ↔ 1 ≤ ((fan 10 1).heap.cnt c).m_use_count)) :=
  C3_no_premature_disposal (fan 10 1) (fan_reachableBounded 10 (by decide) 1 (by decide))

theorem fan_deleted (p : Addr) (k : Nat) : (fan p k).heap.deleted = [] := rfl

theorem fan_step_reset (p : Addr) (k : Nat) :
    step (fan p k) (.reset 0)
      = some ⟨release (fan p k).heap 1, (fan p k).handles.set 0 ⟨0, ⟨0⟩⟩⟩ := by
  simp only [step, fan_getElem?_zero, reset_eq, shared_count.dtor]
  simp

theorem fan_release_of_one (p : Addr) (k : Nat) (h1 : wrap_int (k + 1) = 1) :
    (release (fan p k).heap 1).cnt 1 = ⟨0, 0, p, 1, 1⟩ ∧
    (release (fan p k).heap 1).deleted = [p] := by
  have hc : ((fan p k).heap.cnt 1).m_use_count = 1 := by rw [fan_cnt]; exact h1
  refine ⟨?_, ?_⟩
  · rw [release_cnt_self_of_one _ _ hc, fan_cnt]
    simp [wrap_int]
  · rw [release_deleted_of_one _ _ hc, fan_cnt]
    simp [fan, Heap.empty, Heap.store]

theorem fan_handles_one (p : Addr) (k : Nat) (hk : 1 ≤ k) :
    ((fan p k).handles.set 0 ⟨0, ⟨0⟩⟩)[1]? = some ⟨p, ⟨1⟩⟩ := by
  rw [List.getElem?_set_ne (by decide)]
  exact List.getElem?_replicate_of_lt (by omega)

/-- C3 as stated fails once more than `INT_MAX` handles share a counter; the raw pointer is
fresh. With 2147483648 handles (after `shared_ptr<A> sp(new A)` and 2147483647 copies) the
managed object is alive but the strong count is -2147483648, not at least 1. With 4294967297
handles the strong count is back at 1, so `sp.reset()` runs `dispose()` and `destroy()`: the
handle at position 1 still references the counter, which is disposed and destroyed, its object
deleted. -/
theorem C3_fails_beyond_int_max :
    (ReachableFresh (fan 10 2147483647) ∧
      ((fan 10 2147483647).heap.cnt 1).m_ptr ∉ (fan 10 2147483647).heap.deleted ∧
      ¬ (1 ≤ ((fan 10 2147483647).heap.cnt 1).m_use_count)) ∧
    (ReachableFresh (fan 10 4294967296) ∧
      step (fan 10 4294967296) (.reset 0)
        = some ⟨release (fan 10 4294967296).heap 1,
            (fan 10 4294967296).handles.set 0 ⟨0, ⟨0⟩⟩⟩ ∧
      ReachableFresh ⟨release (fan 10 4294967296).heap 1,
        (fan 10 4294967296).handles.set 0 ⟨0, ⟨0⟩⟩⟩ ∧
      ((fan 10 4294967296).handles.set 0 ⟨0, ⟨0⟩⟩)[1]? = some ⟨10, ⟨1⟩⟩ ∧
      ((release (fan 10 4294967296).heap 1).cnt 1).disposed = 1 ∧
      ((release (fan 10 4294967296).heap 1).cnt 1).destroyed = 1 ∧
      (release (fan 10 4294967296).heap 1).deleted = [10]) := by
  have hrel := fan_release_of_one 10 4294967296 (by decide)
  refine ⟨⟨fan_reachableFresh 10 (by decide) _, ?_, ?_⟩,
    fan_reachableFresh 10 (by decide) _, fan_step_reset 10 _,
    Reach.step (Op.reset 0) (fan_reachableFresh 10 (by decide) _) (fan_step_reset 10 _) trivial,
    fan_handles_one 10 _ (by decide), ?_, ?_, hrel.2⟩
  · rw [fan_cnt, fan_deleted]
    exact List.not_mem_nil _
  · rw [fan_cnt]
    decide
  · rw [hrel.1]
  · rw [hrel.1]

/-- C6. In every reachable state and for every raw pointer `ptr` (null included), when the
allocation of the counter succeeds, `shared_ptr_base(ptr)` yields a handle `x` with
`use_count() == 1`, `unique() == true` and `get() == ptr`; it references a counter created by
this call, at an address beyond all counters allocated before, with strong and weak count 1;
no handle referenced that address before, and `x` is the only handle that references it
afterwards. No other counter changes and nothing is deleted. -/
theorem C6_construct_from_raw (s : State) (ptr : Addr) (hs : Reachable s) :
    ∃ t x, step s (.ctor_ptr ptr none) = some t ∧ t.handles = s.handles ++ [x] ∧
      shared_ptr_base.ctor_ptr s.heap none ptr = (t.heap, .ok x) ∧
      x.use_count t.heap = 1 ∧ x.unique t.heap = true ∧ x.get = ptr ∧
      x.m_ref_count.m_ptr = s.heap.allocated + 1 ∧
      t.heap.allocated = s.heap.allocated + 1 ∧
      t.heap.cnt x.m_ref_count.m_ptr = ⟨1, 1, ptr, 0, 0⟩ ∧
      s.refs x.m_ref_count.m_ptr = 0 ∧ t.refs x.m_ref_count.m_ptr = 1 ∧
      (∀ c, c ≠ x.m_ref_count.m_ptr → t.heap.cnt c = s.heap.cnt c) ∧
      t.heap.deleted = s.heap.deleted := by
  have hz : s.refs (s.heap.allocated + 1) = 0 := by
    rcases Nat.eq_zero_or_pos (s.refs (s.heap.allocated + 1)) with h0 | h0
    · exact h0
    · have h1 : 1 ≤ s.absrefs (s.heap.allocated + 1) := by
        simp only [State.absrefs, Nat.succ_ne_zero, if_false]
        exact h0
      have := ((reachable_count_inv s hs).1 _ h1).2
      omega
  have hu : shared_ptr_base.use_count (shared_ptr_base.ctor_ptr s.heap none ptr).1
      ⟨ptr, ⟨s.heap.allocated + 1⟩⟩ = 1 := by
    rw [use_count_of_ref _ _ (s.heap.allocated + 1) rfl (by omega), ctor_ptr_ok]
    simp [sp_counter_ptr.ctor]
  refine ⟨⟨(shared_ptr_base.ctor_ptr s.heap none ptr).1,
      s.handles ++ [⟨ptr, ⟨s.heap.allocated + 1⟩⟩]⟩, ⟨ptr, ⟨s.heap.allocated + 1⟩⟩,
    ?_, rfl, rfl, hu, ?_, rfl, rfl, rfl, ?_, hz, ?_, ?_, rfl⟩
  · simp only [step, ctor_ptr_ok]
  · simp only [shared_ptr_base.unique, shared_count.unique]
    have : shared_count.get_use_count (shared_ptr_base.ctor_ptr s.heap none ptr).1
        ⟨s.heap.allocated + 1⟩ = 1 := hu
    simp [this]
  · simp [ctor_ptr_ok, sp_counter_ptr.ctor]
  · simp only [State.refs, List.countP_append] at hz ⊢
    rw [hz]
    simp [List.countP_cons]
  · intro c hc
    simp only [ctor_ptr_ok]
    exact store_cnt_ne _ _ hc

/-- Witness for C6: the test's first statement, `shared_ptr<A> sp(new A)`, in the state that
has no handle yet. -/
theorem C6_construct_from_raw_witness :
    ∃ t x, step State.init (.ctor_ptr 10 none) = some t ∧ t.handles = State.init.handles ++ [x] ∧
      shared_ptr_base.ctor_ptr State.init.heap none 10 = (t.heap, .ok x) ∧
      x.use_count t.heap = 1 ∧ x.unique t.heap = true ∧ x.get = 10 ∧
      x.m_ref_count.m_ptr = State.init.heap.allocated + 1 ∧
      t.heap.allocated = State.init.heap.allocated + 1 ∧
      t.heap.cnt x.m_ref_count.m_ptr = ⟨1, 1, 10, 0, 0⟩ ∧
      State.init.refs x.m_ref_count.m_ptr = 0 ∧ t.refs x.m_ref_count.m_ptr = 1 ∧
      (∀ c, c ≠ x.m_ref_count.m_ptr → t.heap.cnt c = State.init.heap.cnt c) ∧
      t.heap.deleted = State.init.heap.deleted :=
  C6_construct_from_raw State.init 10 Reach.init

/-! ## Exactly-once disposal -/

theorem give_up_eq_release (h : Heap) (x : shared_ptr_base) (b : Bool) (c : Nat)
    (hx : x.m_ref_count.m_ptr = c) (hc : c ≠ 0) :
    (if b then (shared_ptr_base.reset h x).1 else shared_ptr_base.dtor h x) = release h c := by
  subst hx
  cases b <;> simp [reset_eq, shared_ptr_base.dtor, shared_count.dtor, hc]

/-- Releases that do not reach the last sharer only decrement the strong count. -/
theorem release_all_partial (c : Nat) (hc : c ≠ 0) (hs : List (shared_ptr_base × Bool)) :
    ∀ (h : Heap) (m : Int), (∀ x ∈ hs, x.1.m_ref_count.m_ptr = c) →
      (h.cnt c).m_use_count = m → (hs.length : Int) < m → m ≤ INT_MAX →
      (release_all h hs).cnt c = { h.cnt c with m_use_count := m - hs.length } ∧
      (release_all h hs).deleted = h.deleted := by
  induction hs with
  | nil =>
    intro h m _ hm _ _
    simp [release_all, ← hm]
  | cons x rest ih =>
    intro h m hall hm hlt hmax
    obtain ⟨x, b⟩ := x
    have hx : x.m_ref_count.m_ptr = c := hall (x, b) (List.mem_cons_self _ _)
    simp only [List.length_cons, Nat.cast_add, Nat.cast_one] at hlt ⊢
    have h1 : (h.cnt c).m_use_count ≠ 1 := by omega
    have hw : wrap_int (m - 1) = m - 1 :=
      wrap_int_of_range (by unfold INT_MIN; omega) (by omega)
    simp only [release_all, give_up_eq_release h x b c hx hc]
    have hcnt : ((release h c).cnt c).m_use_count = m - 1 := by
      rw [release_use_count, hm, hw]
    obtain ⟨e1, e2⟩ := ih (release h c) (m - 1)
      (fun y hy => hall y (List.mem_cons_of_mem _ hy)) hcnt (by omega) (by omega)
    rw [e1, e2, release_deleted_of_ne_one _ _ h1, release_cnt_self_of_ne_one _ _ h1]
    refine ⟨?_, rfl⟩
    simp only [sp_counter_ptr.mk.injEq, and_true, true_and]
    omega

/-- Releasing all the sharers of a counter whose strong count is their number disposes once. -/
theorem release_all_full (c : Nat) (hc : c ≠ 0) (hs : List (shared_ptr_base × Bool)) :
    ∀ (h : Heap), hs ≠ [] → (∀ x ∈ hs, x.1.m_ref_count.m_ptr = c) →
      (h.cnt c).m_use_count = hs.length → (hs.length : Int) ≤ INT_MAX →
      ((release_all h hs).cnt c).disposed = (h.cnt c).disposed + 1 ∧
      ((release_all h hs).cnt c).m_use_count = 0 ∧
      (release_all h hs).deleted = h.deleted ++ [(h.cnt c).m_ptr] := by
  induction hs with
  | nil => intro h hne; exact absurd rfl hne
  | cons x rest ih =>
    intro h _ hall hm hmax
    obtain ⟨x, b⟩ := x
    have hx : x.m_ref_count.m_ptr = c := hall (x, b) (List.mem_cons_self _ _)
    simp only [List.length_cons, Nat.cast_add, Nat.cast_one] at hm hmax
    simp only [release_all, give_up_eq_release h x b c hx hc]
    cases rest with
    | nil =>
      have h1 : (h.cnt c).m_use_count = 1 := by simpa using hm
      simp only [release_all]
      rw [release_cnt_self_of_one _ _ h1, release_deleted_of_one _ _ h1]
      exact ⟨rfl, rfl, rfl⟩
    | cons y rest2 =>
      have h1 : (h.cnt c).m_use_count ≠ 1 := by
        rw [hm]; simp only [List.length_cons, Nat.cast_add, Nat.cast_one]; omega
      have hw : wrap_int ((h.cnt c).m_use_count - 1) = ((y :: rest2).length : Int) := by
        rw [hm]
        have : ((y :: rest2).length : Int) + 1 - 1 = ((y :: rest2).length : Int) := by omega
        rw [this]
        exact wrap_int_of_range (by unfold INT_MIN; omega) (by omega)
      obtain ⟨e1, e2, e3⟩ := ih (release h c) (List.cons_ne_nil _ _)
        (fun z hz => hall z (List.mem_cons_of_mem _ hz))
        (by rw [release_use_count, hw]) (by omega)
      rw [e1, e2, e3, release_deleted_of_ne_one _ _ h1, release_cnt_self_of_ne_one _ _ h1]
      exact ⟨rfl, rfl, rfl⟩

/-- C2 (as amended). When the handles `hs` (at least one; each given up by `reset()` when its
flag is `true`, by destruction otherwise; in any order) all reference one counter whose strong
count is their number, as it is when no more than `INT_MAX` handles share it: no release before
the last one runs `dispose()` or deletes anything, the last one runs `dispose()` once and
deletes the managed object, and the strong count ends at 0. A handle that has been reset
reports `use_count() == 0`. The case of one handle is `reset()` on the last strong handle. -/
theorem C2_exactly_once_disposal (h : Heap) (c : Nat) (hs : List (shared_ptr_base × Bool))
    (hc : c ≠ 0) (hne : hs ≠ []) (hall : ∀ x ∈ hs, x.1.m_ref_count.m_ptr = c)
    (hcount : (h.cnt c).m_use_count = hs.length) (hmax : (hs.length : Int) ≤ INT_MAX) :
    (∀ k, k < hs.length →
      ((release_all h (hs.take k)).cnt c).disposed = (h.cnt c).disposed ∧
      (release_all h (hs.take k)).deleted = h.deleted ∧
      ((release_all h (hs.take k)).cnt c).m_use_count = hs.length - k) ∧
    ((release_all h hs).cnt c).disposed = (h.cnt c).disposed + 1 ∧
    (release_all h hs).deleted = h.deleted ++ [(h.cnt c).m_ptr] ∧
    ((release_all h hs).cnt c).m_use_count = 0 ∧
    (∀ x ∈ hs, ∀ g : Heap,
      (shared_ptr_base.reset g x.1).2.use_count (shared_ptr_base.reset g x.1).1 = 0) := by
  obtain ⟨e1, e2, e3⟩ := release_all_full c hc hs h hne hall hcount hmax
  refine ⟨?_, e1, e3, e2, fun x _ g => rfl⟩
  intro k hk
  have hlen : (hs.take k).length = k := by
    rw [List.length_take]; omega
  obtain ⟨f1, f2⟩ := release_all_partial c hc (hs.take k) h hs.length
    (fun x hx => hall x (List.mem_of_mem_take hx)) hcount (by rw [hlen]; omega) hmax
  rw [f1, f2, hlen]
  exact ⟨rfl, rfl, rfl⟩

/-- Witness for C2: the test's `sp2.reset()` followed by `sp1.reset()` on two handles that
share the counter at address 1. -/
theorem C2_exactly_once_disposal_witness :
    (∀ k, k < [((⟨10, ⟨1⟩⟩ : shared_ptr_base), true), (⟨10, ⟨1⟩⟩, true)].length →
      ((release_all (fan 10 1).heap
        ([((⟨10, ⟨1⟩⟩ : shared_ptr_base), true), (⟨10, ⟨1⟩⟩, true)].take k)).cnt 1).disposed
          = ((fan 10 1).heap.cnt 1).disposed ∧
      (release_all (fan 10 1).heap
        ([((⟨10, ⟨1⟩⟩ : shared_ptr_base), true), (⟨10, ⟨1⟩⟩, true)].take k)).deleted
          = (fan 10 1).heap.deleted ∧
      ((release_all (fan 10 1).heap
        ([((⟨10, ⟨1⟩⟩ : shared_ptr_base), true), (⟨10, ⟨1⟩⟩, true)].take k)).cnt 1).m_use_count
          = [((⟨10, ⟨1⟩⟩ : shared_ptr_base), true), (⟨10, ⟨1⟩⟩, true)].length - k) ∧
    ((release_all (fan 10 1).heap
      [((⟨10, ⟨1⟩⟩ : shared_ptr_base), true), (⟨10, ⟨1⟩⟩, true)]).cnt 1).disposed
        = ((fan 10 1).heap.cnt 1).disposed + 1 ∧
    (release_all (fan 10 1).heap
      [((⟨10, ⟨1⟩⟩ : shared_ptr_base), true), (⟨10, ⟨1⟩⟩, true)]).deleted
        = (fan 10 1).heap.deleted ++ [((fan 10 1).heap.cnt 1).m_ptr] ∧
    ((release_all (fan 10 1).heap
      [((⟨10, ⟨1⟩⟩ : shared_ptr_base), true), (⟨10, ⟨1⟩⟩, true)]).cnt 1).m_use_count = 0 ∧
    (∀ x ∈ [((⟨10, ⟨1⟩⟩ : shared_ptr_base), true), (⟨10, ⟨1⟩⟩, true)], ∀ g : Heap,
      (shared_ptr_base.reset g x.1).2.use_count (shared_ptr_base.reset g x.1).1 = 0) :=
  C2_exactly_once_disposal (fan 10 1).heap 1
    [((⟨10, ⟨1⟩⟩ : shared_ptr_base), true), (⟨10, ⟨1⟩⟩, true)]
    (by decide) (by decide) (by decide) (by decide) (by decide)

theorem fan_refs_after_reset (p : Addr) (k : Nat) (g : Heap) :
    State.refs ⟨g, (fan p k).handles.set 0 ⟨0, ⟨0⟩⟩⟩ 1 = k := by
  have e := countP_set_of_getElem?
    (fun x : shared_ptr_base => decide (x.m_ref_count.m_ptr = 1))
    (fan p k).handles 0 ⟨p, ⟨1⟩⟩ ⟨0, ⟨0⟩⟩ (fan_getElem?_zero p k)
  have e2 := refs_fan p k
  simp only [State.refs] at e2 ⊢
  rw [e2] at e
  simp only [decide_True, if_true] at e
  have e3 : (if decide ((⟨0, ⟨0⟩⟩ : shared_ptr_base).m_ref_count.m_ptr = 1) = true
      then 1 else 0) = 0 := by decide
  rw [e3] at e
  omega

/-- C2 as stated fails for `n = 4294967297` handles on one counter: in the state reached by
`shared_ptr<A> sp(new A)` and 4294967296 copies the strong count has wrapped around to 1, and the
first release, `sp.reset()`, already runs `dispose()` and deletes the object while 4294967296
handles still share the counter. -/
theorem C2_fails_at_two_pow_32_plus_one_handles :
    Reachable (fan 10 4294967296) ∧
    (fan 10 4294967296).refs 1 = 4294967297 ∧
    ((fan 10 4294967296).heap.cnt 1).disposed = 0 ∧
    (fan 10 4294967296).handles[0]? = some ⟨10, ⟨1⟩⟩ ∧
    shared_ptr_base.use_count (fan 10 4294967296).heap ⟨10, ⟨1⟩⟩ = 1 ∧
    ((release_all (fan 10 4294967296).heap [(⟨10, ⟨1⟩⟩, true)]).cnt 1).disposed = 1 ∧
    (release_all (fan 10 4294967296).heap [(⟨10, ⟨1⟩⟩, true)]).deleted = [10] ∧
    State.refs ⟨release_all (fan 10 4294967296).heap [(⟨10, ⟨1⟩⟩, true)],
      (fan 10 4294967296).handles.set 0 ⟨0, ⟨0⟩⟩⟩ 1 = 4294967296 := by
  have hrel := fan_release_of_one 10 4294967296 (by decide)
  have hra : release_all (fan 10 4294967296).heap [(⟨10, ⟨1⟩⟩, true)]
      = release (fan 10 4294967296).heap 1 := by
    simp only [release_all]
    exact give_up_eq_release _ ⟨10, ⟨1⟩⟩ true 1 rfl (by decide)
  refine ⟨fan_reachable 10 (by decide) _, refs_fan 10 _, ?_, fan_getElem?_zero 10 _, ?_, ?_, ?_,
    ?_⟩
  · rw [fan_cnt]
  · rw [fan_handle_use_count]; decide
  · rw [hra, hrel.1]
  · rw [hra, hrel.2]
  · exact fan_refs_after_reset 10 _ _

/-! ## Move -/

/-- The bodies of the move constructor and of the move assignment, as written, transfer
ownership: the target gets the pointer and the counter of `r`, `r` is left empty, no count is
touched by the constructor, and the assignment releases the counter the target held, once. -/
theorem move_bodies_as_written (h : Heap) (self r : shared_ptr_base) :
    (shared_ptr_base.ctor_move r).1 = ⟨r.m_ptr, ⟨r.m_ref_count.m_ptr⟩⟩ ∧
    (shared_ptr_base.ctor_move r).2 = ⟨0, ⟨0⟩⟩ ∧
    (shared_ptr_base.ctor_move r).2.to_bool = false ∧
    (shared_ptr_base.ctor_move r).2.get = 0 ∧
    (∀ g : Heap, (shared_ptr_base.ctor_move r).2.use_count g = 0) ∧
    (shared_ptr_base.assign_move h self r).1 = shared_count.dtor h self.m_ref_count ∧
    (shared_ptr_base.assign_move h self r).2.1 = ⟨r.m_ptr, ⟨r.m_ref_count.m_ptr⟩⟩ ∧
    (shared_ptr_base.assign_move h self r).2.2 = ⟨0, ⟨0⟩⟩ :=
  ⟨rfl, rfl, rfl, rfl, fun _ => rfl, rfl, rfl, rfl⟩

/-- The implicitly-declared move operations are the copy operations, with the argument kept. -/
theorem move_implicit_eq_copy (h : Heap) (self r : shared_ptr_base) :
    shared_ptr_base.ctor_move_implicit h r
      = ((shared_ptr_base.ctor_copy h r).1, (shared_ptr_base.ctor_copy h r).2, r) ∧
    shared_ptr_base.assign_move_implicit h self r
      = ((shared_ptr_base.assign_copy h self r).1, (shared_ptr_base.assign_copy h self r).2, r) :=
  ⟨rfl, rfl⟩

/-- C8, the code at the failing input. After `shared_ptr<A> a(new A)` (object at address 10,
`a.use_count() == 1`), `shared_ptr<A> b(std::move(a))` runs the implicit move constructor: `b`
has the pointer and the counter of `a`, but the strong count has gone up to 2 and `a` is not
empty (boolean conversion true, `get() == 10`, `use_count() == 2`). Likewise
`shared_ptr<A> d; d = std::move(a)` leaves `a` non-empty and the count at 2. -/
theorem C8_move_copies_at_failing_input :
    shared_ptr_base.use_count (fan 10 0).heap ⟨10, ⟨1⟩⟩ = 1 ∧
    (shared_ptr_base.ctor_move_implicit (fan 10 0).heap ⟨10, ⟨1⟩⟩).2.1 = ⟨10, ⟨1⟩⟩ ∧
    (shared_ptr_base.ctor_move_implicit (fan 10 0).heap ⟨10, ⟨1⟩⟩).2.2 = ⟨10, ⟨1⟩⟩ ∧
    shared_ptr_base.to_bool
      (shared_ptr_base.ctor_move_implicit (fan 10 0).heap ⟨10, ⟨1⟩⟩).2.2 = true ∧
    shared_ptr_base.get
      (shared_ptr_base.ctor_move_implicit (fan 10 0).heap ⟨10, ⟨1⟩⟩).2.2 = 10 ∧
    shared_ptr_base.use_count (shared_ptr_base.ctor_move_implicit (fan 10 0).heap ⟨10, ⟨1⟩⟩).1
      (shared_ptr_base.ctor_move_implicit (fan 10 0).heap ⟨10, ⟨1⟩⟩).2.2 = 2 ∧
    (shared_ptr_base.assign_move_implicit (fan 10 0).heap ⟨0, ⟨0⟩⟩ ⟨10, ⟨1⟩⟩).2.1
      = ⟨10, ⟨1⟩⟩ ∧
    (shared_ptr_base.assign_move_implicit (fan 10 0).heap ⟨0, ⟨0⟩⟩ ⟨10, ⟨1⟩⟩).2.2
      = ⟨10, ⟨1⟩⟩ ∧
    shared_ptr_base.use_count
      (shared_ptr_base.assign_move_implicit (fan 10 0).heap ⟨0, ⟨0⟩⟩ ⟨10, ⟨1⟩⟩).1
      (shared_ptr_base.assign_move_implicit (fan 10 0).heap ⟨0, ⟨0⟩⟩ ⟨10, ⟨1⟩⟩).2.2 = 2 := by
  refine ⟨by decide, by decide, by decide, by decide, by decide, by decide, by decide,
    by decide, by decide⟩

/-! ## Dereference, empty handles, swap -/

/-- C11 (as amended). The assertion guarding `operator*` and `operator->` passes exactly when
`h.get() != nullptr`, whether or not `h` references a counter; when it fails the program is
aborted; when it passes, `operator->` returns `h.get()` and `operator*` yields the object at
`h.get()`. Both are read-only: they take no free store and return none, so no counter changes. -/
theorem C11_dereference (x : shared_ptr_base) :
    (x.deref_assertion = true ↔ x.get ≠ 0) ∧
    (x.deref_assertion = true →
      x.operator_arrow = .ok x.get ∧ x.operator_star = .ok x.get) ∧
    (x.deref_assertion = false →
      x.operator_arrow = .error .assert_failed ∧ x.operator_star = .error .assert_failed) := by
  refine ⟨by simp [shared_ptr_base.deref_assertion, shared_ptr_base.get], ?_, ?_⟩
  · intro h
    simp [shared_ptr_base.operator_arrow, shared_ptr_base.operator_star, h, shared_ptr_base.get]
  · intro h
    simp [shared_ptr_base.operator_arrow, shared_ptr_base.operator_star, h]

/-- C11 as stated fails for a handle built by the aliasing constructor from an empty handle:
after `shared_ptr<A> e; shared_ptr<A> a(e, q)` with `q` the address 11, `a` references no counter
and `a.use_count()` is 0, not at least 1, yet the assertion passes and `operator->` returns 11. -/
theorem C11_fails_for_alias_of_empty :
    run State.init [.ctor_default, .ctor_alias 0 11]
      = some ⟨Heap.empty, [⟨0, ⟨0⟩⟩, ⟨11, ⟨0⟩⟩]⟩ ∧
    (⟨11, ⟨0⟩⟩ : shared_ptr_base).m_ref_count.m_ptr = 0 ∧
    shared_ptr_base.use_count Heap.empty ⟨11, ⟨0⟩⟩ = 0 ∧
    shared_ptr_base.deref_assertion ⟨11, ⟨0⟩⟩ = true ∧
    shared_ptr_base.operator_arrow ⟨11, ⟨0⟩⟩ = .ok 11 ∧
    shared_ptr_base.operator_star ⟨11, ⟨0⟩⟩ = .ok 11 := by
  refine ⟨rfl, rfl, rfl, rfl, rfl, rfl⟩

/-- C13. A default-constructed handle and a handle constructed from `nullptr` have boolean
conversion false, `get() == nullptr`, `use_count() == 0` and `unique() == false`; constructing
them leaves the free store as it is (no counter is created); destroying or resetting them leaves
the free store as it is (no counter changes, nothing is disposed), and after `reset()` the handle
is the empty handle again. For every handle, boolean conversion is true exactly when
`get() != nullptr`. -/
theorem C13_empty_handle (s : State) (h : Heap) (x : shared_ptr_base) :
    (shared_ptr_base.ctor_default.to_bool = false ∧ shared_ptr_base.ctor_default.get = 0 ∧
      shared_ptr_base.ctor_default.use_count h = 0 ∧
      shared_ptr_base.ctor_default.unique h = false) ∧
    (shared_ptr_base.ctor_nullptr.to_bool = false ∧ shared_ptr_base.ctor_nullptr.get = 0 ∧
      shared_ptr_base.ctor_nullptr.use_count h = 0 ∧
      shared_ptr_base.ctor_nullptr.unique h = false) ∧
    step s .ctor_default = some ⟨s.heap, s.handles ++ [shared_ptr_base.ctor_default]⟩ ∧
    step s .ctor_nullptr = some ⟨s.heap, s.handles ++ [shared_ptr_base.ctor_nullptr]⟩ ∧
    shared_ptr_base.dtor h shared_ptr_base.ctor_default = h ∧
    shared_ptr_base.dtor h shared_ptr_base.ctor_nullptr = h ∧
    shared_ptr_base.reset h shared_ptr_base.ctor_default = (h, shared_ptr_base.ctor_default) ∧
    shared_ptr_base.reset h shared_ptr_base.ctor_nullptr = (h, shared_ptr_base.ctor_nullptr) ∧
    (x.to_bool = true ↔ x.get ≠ 0) := by
  refine ⟨⟨rfl, rfl, rfl, rfl⟩, ⟨rfl, rfl, rfl, rfl⟩, rfl, rfl, rfl, rfl, rfl, rfl, ?_⟩
  simp [shared_ptr_base.to_bool, shared_ptr_base.get]

/-- The handles after `(l.set i x).set j y`, position by position. -/
theorem getElem?_set_set (l : List shared_ptr_base) (i j k : Nat) (a b x y : shared_ptr_base)
    (hi : l[i]? = some a) (hj : l[j]? = some b) :
    ((l.set i x).set j y)[k]?
      = if k = j then some y else if k = i then some x else l[k]? := by
  rw [List.getElem?_set', List.getElem?_set']
  by_cases hkj : j = k
  · subst hkj
    by_cases hij : i = j
    · subst hij; simp [hi]
    · simp [hij, hj]
  · have hkj2 : ¬ k = j := fun h => hkj h.symm
    by_cases hki : i = k
    · subst hki; simp [hkj, hkj2, hi]
    · have hki2 : ¬ k = i := fun h => hki h.symm
      simp [hkj, hkj2, hki, hki2]

/-- C17. For handles `a` at position `i` and `b` at position `j`, `a.swap(b)` leaves the free
store untouched (no strong or weak count changes, nothing is disposed or destroyed) and
exchanges the two handles, raw pointer and counter reference together: afterwards position `j`
holds the former `a`, position `i` the former `b`, and every other handle is as before. Swapping
a second time restores the original state, and `a.swap(a)` leaves the state unchanged. -/
theorem C17_swap (s : State) (i j : Nat) (a b : shared_ptr_base)
    (hi : s.handles[i]? = some a) (hj : s.handles[j]? = some b) :
    shared_ptr_base.swap a b = (b, a) ∧
    ∃ t, step s (.swap i j) = some t ∧ t.heap = s.heap ∧
      t.handles[j]? = some a ∧ (i ≠ j → t.handles[i]? = some b) ∧
      (∀ k, k ≠ i → k ≠ j → t.handles[k]? = s.handles[k]?) ∧
      step t (.swap i j) = some s ∧
      (i = j → t = s) := by
  refine ⟨rfl, ?_⟩
  have hget : ∀ k, ((s.handles.set i b).set j a)[k]?
      = if k = j then some a else if k = i then some b else s.handles[k]? :=
    fun k => getElem?_set_set s.handles i j k a b b a hi hj
  have hi1 : ((s.handles.set i b).set j a)[i]? = some (if i = j then a else b) := by
    rw [hget]
    by_cases hij : i = j <;> simp [hij]
  have hj1 : ((s.handles.set i b).set j a)[j]? = some a := by
    rw [hget]; simp
  have hab : i = j → a = b := by
    intro hij
    subst hij
    rw [hi] at hj
    exact Option.some.inj hj
  have hback : (((s.handles.set i b).set j a).set i a).set j (if i = j then a else b)
      = s.handles := by
    apply List.ext_getElem?
    intro k
    rw [getElem?_set_set _ i j k _ _ _ _ hi1 hj1]
    by_cases hkj : k = j
    · subst hkj
      by_cases hij : i = k
      · simp [hij, ← hab hij, hj]
      · simp [hij, hj]
    · by_cases hki : k = i
      · subst hki
        simp [hkj, hi]
      · simp [hkj, hki, hget]
  have hstep : step s (.swap i j) = some ⟨s.heap, (s.handles.set i b).set j a⟩ := by
    simp only [step, hi, hj]
    rfl
  refine ⟨⟨s.heap, (s.handles.set i b).set j a⟩, hstep, rfl, hj1, ?_, ?_, ?_, ?_⟩
  · intro hij
    rw [hi1]; simp [hij]
  · intro k hki hkj
    rw [hget]; simp [hki, hkj]
  · simp only [step, hi1, hj1]
    show some (State.mk s.heap
      ((((s.handles.set i b).set j a).set i a).set j (if i = j then a else b))) = some s
    rw [hback]
  · intro hij
    subst hij
    have hb : b = a := (hab rfl).symm
    subst hb
    have : (s.handles.set i b).set i b = s.handles := by
      apply List.ext_getElem?
      intro k
      rw [getElem?_set_set _ i i k _ _ _ _ hi hi]
      by_cases hki : k = i
      · subst hki; simp [hi]
      · simp [hki]
    show State.mk s.heap ((s.handles.set i b).set i b) = s
    rw [this]

/-- Witness for C17: a handle on the counter at address 1 swapped with an empty handle. -/
theorem C17_swap_witness :
    shared_ptr_base.swap ⟨10, ⟨1⟩⟩ ⟨0, ⟨0⟩⟩ = (⟨0, ⟨0⟩⟩, ⟨10, ⟨1⟩⟩) ∧
    ∃ t, step ⟨(fan 10 0).heap, [⟨10, ⟨1⟩⟩, ⟨0, ⟨0⟩⟩]⟩ (.swap 0 1) = some t ∧
      t.heap = (State.mk (fan 10 0).heap [⟨10, ⟨1⟩⟩, ⟨0, ⟨0⟩⟩]).heap ∧
      t.handles[1]? = some ⟨10, ⟨1⟩⟩ ∧ (0 ≠ 1 → t.handles[0]? = some ⟨0, ⟨0⟩⟩) ∧
      (∀ k, k ≠ 0 → k ≠ 1 →
        t.handles[k]? = (State.mk (fan 10 0).heap [⟨10, ⟨1⟩⟩, ⟨0, ⟨0⟩⟩]).handles[k]?) ∧
      step t (.swap 0 1) = some ⟨(fan 10 0).heap, [⟨10, ⟨1⟩⟩, ⟨0, ⟨0⟩⟩]⟩ ∧
      (0 = 1 → t = ⟨(fan 10 0).heap, [⟨10, ⟨1⟩⟩, ⟨0, ⟨0⟩⟩]⟩) :=
  C17_swap ⟨(fan 10 0).heap, [⟨10, ⟨1⟩⟩, ⟨0, ⟨0⟩⟩]⟩ 0 1 ⟨10, ⟨1⟩⟩ ⟨0, ⟨0⟩⟩ (by decide) (by decide)

/-- C18. For a handle `e` that references no counter and a non-null pointer `q`, the aliasing
constructor `(e, q)` appends a handle `a` and leaves the free store untouched; `a` references no
counter (`use_count() == 0`, `unique() == false`) yet has `get() == q` and boolean conversion
true, so the assertion of `operator*` and `operator->` passes and `operator->` returns `q`.
Destroying `a` again leaves the free store untouched and gives back the state before. So `a` is
neither empty (its pointer is not null) nor owning or aliased-owning (it has no counter). -/
theorem C18_alias_of_empty (s : State) (i : Nat) (e : shared_ptr_base) (q : Addr)
    (hi : s.handles[i]? = some e) (he : e.m_ref_count.m_ptr = 0) (hq : q ≠ 0) :
    ∃ t a, step s (.ctor_alias i q) = some t ∧ t.handles = s.handles ++ [a] ∧
      t.heap = s.heap ∧
      a.m_ref_count.m_ptr = 0 ∧ a.use_count t.heap = 0 ∧ a.unique t.heap = false ∧
      a.get = q ∧ a.to_bool = true ∧ a.deref_assertion = true ∧
      a.operator_arrow = .ok q ∧ a.operator_star = .ok q ∧
      a ≠ shared_ptr_base.ctor_default ∧
      shared_ptr_base.dtor t.heap a = s.heap ∧
      step t (.dtor s.handles.length) = some s := by
  have hc : shared_ptr_base.ctor_alias s.heap e q = (s.heap, ⟨q, ⟨0⟩⟩) := by
    simp [shared_ptr_base.ctor_alias, shared_count.ctor_copy, he]
  refine ⟨⟨s.heap, s.handles ++ [⟨q, ⟨0⟩⟩]⟩, ⟨q, ⟨0⟩⟩, ?_, rfl, rfl, rfl, rfl, rfl, rfl, ?_, ?_,
    ?_, ?_, ?_, rfl, ?_⟩
  · simp only [step, hi, hc]
  · simp [shared_ptr_base.to_bool, hq]
  · simp [shared_ptr_base.deref_assertion, hq]
  · simp [shared_ptr_base.operator_arrow, shared_ptr_base.deref_assertion, hq]
  · simp [shared_ptr_base.operator_star, shared_ptr_base.deref_assertion, hq]
  · intro h
    have := congrArg shared_ptr_base.m_ptr h
    exact hq this
  · have hl : (s.handles ++ [(⟨q, ⟨0⟩⟩ : shared_ptr_base)])[s.handles.length]?
        = some ⟨q, ⟨0⟩⟩ := by simp
    have hera : (s.handles ++ [(⟨q, ⟨0⟩⟩ : shared_ptr_base)]).eraseIdx s.handles.length
        = s.handles := by
      rw [List.eraseIdx_append_of_length_le (Nat.le_refl _)]
      simp
    simp only [step, hl, hera]
    rfl

/-- Witness for C18: `shared_ptr<A> e; shared_ptr<A> a(e, q)` with `q` the address 11. -/
theorem C18_alias_of_empty_witness :
    ∃ t a, step ⟨Heap.empty, [⟨0, ⟨0⟩⟩]⟩ (.ctor_alias 0 11) = some t ∧
      t.handles = (State.mk Heap.empty [⟨0, ⟨0⟩⟩]).handles ++ [a] ∧
      t.heap = (State.mk Heap.empty [⟨0, ⟨0⟩⟩]).heap ∧
      a.m_ref_count.m_ptr = 0 ∧ a.use_count t.heap = 0 ∧ a.unique t.heap = false ∧
      a.get = 11 ∧ a.to_bool = true ∧ a.deref_assertion = true ∧
      a.operator_arrow = .ok 11 ∧ a.operator_star = .ok 11 ∧
      a ≠ shared_ptr_base.ctor_default ∧
      shared_ptr_base.dtor t.heap a = (State.mk Heap.empty [⟨0, ⟨0⟩⟩]).heap ∧
      step t (.dtor (State.mk Heap.empty [⟨0, ⟨0⟩⟩]).handles.length)
        = some ⟨Heap.empty, [⟨0, ⟨0⟩⟩]⟩ :=
  C18_alias_of_empty ⟨Heap.empty, [⟨0, ⟨0⟩⟩]⟩ 0 ⟨0, ⟨0⟩⟩ 11 (by decide) (by decide) (by decide)

/-! ## Copy assignment -/

theorem dtor_cnt_ne (h : Heap) (c : shared_count) (d : Nat) (hd : d ≠ c.m_ptr) :
    (shared_count.dtor h c).cnt d = h.cnt d := by
  unfold shared_count.dtor
  split_ifs
  · exact release_cnt_ne h hd
  · rfl

theorem ctor_copy_cnt_ne (h : Heap) (c : shared_count) (d : Nat) (hd : d ≠ c.m_ptr) :
    ((shared_count.ctor_copy h c).1).cnt d = h.cnt d := by
  unfold shared_count.ctor_copy
  split_ifs
  · exact add_ref_copy_cnt_ne h hd
  · rfl

theorem ctor_copy_deleted (h : Heap) (c : shared_count) :
    ((shared_count.ctor_copy h c).1).deleted = h.deleted := by
  unfold shared_count.ctor_copy
  split_ifs <;> rfl

/-- C16 (as amended). After `dst = src` the handle `dst` references the counter of `src` and
`dst.get() == src.get()`. When the two referenced different counters, the free store is the one
obtained by first copying the count handle of `src` and then destroying the old count handle of
`dst`: the strong count of the counter of `src` (if any, and if below `INT_MAX`) has gone up by
exactly 1, and the counter `dst` held (if any, and if its count was above `INT_MIN`) has been
released once, its count down by 1, `dispose()` run and the object deleted exactly when the count
was 1; no other counter changes. When they referenced the same counter, or none both, which
includes `dst = dst`, the free store is untouched. -/
theorem C16_copy_assign (s : State) (i j : Nat) (dst src : shared_ptr_base)
    (hi : s.handles[i]? = some dst) (hj : s.handles[j]? = some src)
    (hs : src.m_ref_count.m_ptr ≠ 0 →
      INT_MIN ≤ (s.heap.cnt src.m_ref_count.m_ptr).m_use_count ∧
      (s.heap.cnt src.m_ref_count.m_ptr).m_use_count < INT_MAX)
    (hd : dst.m_ref_count.m_ptr ≠ 0 →
      INT_MIN < (s.heap.cnt dst.m_ref_count.m_ptr).m_use_count ∧
      (s.heap.cnt dst.m_ref_count.m_ptr).m_use_count ≤ INT_MAX) :
    ∃ t d, step s (.assign_copy i j) = some t ∧ t.handles = s.handles.set i d ∧
      d.m_ref_count = src.m_ref_count ∧ d.get = src.get ∧
      (src.m_ref_count.m_ptr ≠ dst.m_ref_count.m_ptr →
        t.heap = shared_count.dtor (shared_count.ctor_copy s.heap src.m_ref_count).1
          dst.m_ref_count ∧
        (src.m_ref_count.m_ptr ≠ 0 →
          t.heap.cnt src.m_ref_count.m_ptr =
            { s.heap.cnt src.m_ref_count.m_ptr with
              m_use_count := (s.heap.cnt src.m_ref_count.m_ptr).m_use_count + 1 }) ∧
        (dst.m_ref_count.m_ptr ≠ 0 →
          (t.heap.cnt dst.m_ref_count.m_ptr).m_use_count
            = (s.heap.cnt dst.m_ref_count.m_ptr).m_use_count - 1 ∧
          (t.heap.cnt dst.m_ref_count.m_ptr).disposed
            = (s.heap.cnt dst.m_ref_count.m_ptr).disposed
              + (if (s.heap.cnt dst.m_ref_count.m_ptr).m_use_count = 1 then 1 else 0) ∧
          t.heap.deleted = s.heap.deleted
              ++ (if (s.heap.cnt dst.m_ref_count.m_ptr).m_use_count = 1
                  then [(s.heap.cnt dst.m_ref_count.m_ptr).m_ptr] else [])) ∧
        (dst.m_ref_count.m_ptr = 0 → t.heap.deleted = s.heap.deleted) ∧
        (∀ c, c ≠ src.m_ref_count.m_ptr → c ≠ dst.m_ref_count.m_ptr →
          t.heap.cnt c = s.heap.cnt c)) ∧
      (src.m_ref_count.m_ptr = dst.m_ref_count.m_ptr → t.heap = s.heap) := by
  by_cases hab : src.m_ref_count.m_ptr = dst.m_ref_count.m_ptr
  · have he : shared_ptr_base.assign_copy s.heap dst src = (s.heap, ⟨src.m_ptr, dst.m_ref_count⟩) := by
      simp [shared_ptr_base.assign_copy, shared_count.assign, hab]
    refine ⟨⟨s.heap, s.handles.set i ⟨src.m_ptr, dst.m_ref_count⟩⟩, ⟨src.m_ptr, dst.m_ref_count⟩,
      ?_, rfl, ?_, rfl, fun h => absurd hab h, fun _ => rfl⟩
    · simp only [step, hi, hj, he]
    · show dst.m_ref_count = src.m_ref_count
      cases hx : dst.m_ref_count
      cases hy : src.m_ref_count
      rw [hx, hy] at hab
      simp only at hab
      rw [hab]
  · have he : shared_ptr_base.assign_copy s.heap dst src
        = (shared_count.dtor (shared_count.ctor_copy s.heap src.m_ref_count).1 dst.m_ref_count,
            ⟨src.m_ptr, ⟨src.m_ref_count.m_ptr⟩⟩) := by
      simp only [shared_ptr_base.assign_copy, shared_count.assign, ne_eq, hab,
        not_false_eq_true, if_true, shared_count.dtor, shared_count.ctor_copy]
    have hba : dst.m_ref_count.m_ptr ≠ src.m_ref_count.m_ptr := fun h => hab h.symm
    refine ⟨⟨shared_count.dtor (shared_count.ctor_copy s.heap src.m_ref_count).1 dst.m_ref_count,
        s.handles.set i ⟨src.m_ptr, ⟨src.m_ref_count.m_ptr⟩⟩⟩,
      ⟨src.m_ptr, ⟨src.m_ref_count.m_ptr⟩⟩, ?_, rfl, rfl, rfl,
      fun _ => ⟨rfl, ?_, ?_, ?_, ?_⟩, fun h => absurd h hab⟩
    · simp only [step, hi, hj, he]
    · intro h0
      obtain ⟨h1, h2⟩ := hs h0
      simp only
      rw [dtor_cnt_ne _ _ _ hab]
      simp only [shared_count.ctor_copy, ne_eq, h0, not_false_eq_true, if_true]
      rw [add_ref_copy_cnt_self, wrap_int_of_range (by omega) (by omega)]
    · intro h0
      obtain ⟨h1, h2⟩ := hd h0
      have hc : ((shared_count.ctor_copy s.heap src.m_ref_count).1).cnt dst.m_ref_count.m_ptr
          = s.heap.cnt dst.m_ref_count.m_ptr := ctor_copy_cnt_ne _ _ _ hba
      simp only [shared_count.dtor, ne_eq, h0, not_false_eq_true, if_true]
      refine ⟨?_, ?_, ?_⟩
      · rw [release_use_count, hc]
        exact wrap_int_of_range (by omega) (by omega)
      · by_cases h1c : (s.heap.cnt dst.m_ref_count.m_ptr).m_use_count = 1
        · rw [release_cnt_self_of_one _ _ (by rw [hc]; exact h1c), hc]
          simp [h1c]
        · rw [release_cnt_self_of_ne_one _ _ (by rw [hc]; exact h1c), hc]
          simp [h1c]
      · by_cases h1c : (s.heap.cnt dst.m_ref_count.m_ptr).m_use_count = 1
        · rw [release_deleted_of_one _ _ (by rw [hc]; exact h1c), hc, ctor_copy_deleted]
          simp [h1c]
        · rw [release_deleted_of_ne_one _ _ (by rw [hc]; exact h1c), ctor_copy_deleted]
          simp [h1c]
    · intro h0
      simp only [shared_count.dtor, h0, ne_eq, not_true_eq_false, if_false]
      exact ctor_copy_deleted _ _
    · intro c hcs hcd
      simp only
      rw [dtor_cnt_ne _ _ _ hcd, ctor_copy_cnt_ne _ _ _ hcs]

/-- Witness for C16: `dst = src` with `src` on the counter at address 1 and `dst` the only
handle of the counter at address 2, which is therefore disposed. -/
theorem C16_copy_assign_witness :
    ∃ t d, step ⟨(shared_ptr_base.ctor_ptr (fan 10 0).heap none 20).1, [⟨10, ⟨1⟩⟩, ⟨20, ⟨2⟩⟩]⟩
        (.assign_copy 1 0) = some t ∧
      t.handles = (State.mk (shared_ptr_base.ctor_ptr (fan 10 0).heap none 20).1
        [⟨10, ⟨1⟩⟩, ⟨20, ⟨2⟩⟩]).handles.set 1 d ∧
      d.m_ref_count = ⟨1⟩ ∧ d.get = shared_ptr_base.get ⟨10, ⟨1⟩⟩ ∧
      ((1 : Nat) ≠ 2 →
        t.heap = shared_count.dtor (shared_count.ctor_copy
          (shared_ptr_base.ctor_ptr (fan 10 0).heap none 20).1 ⟨1⟩).1 ⟨2⟩ ∧
        ((1 : Nat) ≠ 0 →
          t.heap.cnt 1 =
            { (shared_ptr_base.ctor_ptr (fan 10 0).heap none 20).1.cnt 1 with
              m_use_count :=
                ((shared_ptr_base.ctor_ptr (fan 10 0).heap none 20).1.cnt 1).m_use_count + 1 }) ∧
        ((2 : Nat) ≠ 0 →
          (t.heap.cnt 2).m_use_count
            = ((shared_ptr_base.ctor_ptr (fan 10 0).heap none 20).1.cnt 2).m_use_count - 1 ∧
          (t.heap.cnt 2).disposed
            = ((shared_ptr_base.ctor_ptr (fan 10 0).heap none 20).1.cnt 2).disposed
              + (if ((shared_ptr_base.ctor_ptr (fan 10 0).heap none 20).1.cnt 2).m_use_count = 1
                  then 1 else 0) ∧
          t.heap.deleted = (shared_ptr_base.ctor_ptr (fan 10 0).heap none 20).1.deleted
              ++ (if ((shared_ptr_base.ctor_ptr (fan 10 0).heap none 20).1.cnt 2).m_use_count = 1
                  then [((shared_ptr_base.ctor_ptr (fan 10 0).heap none 20).1.cnt 2).m_ptr]
                  else [])) ∧
        ((2 : Nat) = 0 →
          t.heap.deleted = (shared_ptr_base.ctor_ptr (fan 10 0).heap none 20).1.deleted) ∧
        (∀ c, c ≠ 1 → c ≠ 2 →
          t.heap.cnt c = (shared_ptr_base.ctor_ptr (fan 10 0).heap none 20).1.cnt c)) ∧
      ((1 : Nat) = 2 → t.heap = (shared_ptr_base.ctor_ptr (fan 10 0).heap none 20).1) :=
  C16_copy_assign ⟨(shared_ptr_base.ctor_ptr (fan 10 0).heap none 20).1, [⟨10, ⟨1⟩⟩, ⟨20, ⟨2⟩⟩]⟩
    1 0 ⟨20, ⟨2⟩⟩ ⟨10, ⟨1⟩⟩ (by decide) (by decide) (by decide) (by decide)

theorem fan_step_ctor (p q : Addr) (k : Nat) :
    step (fan p k) (.ctor_ptr q none)
      = some ⟨(shared_ptr_base.ctor_ptr (fan p k).heap none q).1,
          (fan p k).handles ++ [⟨q, ⟨2⟩⟩]⟩ := rfl

theorem fan_length (p : Addr) (k : Nat) : (fan p k).handles.length = k + 1 := by
  simp [fan]

theorem fan_append_zero (p : Addr) (k : Nat) (x : shared_ptr_base) :
    ((fan p k).handles ++ [x])[0]? = some ⟨p, ⟨1⟩⟩ := by
  rw [List.getElem?_append_left (by rw [fan_length]; omega)]
  exact fan_getElem?_zero p k

theorem fan_append_last (p : Addr) (k : Nat) (x : shared_ptr_base) :
    ((fan p k).handles ++ [x])[k + 1]? = some x := by
  have := fan_length p k
  rw [← this]
  simp

theorem fan_ctor_cnt_one (p q : Addr) (k : Nat) :
    (shared_ptr_base.ctor_ptr (fan p k).heap none q).1.cnt 1
      = ⟨wrap_int (k + 1), 1, p, 0, 0⟩ := by
  rw [ctor_ptr_ok]
  have h2 : (1 : Nat) ≠ (fan p k).heap.allocated + 1 := by
    show (1 : Nat) ≠ 1 + 1
    decide
  simp only [store_cnt_ne _ _ h2]
  exact fan_cnt p k

theorem fan_assign_cnt_one (p q : Addr) (k : Nat) :
    ((shared_ptr_base.assign_copy (shared_ptr_base.ctor_ptr (fan p k).heap none q).1
      ⟨q, ⟨2⟩⟩ ⟨p, ⟨1⟩⟩).1.cnt 1).m_use_count = wrap_int (k + 1 + 1) := by
  have he : shared_ptr_base.assign_copy (shared_ptr_base.ctor_ptr (fan p k).heap none q).1
      ⟨q, ⟨2⟩⟩ ⟨p, ⟨1⟩⟩
      = (release (add_ref_copy (shared_ptr_base.ctor_ptr (fan p k).heap none q).1 1) 2,
          ⟨p, ⟨1⟩⟩) := by
    simp [shared_ptr_base.assign_copy, shared_count.assign]
  rw [he]
  simp only
  rw [release_cnt_ne _ (by decide), add_ref_copy_cnt_self, fan_ctor_cnt_one]
  simp only
  exact wrap_int_succ _

/-- C16 as stated fails when the counter of `src` is at `INT_MAX`: in the state reached by
`shared_ptr<A> sp(new A)`, 2147483646 copies of `sp` and `shared_ptr<A> dst(new A)`, the handles
`sp` (position 0, counter 1, count 2147483647) and `dst` (position 2147483647, counter 2)
reference different counters, and `dst = sp` leaves the count of counter 1 at -2147483648
instead of incrementing it by 1. -/
theorem C16_fails_at_int_max :
    Reachable ⟨(shared_ptr_base.ctor_ptr (fan 10 2147483646).heap none 20).1,
      (fan 10 2147483646).handles ++ [⟨20, ⟨2⟩⟩]⟩ ∧
    ((fan 10 2147483646).handles ++ [(⟨20, ⟨2⟩⟩ : shared_ptr_base)])[0]? = some ⟨10, ⟨1⟩⟩ ∧
    ((fan 10 2147483646).handles ++ [(⟨20, ⟨2⟩⟩ : shared_ptr_base)])[2147483647]?
      = some ⟨20, ⟨2⟩⟩ ∧
    ((shared_ptr_base.ctor_ptr (fan 10 2147483646).heap none 20).1.cnt 1).m_use_count
      = 2147483647 ∧
    ((shared_ptr_base.assign_copy (shared_ptr_base.ctor_ptr (fan 10 2147483646).heap none 20).1
      ⟨20, ⟨2⟩⟩ ⟨10, ⟨1⟩⟩).1.cnt 1).m_use_count = -2147483648 := by
  refine ⟨Reach.step (Op.ctor_ptr 20 none) (fan_reachable 10 (by decide) _)
      (fan_step_ctor 10 20 _) trivial,
    fan_append_zero 10 _ _, fan_append_last 10 2147483646 _, ?_, ?_⟩
  · rw [fan_ctor_cnt_one]; decide
  · rw [fan_assign_cnt_one]; decide

/-! ## The two-phase release protocol of the counter object -/

theorem weak_add_ref_cnt_self (h : Heap) (c : Nat) :
    (weak_add_ref h c).cnt c =
      { h.cnt c with m_weak_count := wrap_int ((h.cnt c).m_weak_count + 1) } := by
  simp [weak_add_ref, atomic_fetch_add]

theorem weak_release_cnt_self (h : Heap) (c : Nat) :
    (weak_release h c).cnt c =
      { h.cnt c with
        m_weak_count := wrap_int ((h.cnt c).m_weak_count - 1)
        destroyed := (h.cnt c).destroyed + if (h.cnt c).m_weak_count = 1 then 1 else 0 } := by
  simp only [weak_release, atomic_fetch_add, destroy]
  split_ifs <;> simp_all [Int.sub_eq_add_neg]

theorem weak_add_ref_deleted (h : Heap) (c : Nat) : (weak_add_ref h c).deleted = h.deleted := rfl

theorem weak_release_deleted (h : Heap) (c : Nat) :
    (weak_release h c).deleted = h.deleted := by
  simp only [weak_release, atomic_fetch_add, destroy]
  split_ifs <;> rfl

/-- One operation of the protocol takes the counter from its state for the outstanding
references before to its state for the outstanding references after; the managed object is
deleted by the operation that leaves no strong reference. -/
theorem protocol_step (c : Nat) (p : Addr) (h : Heap) (base : List Addr) (sw sw2 : Nat × Nat)
    (o : CounterOp) (hk : h.cnt c = counter_at p sw)
    (hdel : h.deleted = base ++ if sw.1 = 0 then [p] else [])
    (hb : sw.1 ≤ 2147483647 ∧ sw.2 + 1 ≤ 2147483647) (hp : protocol sw [o] = some sw2) :
    (counter_step c h o).cnt c = counter_at p sw2 ∧
    (counter_step c h o).deleted = base ++ (if sw2.1 = 0 then [p] else []) ∧
    (sw2.1 ≤ 2147483647 ∧ sw2.2 + 1 ≤ 2147483647) := by
  obtain ⟨S, W⟩ := sw
  obtain ⟨hb1, hb2⟩ := hb
  simp only at hb1 hb2 hdel
  cases o with
  | add_ref_copy =>
    simp only [protocol] at hp
    split_ifs at hp with hc
    cases hp
    obtain ⟨h1, h2⟩ := hc
    have hS : S ≠ 0 := by omega
    refine ⟨?_, ?_, by omega, hb2⟩
    · simp only [counter_step]
      rw [add_ref_copy_cnt_self, hk]
      simp only [counter_at, sp_counter_ptr.mk.injEq, wrap_int]
      refine ⟨?_, ?_, ?_, ?_, ?_⟩ <;>
        first
        | exact True.intro
        | omega
        | (split_ifs <;> first | omega | simp_all)
    · simp only [counter_step, add_ref_copy_deleted, hdel]
      simp [hS]
  | release =>
    simp only [protocol] at hp
    split_ifs at hp with hc
    cases hp
    by_cases h1 : S = 1
    · subst h1
      have hu : (h.cnt c).m_use_count = 1 := by rw [hk]; rfl
      refine ⟨?_, ?_, by omega, hb2⟩
      · simp only [counter_step]
        rw [release_cnt_self_of_one _ _ hu, hk]
        simp only [counter_at, sp_counter_ptr.mk.injEq, wrap_int]
        refine ⟨?_, ?_, ?_, ?_, ?_⟩ <;>
        first
        | exact True.intro
        | omega
        | (split_ifs <;> first | omega | simp_all)
      · simp only [counter_step]
        rw [release_deleted_of_one _ _ hu, hk, hdel]
        simp [counter_at]
    · have hu : (h.cnt c).m_use_count ≠ 1 := by
        rw [hk]; simp only [counter_at]; omega
      have hS : S - 1 ≠ 0 := by omega
      have hS0 : S ≠ 0 := by omega
      refine ⟨?_, ?_, by omega, hb2⟩
      · simp only [counter_step]
        rw [release_cnt_self_of_ne_one _ _ hu, hk]
        simp only [counter_at, sp_counter_ptr.mk.injEq, wrap_int]
        refine ⟨?_, ?_, ?_, ?_, ?_⟩ <;>
        first
        | exact True.intro
        | omega
        | (split_ifs <;> omega)
      · simp only [counter_step]
        rw [release_deleted_of_ne_one _ _ hu, hdel]
        simp [hS, hS0]
  | weak_add_ref =>
    simp only [protocol] at hp
    split_ifs at hp with hc
    cases hp
    obtain ⟨h1, h2⟩ := hc
    refine ⟨?_, ?_, hb1, by omega⟩
    · simp only [counter_step]
      rw [weak_add_ref_cnt_self, hk]
      simp only [counter_at, sp_counter_ptr.mk.injEq, wrap_int]
      refine ⟨?_, ?_, ?_, ?_, ?_⟩ <;>
        first
        | exact True.intro
        | omega
        | (split_ifs <;> first | omega | simp_all)
    · simp only [counter_step, weak_add_ref_deleted, hdel]
  | weak_release =>
    simp only [protocol] at hp
    split_ifs at hp with hc
    cases hp
    refine ⟨?_, ?_, hb1, by omega⟩
    · simp only [counter_step]
      rw [weak_release_cnt_self, hk]
      simp only [counter_at, sp_counter_ptr.mk.injEq, wrap_int]
      refine ⟨?_, ?_, ?_, ?_, ?_⟩ <;>
        first
        | exact True.intro
        | omega
        | (split_ifs <;> omega)
    · simp only [counter_step, weak_release_deleted, hdel]

theorem protocol_cons (sw sw3 : Nat × Nat) (o : CounterOp) (ops : List CounterOp)
    (hp : protocol sw (o :: ops) = some sw3) :
    ∃ sw2, protocol sw [o] = some sw2 ∧ protocol sw2 ops = some sw3 := by
  cases o <;> simp only [protocol] at hp ⊢ <;> split_ifs at hp ⊢ <;> exact ⟨_, rfl, hp⟩

/-- A sequence of operations that follows the protocol takes the counter from its state for the
outstanding references before to its state for the outstanding references after. -/
theorem protocol_run (c : Nat) (p : Addr) (base : List Addr) (ops : List CounterOp) :
    ∀ (h : Heap) (sw sw3 : Nat × Nat), h.cnt c = counter_at p sw →
      h.deleted = base ++ (if sw.1 = 0 then [p] else []) →
      (sw.1 ≤ 2147483647 ∧ sw.2 + 1 ≤ 2147483647) → protocol sw ops = some sw3 →
      (counter_run c h ops).cnt c = counter_at p sw3 ∧
      (counter_run c h ops).deleted = base ++ (if sw3.1 = 0 then [p] else []) ∧
      (sw3.1 ≤ 2147483647 ∧ sw3.2 + 1 ≤ 2147483647) := by
  induction ops with
  | nil =>
    intro h sw sw3 hk hdel hb hp
    simp only [protocol, Option.some.injEq] at hp
    subst hp
    exact ⟨hk, hdel, hb⟩
  | cons o ops ih =>
    intro h sw sw3 hk hdel hb hp
    obtain ⟨sw2, h1, h2⟩ := protocol_cons sw sw3 o ops hp
    obtain ⟨e1, e2, e3⟩ := protocol_step c p h base sw sw2 o hk hdel hb h1
    exact ih (counter_step c h o) sw2 sw3 e1 e2 e3 h2

theorem ctor_eq_counter_at (p : Addr) : sp_counter_ptr.ctor p = counter_at p (1, 0) := by
  simp [sp_counter_ptr.ctor, counter_at]

/-- Once no strong reference is outstanding the protocol admits no operation that brings one
back. -/
theorem protocol_strong_zero (ops : List CounterOp) :
    ∀ (W : Nat) (sw : Nat × Nat), protocol (0, W) ops = some sw → sw.1 = 0 := by
  induction ops with
  | nil =>
    intro W sw hp
    simp only [protocol, Option.some.injEq] at hp
    rw [← hp]
  | cons o ops ih =>
    intro W sw hp
    cases o <;> simp only [protocol] at hp <;> split_ifs at hp with hc
    · omega
    · omega
    · exact ih _ sw hp
    · exact ih _ sw hp

/-- C14 (as amended). On a freshly constructed counter (strong 1, weak 1), after every sequence
of counter operations that follows the protocol (each `release` matches an outstanding strong
reference, each `weak_release` an outstanding weak reference, `add_ref_copy` is called through an
outstanding strong reference and `weak_add_ref` through an outstanding reference, counts within
`INT_MAX`), with `S` strong and `W` weak references outstanding: the strong count is `S`; the
weak count is `W + 1` while `S` is positive and `W` afterwards; `dispose()` has run, once,
exactly when `S = 0`, and then the object is deleted; `destroy()` has run, once, exactly when
`S = 0` and `W = 0`, so never before `dispose()` and only after every reference is released.
The `release` that finds `S = 1` runs `dispose()`, decrements the weak count to `W` and destroys
the counter exactly when `W = 0`; the `weak_release` that finds `S = 0` and `W = 1` destroys the
counter. -/
theorem C14_two_phase_release (h : Heap) (c : Nat) (p : Addr) (ops : List CounterOp)
    (S W : Nat) (hfresh : h.cnt c = sp_counter_ptr.ctor p)
    (hp : protocol (1, 0) ops = some (S, W)) :
    (counter_run c h ops).cnt c =
      { m_use_count := S
        m_weak_count := W + (if 1 ≤ S then 1 else 0)
        m_ptr := p
        disposed := if S = 0 then 1 else 0
        destroyed := if S = 0 ∧ W = 0 then 1 else 0 } ∧
    (counter_run c h ops).deleted = h.deleted ++ (if S = 0 then [p] else []) ∧
    ((counter_run c h ops).cnt c).destroyed ≤ ((counter_run c h ops).cnt c).disposed ∧
    (S = 1 →
      (release (counter_run c h ops) c).cnt c =
        { m_use_count := 0, m_weak_count := W, m_ptr := p, disposed := 1,
          destroyed := if W = 0 then 1 else 0 }) ∧
    (S = 0 → W = 1 →
      (weak_release (counter_run c h ops) c).cnt c =
        { m_use_count := 0, m_weak_count := 0, m_ptr := p, disposed := 1, destroyed := 1 }) := by
  have hdel : h.deleted = h.deleted ++ (if (1, 0).1 = 0 then [p] else []) := by simp
  obtain ⟨e1, e2, e3⟩ := protocol_run c p h.deleted ops h (1, 0) (S, W)
    (hfresh.trans (ctor_eq_counter_at p)) hdel (by decide) hp
  refine ⟨e1, e2, ?_, ?_, ?_⟩
  · rw [e1]
    simp only [counter_at]
    split_ifs <;> omega
  · intro hS
    subst hS
    have hstep := (protocol_step c p _ h.deleted (1, W) (0, W) .release e1 e2 e3
      (by simp [protocol])).1
    simp only [counter_step] at hstep
    rw [hstep]
    simp [counter_at]
  · intro hS hW
    subst hS hW
    have hstep := (protocol_step c p _ h.deleted (0, 1) (0, 0) .weak_release e1 e2 e3
      (by simp [protocol])).1
    simp only [counter_step] at hstep
    rw [hstep]
    simp [counter_at]

/-- Witness for C14: one copy and one weak observer, then everything is released. -/
theorem C14_two_phase_release_witness :
    (counter_run 1 (Heap.empty.store 1 (sp_counter_ptr.ctor 10))
        [.add_ref_copy, .weak_add_ref, .release, .release, .weak_release]).cnt 1 =
      { m_use_count := (0 : Nat)
        m_weak_count := (0 : Nat) + (if 1 ≤ 0 then 1 else 0)
        m_ptr := 10
        disposed := if 0 = 0 then 1 else 0
        destroyed := if 0 = 0 ∧ 0 = 0 then 1 else 0 } ∧
    (counter_run 1 (Heap.empty.store 1 (sp_counter_ptr.ctor 10))
        [.add_ref_copy, .weak_add_ref, .release, .release, .weak_release]).deleted
      = (Heap.empty.store 1 (sp_counter_ptr.ctor 10)).deleted ++ (if 0 = 0 then [10] else []) ∧
    ((counter_run 1 (Heap.empty.store 1 (sp_counter_ptr.ctor 10))
        [.add_ref_copy, .weak_add_ref, .release, .release, .weak_release]).cnt 1).destroyed
      ≤ ((counter_run 1 (Heap.empty.store 1 (sp_counter_ptr.ctor 10))
        [.add_ref_copy, .weak_add_ref, .release, .release, .weak_release]).cnt 1).disposed ∧
    (0 = 1 →
      (release (counter_run 1 (Heap.empty.store 1 (sp_counter_ptr.ctor 10))
        [.add_ref_copy, .weak_add_ref, .release, .release, .weak_release]) 1).cnt 1 =
        { m_use_count := 0, m_weak_count := (0 : Nat), m_ptr := 10, disposed := 1,
          destroyed := if 0 = 0 then 1 else 0 }) ∧
    (0 = 0 → 0 = 1 →
      (weak_release (counter_run 1 (Heap.empty.store 1 (sp_counter_ptr.ctor 10))
        [.add_ref_copy, .weak_add_ref, .release, .release, .weak_release]) 1).cnt 1 =
        { m_use_count := 0, m_weak_count := 0, m_ptr := 10, disposed := 1, destroyed := 1 }) :=
  C14_two_phase_release (Heap.empty.store 1 (sp_counter_ptr.ctor 10)) 1 10
    [.add_ref_copy, .weak_add_ref, .release, .release, .weak_release] 0 0 (by decide) (by decide)

theorem matched_replicate_add (k : Nat) :
    ∀ S W : Nat, matched (S, W) (List.replicate k CounterOp.add_ref_copy) = some (S + k, W) := by
  induction k with
  | zero => intro S W; rfl
  | succ k ih =>
    intro S W
    rw [List.replicate_succ]
    simp only [matched]
    rw [ih]
    congr 2
    omega

theorem counter_run_replicate_add (c : Nat) (k : Nat) :
    ∀ (h : Heap) (v : Int), (h.cnt c).m_use_count = wrap_int v →
      (counter_run c h (List.replicate k CounterOp.add_ref_copy)).cnt c
        = { h.cnt c with m_use_count := wrap_int (v + k) } := by
  induction k with
  | zero =>
    intro h v hv
    simp [counter_run, ← hv]
  | succ k ih =>
    intro h v hv
    rw [List.replicate_succ]
    simp only [counter_run, List.foldl_cons, counter_step]
    have hv2 : ((add_ref_copy h c).cnt c).m_use_count = wrap_int (v + 1) := by
      rw [add_ref_copy_cnt_self, hv]
      exact wrap_int_succ v
    have := ih (add_ref_copy h c) (v + 1) hv2
    simp only [counter_run] at this
    rw [this, add_ref_copy_cnt_self]
    simp only [sp_counter_ptr.mk.injEq, and_true]
    congr 1
    push_cast
    omega

/-- C14 as stated fails. On the fresh counter `weak_add_ref, release, add_ref_copy, release`
matches every release with an outstanding strong reference and calls no `weak_release`, so the
counter stays alive up to the last call; yet after `weak_add_ref, release, add_ref_copy` the
strong count is 1 while the weak count is 1, not 2 (one weak reference is outstanding), and the
second `release` runs `dispose()` a second time and destroys the counter while the weak reference
is still outstanding. And after 2147483647 calls of `add_ref_copy`, 2147483648 strong references
are outstanding but the strong count is -2147483648, not positive, with the weak count still
1. -/
theorem C14_fails_without_protocol :
    matched (1, 0) [.weak_add_ref, .release, .add_ref_copy, .release] = some (0, 1) ∧
    (counter_run 1 (Heap.empty.store 1 (sp_counter_ptr.ctor 10))
      [.weak_add_ref, .release, .add_ref_copy]).cnt 1 = ⟨1, 1, 10, 1, 0⟩ ∧
    (counter_run 1 (Heap.empty.store 1 (sp_counter_ptr.ctor 10))
      [.weak_add_ref, .release, .add_ref_copy, .release]).cnt 1 = ⟨0, 0, 10, 2, 1⟩ ∧
    matched (1, 0) (List.replicate 2147483647 CounterOp.add_ref_copy)
      = some (2147483648, 0) ∧
    (counter_run 1 (Heap.empty.store 1 (sp_counter_ptr.ctor 10))
      (List.replicate 2147483647 CounterOp.add_ref_copy)).cnt 1
        = ⟨-2147483648, 1, 10, 0, 0⟩ := by
  refine ⟨by decide, by decide, by decide, matched_replicate_add 2147483647 1 0, ?_⟩
  rw [counter_run_replicate_add 1 2147483647 _ 1 (by decide)]
  decide

/-- C15 (as amended). On a freshly constructed counter, along every sequence of counter
operations that follows the protocol (`add_ref_copy` and `release` only through an outstanding
strong reference, `weak_add_ref` through an outstanding reference, `weak_release` matching an
outstanding weak reference, counts within `INT_MAX`), the strong count is never negative: it is
the number of outstanding strong references; and once it is 0 it is 0 after every continuation
that follows the protocol. -/
theorem C15_strong_count_invariant (h : Heap) (c : Nat) (p : Addr) (ops more : List CounterOp)
    (S W S2 W2 : Nat) (hfresh : h.cnt c = sp_counter_ptr.ctor p)
    (h1 : protocol (1, 0) ops = some (S, W)) (h2 : protocol (S, W) more = some (S2, W2)) :
    ((counter_run c h ops).cnt c).m_use_count = S ∧
    0 ≤ ((counter_run c h ops).cnt c).m_use_count ∧
    ((counter_run c h (ops ++ more)).cnt c).m_use_count = S2 ∧
    0 ≤ ((counter_run c h (ops ++ more)).cnt c).m_use_count ∧
    (((counter_run c h ops).cnt c).m_use_count = 0 →
      ((counter_run c h (ops ++ more)).cnt c).m_use_count = 0) := by
  have hdel : h.deleted = h.deleted ++ (if (1, 0).1 = 0 then [p] else []) := by simp
  obtain ⟨e1, e2, e3⟩ := protocol_run c p h.deleted ops h (1, 0) (S, W)
    (hfresh.trans (ctor_eq_counter_at p)) hdel (by decide) h1
  obtain ⟨f1, _, _⟩ := protocol_run c p h.deleted more (counter_run c h ops) (S, W) (S2, W2)
    e1 e2 e3 h2
  have happ : counter_run c h (ops ++ more) = counter_run c (counter_run c h ops) more := by
    simp [counter_run, List.foldl_append]
  rw [happ, e1, f1]
  simp only [counter_at]
  refine ⟨True.intro, by omega, True.intro, by omega, ?_⟩
  intro h0
  have hS : S = 0 := by omega
  subst hS
  have := protocol_strong_zero more W (S2, W2) h2
  simp only at this
  omega

/-- Witness for C15: the counter is copied, both strong references are released, and a weak
observer comes and goes afterwards. -/
theorem C15_strong_count_invariant_witness :
    ((counter_run 1 (Heap.empty.store 1 (sp_counter_ptr.ctor 10))
      [.add_ref_copy, .weak_add_ref, .release, .release]).cnt 1).m_use_count = (0 : Nat) ∧
    0 ≤ ((counter_run 1 (Heap.empty.store 1 (sp_counter_ptr.ctor 10))
      [.add_ref_copy, .weak_add_ref, .release, .release]).cnt 1).m_use_count ∧
    ((counter_run 1 (Heap.empty.store 1 (sp_counter_ptr.ctor 10))
      ([.add_ref_copy, .weak_add_ref, .release, .release]
        ++ [.weak_add_ref, .weak_release])).cnt 1).m_use_count = (0 : Nat) ∧
    0 ≤ ((counter_run 1 (Heap.empty.store 1 (sp_counter_ptr.ctor 10))
      ([.add_ref_copy, .weak_add_ref, .release, .release]
        ++ [.weak_add_ref, .weak_release])).cnt 1).m_use_count ∧
    (((counter_run 1 (Heap.empty.store 1 (sp_counter_ptr.ctor 10))
      [.add_ref_copy, .weak_add_ref, .release, .release]).cnt 1).m_use_count = 0 →
      ((counter_run 1 (Heap.empty.store 1 (sp_counter_ptr.ctor 10))
        ([.add_ref_copy, .weak_add_ref, .release, .release]
          ++ [.weak_add_ref, .weak_release])).cnt 1).m_use_count = 0) :=
  C15_strong_count_invariant (Heap.empty.store 1 (sp_counter_ptr.ctor 10)) 1 10
    [.add_ref_copy, .weak_add_ref, .release, .release] [.weak_add_ref, .weak_release]
    0 1 0 1 (by decide) (by decide) (by decide)

/-- C15 as stated fails on the fresh counter, with a weak reference keeping the counter alive
throughout: after `weak_add_ref, release` the strong count is 0 and the counter is not destroyed;
`add_ref_copy`, which checks nothing, then increases the strong count to 1; and a second
`release` instead leaves it at -1. -/
theorem C15_fails_without_protocol :
    (counter_run 1 (Heap.empty.store 1 (sp_counter_ptr.ctor 10))
      [.weak_add_ref, .release]).cnt 1 = ⟨0, 1, 10, 1, 0⟩ ∧
    (counter_run 1 (Heap.empty.store 1 (sp_counter_ptr.ctor 10))
      [.weak_add_ref, .release, .add_ref_copy]).cnt 1 = ⟨1, 1, 10, 1, 0⟩ ∧
    (counter_run 1 (Heap.empty.store 1 (sp_counter_ptr.ctor 10))
      [.weak_add_ref, .release, .release]).cnt 1 = ⟨-1, 1, 10, 1, 0⟩ := by
  refine ⟨by decide, by decide, by decide⟩

/-! ## No counter leak through the handle operations -/

theorem reachableWithinInt_countInv (s : State) (hs : ReachableWithinInt s) :
    CountInv (s.heap, s.absrefs) :=
  reach_inv _ (fun _ _ => True) (fun n => (n : Int) ≤ INT_MAX) CountInv countInv_init
    (fun a b hm ha => micro_countInv _ a b hm ha)
    (fun s op t h => ⟨op_ptr_ok_trivial s op, fun c => by
      have := absrefs_le_length t c
      omega⟩) s hs

/-- C19 (as amended). In every state reachable by the handle operations alone without ever
holding more than `INT_MAX` handles: every counter that is not destroyed has weak count 1; so a
`release` that finds the strong count at 1, the one that disposes the managed object, also
destroys the counter in the same call; and once every handle has been destroyed or reset (no
handle references a counter), every counter ever created has been disposed exactly once and
destroyed exactly once. -/
theorem C19_no_counter_leak (s : State) (hs : ReachableWithinInt s) :
    (∀ c, 1 ≤ c → c ≤ s.heap.allocated → (s.heap.cnt c).destroyed = 0 →
      (s.heap.cnt c).m_weak_count = 1) ∧
    (∀ c, 1 ≤ c → c ≤ s.heap.allocated → (s.heap.cnt c).m_use_count = 1 →
      (s.heap.cnt c).disposed = 0 ∧ (s.heap.cnt c).destroyed = 0 ∧
      ((release s.heap c).cnt c).disposed = 1 ∧ ((release s.heap c).cnt c).destroyed = 1) ∧
    ((∀ x ∈ s.handles, x.m_ref_count.m_ptr = 0) →
      ∀ c, 1 ≤ c → c ≤ s.heap.allocated →
        (s.heap.cnt c).disposed = 1 ∧ (s.heap.cnt c).destroyed = 1) := by
  obtain ⟨_, hc⟩ := reachableWithinInt_countInv s hs
  simp only at hc
  refine ⟨?_, ?_, ?_⟩
  · intro c h1 h2 hd
    obtain ⟨_, _, e3, e4⟩ := hc c h1 h2
    rcases Nat.eq_zero_or_pos (s.absrefs c) with h0 | h0
    · have := (e4 h0).2.1
      omega
    · exact (e3 h0).2.2
  · intro c h1 h2 hu
    obtain ⟨e1, _, e3, e4⟩ := hc c h1 h2
    have hpos : 1 ≤ s.absrefs c := by
      rw [e1] at hu
      omega
    obtain ⟨f1, f2, f3⟩ := e3 hpos
    rw [release_cnt_self_of_one _ _ hu]
    simp [f1, f2, f3]
  · intro hall c h1 h2
    obtain ⟨_, _, _, e4⟩ := hc c h1 h2
    have h0 : s.absrefs c = 0 := by
      have hc0 : c ≠ 0 := by omega
      simp only [State.absrefs, hc0, if_false, State.refs]
      rw [List.countP_eq_zero]
      intro x hx
      have := hall x hx
      simp only [decide_eq_true_eq]
      omega
    exact ⟨(e4 h0).1, (e4 h0).2.1⟩

theorem fan_reset_within (p : Addr) (hp : p ≠ 0) :
    ReachableWithinInt ⟨release (fan p 0).heap 1, (fan p 0).handles.set 0 ⟨0, ⟨0⟩⟩⟩ := by
  have h0 : ReachableWithinInt (fan p 0) :=
    Reach.mono (fun _ _ _ h => h.2) (fan_reachableBounded p hp 0 (by decide))
  refine Reach.step (Op.reset 0) h0 (fan_step_reset p 0) ?_
  simp [fan, INT_MAX]

/-- Witness for C19: the state after `shared_ptr<A> sp(new A); sp.reset()`. -/
theorem C19_no_counter_leak_witness :
    (∀ c, 1 ≤ c → c ≤ (release (fan 10 0).heap 1).allocated →
      ((release (fan 10 0).heap 1).cnt c).destroyed = 0 →
      ((release (fan 10 0).heap 1).cnt c).m_weak_count = 1) ∧
    (∀ c, 1 ≤ c → c ≤ (release (fan 10 0).heap 1).allocated →
      ((release (fan 10 0).heap 1).cnt c).m_use_count = 1 →
      ((release (fan 10 0).heap 1).cnt c).disposed = 0 ∧
      ((release (fan 10 0).heap 1).cnt c).destroyed = 0 ∧
      ((release (release (fan 10 0).heap 1) c).cnt c).disposed = 1 ∧
      ((release (release (fan 10 0).heap 1) c).cnt c).destroyed = 1) ∧
    ((∀ x ∈ (fan 10 0).handles.set 0 ⟨0, ⟨0⟩⟩, x.m_ref_count.m_ptr = 0) →
      ∀ c, 1 ≤ c → c ≤ (release (fan 10 0).heap 1).allocated →
        ((release (fan 10 0).heap 1).cnt c).disposed = 1 ∧
        ((release (fan 10 0).heap 1).cnt c).destroyed = 1) :=
  C19_no_counter_leak ⟨release (fan 10 0).heap 1, (fan 10 0).handles.set 0 ⟨0, ⟨0⟩⟩⟩
    (fan_reset_within 10 (by decide))

theorem drain_zero (p : Addr) (k : Nat) : drain p k 0 = fan p k := rfl

theorem drain_heap_succ (p : Addr) (k j : Nat) :
    (drain p k (j + 1)).heap = release (drain p k j).heap 1 := by
  show Nat.iterate (fun g => release g 1) (j + 1) (fan p k).heap
    = release (Nat.iterate (fun g => release g 1) j (fan p k).heap) 1
  rw [Function.iterate_succ_apply']

theorem drain_step (p : Addr) (k j : Nat) (hj : j ≤ k) :
    step (drain p k j) (.dtor 0) = some (drain p k (j + 1)) := by
  have h1 : k + 1 - j = (k + 1 - (j + 1)) + 1 := by omega
  have hh : (drain p k j).handles = ⟨p, ⟨1⟩⟩ :: List.replicate (k + 1 - (j + 1)) ⟨p, ⟨1⟩⟩ := by
    show List.replicate (k + 1 - j) _ = _
    rw [h1, List.replicate_succ]
  have h0 : (drain p k j).handles[0]? = some ⟨p, ⟨1⟩⟩ := by
    rw [hh, List.getElem?_cons_zero]
  have he : (drain p k j).handles.eraseIdx 0 = List.replicate (k + 1 - (j + 1)) ⟨p, ⟨1⟩⟩ := by
    rw [hh]; rfl
  simp only [step, h0, he, dtor_eq_release _ ⟨p, ⟨1⟩⟩ (show (1 : Nat) ≠ 0 by decide)]
  have hi : release (drain p k j).heap 1 = (drain p k (j + 1)).heap := by
    show release (Nat.iterate (fun g => release g 1) j (fan p k).heap) 1
      = Nat.iterate (fun g => release g 1) (j + 1) (fan p k).heap
    rw [Function.iterate_succ_apply']
  rw [hi]
  rfl

theorem drain_reachable (p : Addr) (hp : p ≠ 0) (k j : Nat) (hj : j ≤ k + 1) :
    Reachable (drain p k j) := by
  induction j with
  | zero => rw [drain_zero]; exact fan_reachable p hp k
  | succ j ih =>
    exact Reach.step (Op.dtor 0) (ih (by omega)) (drain_step p k j (by omega)) trivial

theorem drain_handles_end (p : Addr) (k : Nat) : (drain p k (k + 1)).handles = [] := by
  simp [drain]

/-- Releases of a counter whose strong count has gone to 0 or below only decrement it, until
it has wrapped around to 1. -/
theorem release_iter_nonpos (c : Nat) (m : Nat) :
    ∀ (h : Heap) (u : Int), (h.cnt c).m_use_count = wrap_int u → u ≤ 0 →
      -4294967295 ≤ u - m →
      (Nat.iterate (fun g => release g c) m h).cnt c
        = { h.cnt c with m_use_count := wrap_int (u - m) } := by
  induction m with
  | zero =>
    intro h u hu _ _
    simp [← hu]
  | succ m ih =>
    intro h u hu h0 hlow
    push_cast at hlow
    rw [Function.iterate_succ_apply]
    have h1 : (h.cnt c).m_use_count ≠ 1 := by
      rw [hu]; unfold wrap_int; omega
    have hu2 : ((release h c).cnt c).m_use_count = wrap_int (u - 1) := by
      rw [release_use_count, hu, wrap_int_pred]
    rw [ih (release h c) (u - 1) hu2 (by omega) (by omega),
      release_cnt_self_of_ne_one _ _ h1]
    simp only [sp_counter_ptr.mk.injEq, and_true]
    congr 1
    push_cast
    omega

theorem drain_heap_end (p : Addr) (m : Nat) (hm : (m : Int) = 4294967295) :
    (drain p (m + 1) (m + 1 + 1)).heap.cnt 1 = ⟨0, -1, p, 2, 1⟩ := by
  have hw : wrap_int (((m + 1 : Nat) : Int) + 1) = 1 := by
    push_cast; unfold wrap_int; omega
  obtain ⟨e1, _⟩ := fan_release_of_one p (m + 1) hw
  show (Nat.iterate (fun g => release g 1) (m + 1 + 1) (fan p (m + 1)).heap).cnt 1 = _
  rw [Function.iterate_succ_apply', Function.iterate_succ_apply]
  have hu : ((release (fan p (m + 1)).heap 1).cnt 1).m_use_count = wrap_int 0 := by
    rw [e1]; rfl
  have e2 := release_iter_nonpos 1 m (release (fan p (m + 1)).heap 1) 0 hu (by omega)
    (by omega)
  have hone : ((Nat.iterate (fun g => release g 1) m
      (release (fan p (m + 1)).heap 1)).cnt 1).m_use_count = 1 := by
    rw [e2]
    show wrap_int (0 - (m : Int)) = 1
    unfold wrap_int; omega
  rw [release_cnt_self_of_one _ _ hone, e2, e1]
  simp [wrap_int]

/-- One handle made from a raw pointer, copied `k = 2^32` times, then the handles destroyed one
by one. After the first destructor the counter has been disposed and destroyed while `k` handles
still reference it; after the last one no handle is left and the counter has been disposed
twice. -/
theorem drain_end (p : Addr) (hp : p ≠ 0) (k : Nat) (hk : k = 4294967296) :
    Reachable (drain p k 1) ∧
    (drain p k 1).handles = List.replicate k ⟨p, ⟨1⟩⟩ ∧
    (drain p k 1).heap.cnt 1 = ⟨0, 0, p, 1, 1⟩ ∧
    Reachable (drain p k (k + 1)) ∧
    (drain p k (k + 1)).handles = [] ∧
    (drain p k (k + 1)).heap.cnt 1 = ⟨0, -1, p, 2, 1⟩ := by
  obtain ⟨m, rfl⟩ : ∃ m, k = m + 1 := ⟨k - 1, by omega⟩
  have hm : (m : Int) = 4294967295 := by omega
  have hw : wrap_int (((m + 1 : Nat) : Int) + 1) = 1 := by
    push_cast; unfold wrap_int; omega
  have h1 : (drain p (m + 1) 1).heap = release (fan p (m + 1)).heap 1 := by
    rw [drain_heap_succ p (m + 1) 0, drain_zero]
  refine ⟨drain_reachable p hp (m + 1) 1 (by omega), ?_, ?_,
    drain_reachable p hp (m + 1) (m + 1 + 1) (le_refl _), drain_handles_end p (m + 1),
    drain_heap_end p m hm⟩
  · show List.replicate (m + 1 + 1 - 1) _ = _
    rw [Nat.add_sub_cancel]
  · rw [h1]
    exact (fan_release_of_one p (m + 1) hw).1

/-- C19 as stated fails once more than `INT_MAX` handles share a counter. After
`shared_ptr<A> sp(new A)` and 4294967296 copies the strong count has wrapped around to 1, so the
first destructor already disposes the object and destroys the counter while 4294967296 handles
still reference it. The remaining destructors then run `release()` on that counter (in C++ on
freed storage; the heap keeps the record of a destroyed counter and goes on counting): once all
4294967297 handles are destroyed no handle is left, and the only counter ever created has run
`dispose()` twice, in the first release and in the last. -/
theorem C19_fails_beyond_int_max :
    Reachable (drain 10 4294967296 1) ∧
    (drain 10 4294967296 1).handles = List.replicate 4294967296 ⟨10, ⟨1⟩⟩ ∧
    (drain 10 4294967296 1).heap.cnt 1 = ⟨0, 0, 10, 1, 1⟩ ∧
    Reachable (drain 10 4294967296 (4294967296 + 1)) ∧
    (drain 10 4294967296 (4294967296 + 1)).handles = [] ∧
    (drain 10 4294967296 (4294967296 + 1)).heap.cnt 1 = ⟨0, -1, 10, 2, 1⟩ :=
  drain_end 10 (by decide) 4294967296 rfl

end lvn
